import Mathlib

/-!
Gsx granular engine (src/src/gsx.cpp)

A shallow embedding of `Gsx::process` and of the helpers it calls.

Number model.  The C++ `float` values are modelled by the elements of a linear
ordered field `α` with exact arithmetic.  The statements that depend on the
rounding of the results (how many ticks a grain lives, how many births fit in
the pool) are made about a second model of the stream state in which every
operation is rounded, `Gsx.Rounded`, instantiated with binary32.  The
`<cmath>` functions the engine calls (`std::sin`, `std::cos`, `std::sqrt`, the
constant `M_PI`) are collected in the class `FloatMath`; over `ℝ` they are the
real functions.  `random::uniform()` is modelled by an explicit stream of draws
that is threaded through the code in program order.

The fixed arrays `Grain grains[20]` and `Stream streams[20]` are lists; the
`for` loops over their indices are recursions over these lists.
-/

namespace Gsx

/-- The `<cmath>` functions used by the engine. -/
class FloatMath (α : Type) where
  /-- Models `std::sin`. -/
  sin : α → α
  /-- Models `std::cos`. -/
  cos : α → α
  /-- Models `std::sqrt`. -/
  sqrt : α → α
  /-- Models `M_PI`. -/
  pi : α

/-- Over the reals the math functions are the real ones. -/
noncomputable instance realMath : FloatMath ℝ where
  sin := Real.sin
  cos := Real.cos
  sqrt := Real.sqrt
  pi := Real.pi

section Model

variable {α : Type} [LinearOrderedField α]

/-- The `clamp(x, a, b)` of the host SDK: `fmax(fmin(x, b), a)`. -/
def clamp (x a b : α) : α := max (min x b) a

/-- A source of `random::uniform()` draws: draw `n` is the `n`-th call from now. -/
abbrev Rng (α : Type) := Nat → α

/-- The value returned by the next call of `random::uniform()`. -/
def Rng.next (r : Rng α) : α := r 0

/-- The source after one call of `random::uniform()`. -/
def Rng.advance (r : Rng α) : Rng α := fun n => r (n + 1)

/-- `MAX_STREAMS`. -/
def MAX_STREAMS : Nat := 20

/-- `GRAINS_PER_STREAM`. -/
def GRAINS_PER_STREAM : Nat := 20

/-- `struct Grain` (gsx.cpp 40-62). -/
structure Grain (α : Type) where
  active : Bool
  envelopePhase : α
  wavePhase : α
  frequency : α
  duration : α
  pan : α

/-- The default member initialisers of `Grain` (gsx.cpp 41-46). -/
def Grain.init : Grain α :=
  { active := false, envelopePhase := 0, wavePhase := 0,
    frequency := 440, duration := 0.02, pan := 0.5 }

/-- `Grain::reset` (gsx.cpp 48-52). -/
def Grain.reset (g : Grain α) : Grain α :=
  { g with active := false, envelopePhase := 0, wavePhase := 0 }

/-- `Grain::trigger` (gsx.cpp 54-61). -/
def Grain.trigger (g : Grain α) (freq dur panPos : α) : Grain α :=
  { g with active := true, envelopePhase := 0, wavePhase := 0,
           frequency := freq, duration := dur, pan := clamp panPos 0 1 }

/-- `struct Stream` (gsx.cpp 122-126). -/
structure Stream (α : Type) where
  grains : List (Grain α)
  nextGrainTime : α
  phaseAccumulator : α

/-- The default member initialisers of `Stream`: 20 default grains, timer 0. -/
def Stream.init : Stream α :=
  { grains := List.replicate GRAINS_PER_STREAM Grain.init,
    nextGrainTime := 0, phaseAccumulator := 0 }

/-- The engine state: `Stream streams[MAX_STREAMS]`. -/
structure Engine (α : Type) where
  streams : List (Stream α)

/-- The freshly constructed engine. -/
def Engine.init : Engine α :=
  { streams := List.replicate MAX_STREAMS Stream.init }

/-- The values `Gsx::process` has read from its knobs and CV inputs
(gsx.cpp 157-221) before the stream loop, and the tick size. -/
structure Params (α : Type) where
  sampleTime : α
  centerFreq : α
  /-- The rounded stream count before the clamp of line 168. -/
  numStreams : Int
  shape : α
  range : α
  duration : α
  density : α
  /-- The resolved value of the Delay control, in seconds. -/
  delayOffset : α
  variation : α
  spread : α
  vcaGain : α

/-- `Gsx::hannWindow` (gsx.cpp 66-70). -/
def hannWindow [FloatMath α] (phase : α) : α :=
  if phase < 0 ∨ phase > 1 then 0
  else 0.5 * (1 - FloatMath.cos (2 * FloatMath.pi * phase))

/-- `Gsx::generateGrainWave` (gsx.cpp 75-116). -/
def generateGrainWave [FloatMath α] (phase shape : α) : α :=
  let sine := FloatMath.sin (phase * 2 * FloatMath.pi)
  let triangle :=
    if phase < 0.25 then 4 * phase
    else if phase < 0.75 then 2 - 4 * phase
    else 4 * phase - 4
  let sawtooth := if phase < 0.5 then 2 * phase else 2 * phase - 2
  let square : α := if phase < 0.5 then 1 else -1
  if shape ≤ 0.33 then
    let mix := shape * 3
    sine * (1 - mix) + triangle * mix
  else if shape ≤ 0.66 then
    let mix := (shape - 0.33) * 3
    triangle * (1 - mix) + sawtooth * mix
  else
    let mix := (shape - 0.66) * 3
    sawtooth * (1 - mix) + square * mix

/-- The numStreams clamp of gsx.cpp 168 (integer `clamp`). -/
def activeStreams (numStreams : Int) : Nat :=
  (max (min numStreams (MAX_STREAMS : Int)) 1).toNat

/-- The base retrigger interval `delay` (gsx.cpp 193-205). -/
def baseDelay (density delayOffset : α) : α :=
  if delayOffset > 0.0002 then delayOffset else 1 / density

/-- The frequency of a new grain (gsx.cpp 242-250), with the rest of the draws. -/
def spawnFreq (p : Params α) (r : Rng α) : α × Rng α :=
  if p.variation > 0.01 ∧ p.range > 0 then
    let variationScale :=
      if p.variation < 0.3 then p.variation * p.variation / 0.3 else p.variation
    let freqOffset := (r.next - 0.5) * 2 * p.range * variationScale
    (clamp (p.centerFreq + freqOffset) 20 20000, r.advance)
  else
    (clamp p.centerFreq 20 20000, r)

/-- The duration of a new grain (gsx.cpp 254-261), with the rest of the draws. -/
def spawnDur (p : Params α) (r : Rng α) : α × Rng α :=
  if p.variation > 0.01 then
    let variationScale := p.variation * p.variation
    let durVariation := (r.next - 0.5) * 2 * variationScale * 0.3
    (clamp (p.duration * (1 + durVariation)) 0.001 0.2, r.advance)
  else
    (clamp p.duration 0.001 0.2, r)

/-- The pan position of a new grain (gsx.cpp 265-280), with the rest of the draws. -/
def spawnPan [FloatMath α] (p : Params α) (r : Rng α) : α × Rng α :=
  if p.spread > 0.01 then
    let randomPan := r.next
    let offset := randomPan - 0.5
    let sign : α := if offset ≥ 0 then 1 else -1
    let normalized := |offset| * 2
    let pushed := FloatMath.sqrt normalized * 0.5 * sign
    (clamp (0.5 + pushed * p.spread) 0 1, r.advance)
  else
    (0.5, r)

/-- The body of the slot-search `if` (gsx.cpp 240-283): the slot `g` after
`trigger` with the three computed parameters, and the rest of the draws. -/
def triggerSlot [FloatMath α] (p : Params α) (g : Grain α) (r : Rng α) :
    Grain α × Rng α :=
  let (grainFreq, r1) := spawnFreq p r
  let (grainDur, r2) := spawnDur p r1
  let (panPos, r3) := spawnPan p r2
  (g.trigger grainFreq grainDur panPos, r3)

/-- The slot-search loop (gsx.cpp 238-286): the first inactive slot is
triggered and the loop is left (`break`). -/
def spawnGrain [FloatMath α] (p : Params α) :
    List (Grain α) → Rng α → List (Grain α) × Rng α
  | [], r => ([], r)
  | g :: gs, r =>
    if !g.active then
      let (g', r') := triggerSlot p g r
      (g' :: gs, r')
    else
      let (gs', r') := spawnGrain p gs r
      (g :: gs', r')

/-- The next retrigger time (gsx.cpp 290-297), with the rest of the draws. -/
def scheduleNext (p : Params α) (r : Rng α) : α × Rng α :=
  let delay := baseDelay p.density p.delayOffset
  if p.variation > 0.01 ∧ delay > 0 then
    let variationScale := p.variation * p.variation
    let delayVariation := (r.next - 0.5) * 2 * variationScale
    (max 0.001 (delay * (1 + delayVariation)), r.advance)
  else
    (max 0.001 delay, r)

/-- The wrap loop `while (wavePhase >= 1.f) wavePhase -= 1.f` (gsx.cpp 324). -/
def wrapPhase [FloorRing α] (x : α) : α :=
  if x ≥ 1 then wrapPhase (x - 1) else x
termination_by ⌊x⌋₊
decreasing_by
  rename_i h
  have h1 : 1 ≤ ⌊x⌋₊ := Nat.le_floor (by simpa using h)
  rw [Nat.floor_sub_one]
  omega

/-- The phase update of an active grain (gsx.cpp 321-333): the wave phase
advances and wraps, the envelope phase advances, and the grain is reset
when its envelope phase has reached 1.  The results are exact here; the
update with rounded results is `Rounded.advanceGrain`. -/
def advanceGrain [FloorRing α] (sampleTime : α) (g : Grain α) : Grain α :=
  let waveIncrement := g.frequency * sampleTime
  let wavePhase := wrapPhase (g.wavePhase + waveIncrement)
  let envelopeIncrement := sampleTime / g.duration
  let envelopePhase := g.envelopePhase + envelopeIncrement
  let g' := { g with wavePhase := wavePhase, envelopePhase := envelopePhase }
  if envelopePhase ≥ 1 then g'.reset else g'

/-- One pass of the grain loop body over a slot as far as the slot itself is
concerned (gsx.cpp 302-333): inactive slots are skipped (`continue`). -/
def stepGrain [FloorRing α] (sampleTime : α) (g : Grain α) : Grain α :=
  if !g.active then g else advanceGrain sampleTime g

/-- The accumulators `leftOut`, `rightOut`, `activeGrainCount` (gsx.cpp 224-226). -/
structure Mix (α : Type) where
  leftOut : α
  rightOut : α
  activeGrainCount : Nat

/-- The accumulators at the start of a tick. -/
def Mix.zero : Mix α := { leftOut := 0, rightOut := 0, activeGrainCount := 0 }

/-- The contribution of one active grain to the accumulators (gsx.cpp 305-319). -/
def mixGrain [FloatMath α] (shape : α) (g : Grain α) (m : Mix α) : Mix α :=
  let envelope := hannWindow g.envelopePhase
  let grainSample := generateGrainWave g.wavePhase shape * envelope
  let leftGain := FloatMath.sqrt (1 - g.pan)
  let rightGain := FloatMath.sqrt g.pan
  { leftOut := m.leftOut + grainSample * leftGain,
    rightOut := m.rightOut + grainSample * rightGain,
    activeGrainCount := m.activeGrainCount + 1 }

/-- The grain loop of one stream (gsx.cpp 301-334). -/
def processGrains [FloorRing α] [FloatMath α] (shape sampleTime : α) :
    List (Grain α) → Mix α → List (Grain α) × Mix α
  | [], m => ([], m)
  | g :: gs, m =>
    if !g.active then
      let (gs', m') := processGrains shape sampleTime gs m
      (g :: gs', m')
    else
      let (gs', m') := processGrains shape sampleTime gs (mixGrain shape g m)
      (advanceGrain sampleTime g :: gs', m')

/-- The timer and spawn part of the stream loop body (gsx.cpp 233-298). -/
def spawnStep [FloatMath α] (p : Params α) (s : Stream α) (r : Rng α) :
    Stream α × Rng α :=
  let t := s.nextGrainTime - p.sampleTime
  if t ≤ 0 then
    let (grains, r1) := spawnGrain p s.grains r
    let (next, r2) := scheduleNext p r1
    ({ s with grains := grains, nextGrainTime := next }, r2)
  else
    ({ s with nextGrainTime := t }, r)

/-- The stream loop body (gsx.cpp 230-334). -/
def processStream [FloorRing α] [FloatMath α] (p : Params α) (s : Stream α)
    (r : Rng α) (m : Mix α) : Stream α × Rng α × Mix α :=
  let (s1, r1) := spawnStep p s r
  let (grains, m1) := processGrains p.shape p.sampleTime s1.grains m
  ({ s1 with grains := grains }, r1, m1)

/-- The stream loop `for (s = 0; s < numStreams; s++)` (gsx.cpp 229-335):
the first `n` streams are processed in order, the others are left alone. -/
def processStreams [FloorRing α] [FloatMath α] (p : Params α) :
    Nat → List (Stream α) → Rng α → Mix α → List (Stream α) × Rng α × Mix α
  | 0, ss, r, m => (ss, r, m)
  | _ + 1, [], r, m => ([], r, m)
  | n + 1, s :: ss, r, m =>
    let (s', r1, m1) := processStream p s r m
    let (ss', r2, m2) := processStreams p n ss r1 m1
    (s' :: ss', r2, m2)

/-- The density-compensation gain before the VCA (gsx.cpp 340-344). -/
def densityGain [FloatMath α] (activeGrainCount : Nat) : α :=
  if activeGrainCount > 0 then
    clamp (1 / FloatMath.sqrt ((activeGrainCount : α) * 0.5)) 0.15 1
  else 1

/-- The two voltages written by `process` (gsx.cpp 349-350). -/
structure Output (α : Type) where
  left : α
  right : α

/-- `Gsx::process` from the stream loop on (gsx.cpp 223-350): the new engine
state, the rest of the draws and the two output voltages. -/
def process [FloorRing α] [FloatMath α] (p : Params α) (e : Engine α)
    (r : Rng α) : Engine α × Rng α × Output α :=
  let (streams, r1, m) :=
    processStreams p (activeStreams p.numStreams) e.streams r Mix.zero
  let gain := densityGain m.activeGrainCount * p.vcaGain
  ({ streams := streams }, r1,
    { left := clamp (m.leftOut * gain) (-10) 10,
      right := clamp (m.rightOut * gain) (-10) 10 })

/-- The number of active slots of a grain pool. -/
def activeCount (gs : List (Grain α)) : Nat := gs.countP (fun g => g.active)

/-- The number of slots that were inactive in the pool `before` and are
active in the pool `after`: the slots triggered in between. -/
def triggeredSlots (before after : List (Grain α)) : Nat :=
  (List.zip before after).countP (fun x => !x.1.active && x.2.active)

/-- The number of grains triggered during one tick by the spawn steps of the
first `n` streams, the draws being threaded as in `processStreams`. -/
def tickTriggers [FloatMath α] (p : Params α) :
    Nat → List (Stream α) → Rng α → Nat
  | 0, _, _ => 0
  | _ + 1, [], _ => 0
  | n + 1, s :: ss, r =>
    triggeredSlots s.grains (spawnStep p s r).1.grains
      + tickTriggers p n ss (spawnStep p s r).2

/-- The number of grains triggered during `n` consecutive calls of `process`
with the same parameters. -/
def spawnCount [FloorRing α] [FloatMath α] (p : Params α) :
    Nat → Engine α → Rng α → Nat
  | 0, _, _ => 0
  | n + 1, e, r =>
    tickTriggers p (activeStreams p.numStreams) e.streams r
      + spawnCount p n (process p e r).1 (process p e r).2.1

/-- The setting of the end-to-end scenario: one stream, density 100 with the
Delay control not above 0.0002 s, grain duration 0.02 s, no variation, no
spread, centre frequency 440, shape 0, tick size 1/48000 s. -/
def EndToEnd (p : Params α) : Prop :=
  p.sampleTime = 1 / 48000 ∧ p.numStreams = 1 ∧ p.density = 100 ∧
  p.delayOffset ≤ 0.0002 ∧ p.duration = 0.02 ∧ p.variation = 0 ∧
  p.spread = 0 ∧ p.centerFreq = 440 ∧ p.shape = 0

/-- An active grain of duration 0.02 s that has been advanced `n` times at
tick size 1/48000 s. -/
def Aged (n : Nat) (g : Grain α) : Prop :=
  g.active = true ∧ g.duration = 0.02 ∧ g.envelopePhase = (n : α) / 960

/-- The state of the stream of the end-to-end scenario `a` ticks after a
spawn: the timer, a grain of age `a + 1` in one of the slots 0 and 1, in the
other one a grain of age `a + 481` or none, and no grain in the other slots. -/
def EndToEndInv (a : Nat) (s : Stream α) : Prop :=
  a < 480 ∧ s.nextGrainTime = 1 / 100 - (a : α) / 48000 ∧
  ∃ g0 g1 rest, s.grains = g0 :: g1 :: rest ∧ (∀ g ∈ rest, g.active = false) ∧
    ((Aged (a + 1) g0 ∧ (g1.active = false ∨ (a + 481 < 960 ∧ Aged (a + 481) g1))) ∨
     (Aged (a + 1) g1 ∧ (g0.active = false ∨ (a + 481 < 960 ∧ Aged (a + 481) g0))))

/-- A parameter set of the end-to-end scenario (Delay control at its minimum). -/
def scenarioParams : Params α :=
  { sampleTime := 1 / 48000, centerFreq := 440, numStreams := 1, shape := 0,
    range := 100, duration := 0.02, density := 100, delayOffset := 0.0001,
    variation := 0, spread := 0, vcaGain := 1 }

/-- A stream whose 20 slots are all active and whose timer is 0. -/
def fullStream : Stream α :=
  { grains := List.replicate GRAINS_PER_STREAM
      { active := true, envelopePhase := 0.5, wavePhase := 0,
        frequency := 440, duration := 0.02, pan := 0.5 },
    nextGrainTime := 0, phaseAccumulator := 0 }

/-- The enveloped sample of a grain (gsx.cpp 308-312). -/
def grainSample [FloatMath α] (shape : α) (g : Grain α) : α :=
  generateGrainWave g.wavePhase shape * hannWindow g.envelopePhase

/-- The value `leftGain` of the equal-power panning (gsx.cpp 315). -/
def leftGain [FloatMath α] (pan : α) : α := FloatMath.sqrt (1 - pan)

/-- The value `rightGain` of the equal-power panning (gsx.cpp 316). -/
def rightGain [FloatMath α] (pan : α) : α := FloatMath.sqrt pan

/-- A parameter set with variation 0.2, range 300 and full spread. -/
def jitterParams : Params α :=
  { sampleTime := 1 / 48000, centerFreq := 440, numStreams := 1, shape := 0,
    range := 300, duration := 0.02, density := 100, delayOffset := 0.0001,
    variation := 0.2, spread := 1, vcaGain := 1 }

/-- A parameter set with variation 0 and full spread. -/
def panParams : Params α :=
  { sampleTime := 1 / 48000, centerFreq := 440, numStreams := 1, shape := 0,
    range := 300, duration := 0.02, density := 100, delayOffset := 0.0001,
    variation := 0, spread := 1, vcaGain := 1 }

/-- The draw used for the pan of a grain triggered with the draws `r`: the one
that follows the frequency and duration computations. -/
def panDraw (p : Params α) (r : Rng α) : α := (spawnDur p (spawnFreq p r).2).2.next

/-- The value `variationScale` of the frequency computation (gsx.cpp 246). -/
def freqVariationScale (variation : α) : α :=
  if variation < 0.3 then variation * variation / 0.3 else variation

/-- The engine states reachable from the freshly constructed engine by calls
of `process` whose parameters satisfy `ok`, with any draws. -/
inductive ReachableBy [FloorRing α] [FloatMath α] (ok : Params α → Prop) :
    Engine α → Prop
  | init : ReachableBy ok Engine.init
  | step (p : Params α) (r : Rng α) (e : Engine α) :
      ok p → ReachableBy ok e → ReachableBy ok (process p e r).1

/-- The bounds on the parameters of a grain record. -/
def GrainParamsOk (g : Grain α) : Prop :=
  (0.001 ≤ g.duration ∧ g.duration ≤ 0.2) ∧ (0 ≤ g.pan ∧ g.pan ≤ 1) ∧
  (20 ≤ g.frequency ∧ g.frequency ≤ 20000)

/-- The bounds on the phases of a grain record that is active. -/
def GrainPhasesOk (g : Grain α) : Prop :=
  g.active = true →
    (0 ≤ g.envelopePhase ∧ g.envelopePhase < 1) ∧ (0 ≤ g.wavePhase ∧ g.wavePhase < 1)

/-- Every grain record of every stream of the engine satisfies `P`. -/
def EngineAll (P : Grain α → Prop) (e : Engine α) : Prop :=
  ∀ s ∈ e.streams, ∀ g ∈ s.grains, P g

/-- The state of one stream after `k` ticks of the engine: on tick `j` the
stream loop body runs on the stream when the stream is among the active ones
(`act j`), with the parameters `ps j` and the draws `rs j` of that tick. -/
def streamAfter [FloorRing α] [FloatMath α] (act : Nat → Bool) (ps : Nat → Params α)
    (rs : Nat → Rng α) (s : Stream α) : Nat → Stream α
  | 0 => s
  | k + 1 =>
    if act k then
      (processStream (ps k) (streamAfter act ps rs s k) (rs k) Mix.zero).1
    else streamAfter act ps rs s k

/-- The retrigger timer of the stream expires on tick `k`. -/
def expiresOn [FloorRing α] [FloatMath α] (act : Nat → Bool) (ps : Nat → Params α)
    (rs : Nat → Rng α) (s : Stream α) (k : Nat) : Prop :=
  act k = true ∧ (streamAfter act ps rs s k).nextGrainTime - (ps k).sampleTime ≤ 0

/-- The parameters of a tick of the steady scenario: tick size `t`, no
variation (at most 0.01), base interval `D` and grain duration `d`. -/
def SteadyParams (t D d : α) (p : Params α) : Prop :=
  p.sampleTime = t ∧ p.variation ≤ 0.01 ∧
  baseDelay p.density p.delayOffset = D ∧ p.duration = d

/-- The age of a slot after one more advance, for grains that live `L`
advances: `none` stands for an inactive slot. -/
def ageStep (L : Nat) (n : Nat) : Option Nat :=
  if n + 1 < L then some (n + 1) else none

/-- The ages of the slots after the slot search: the first inactive slot gets
age 0. -/
def fillFirst : List (Option Nat) → List (Option Nat)
  | [] => []
  | none :: os => some 0 :: os
  | some n :: os => some n :: fillFirst os

/-- A slot has the given age: it is inactive (`none`), or it is active with
duration `d` and has been advanced `n` times at tick size `t`. -/
def SlotAge (t d : α) (g : Grain α) : Option Nat → Prop
  | none => g.active = false
  | some n => g.active = true ∧ g.duration = d ∧ g.envelopePhase = (n : α) * (t / d)

/-- The ages of the 20 slots of a stream `a` ticks after a spawn, for spawn
period `P` and grain life `L`: the ages of the active slots are distinct,
below `L`, and of the form `a + 1 + j * P`. -/
def AgesOk (P L a : Nat) (ages : List (Option Nat)) : Prop :=
  ages.length = GRAINS_PER_STREAM ∧ ages.reduceOption.Nodup ∧
  ∀ n ∈ ages.reduceOption, n < L ∧ ∃ j : Nat, n = a + 1 + j * P

/-- The state of the stream of the steady scenario `a` ticks after a spawn. -/
def SteadyInv [FloorRing α] (t D d : α) (a : Nat) (s : Stream α) : Prop :=
  a < ⌈D / t⌉₊ ∧
  (if a + 1 = ⌈D / t⌉₊ then s.nextGrainTime - t ≤ 0
   else s.nextGrainTime = D - (a : α) * t) ∧
  ∃ ages : List (Option Nat),
    List.Forall₂ (SlotAge t d) s.grains ages ∧ AgesOk ⌈D / t⌉₊ ⌈d / t⌉₊ a ages

end Model

end Gsx

/-!
Binary32 arithmetic

The engine computes in C++ `float`.  Where a statement depends on the rounding
of the results (the number of ticks a grain lives, the number of ticks between
two expiries of a timer), the state update of a stream is modelled once more
with an explicit rounding after every operation.  Binary32 values are
rationals; `round32` rounds an exact result to the nearest value with a 24 bit
significand, the even one when two are equally near, with the exponent range
of binary32 at the lower end (overflow is not modelled: no value of the
engine's state comes near `2 ^ 128`).  Every operation on `float` operands is
rounded to binary32 on its own: no wider intermediate precision and no fused
multiply-add.
-/

namespace Gsx

/-- The position of the leading binary digit of `n`, by halving at most `fuel`
times. -/
def log2Fuel : Nat → Nat → Nat
  | 0, _ => 0
  | fuel + 1, n => if 2 ≤ n then log2Fuel fuel (n / 2) + 1 else 0

/-- The integer nearest to `n / m`, the even one when two are equally near. -/
def roundHalfEven (n m : Nat) : Nat :=
  let q := n / m
  let r := n % m
  if 2 * r < m then q else if m < 2 * r then q + 1 else if q % 2 = 0 then q else q + 1

/-- The binary exponent of `n / m` for positive `n` and `m`: the `e` with
`2 ^ e ≤ n / m < 2 ^ (e + 1)`. -/
def binaryExponent (n m : Nat) : Int :=
  let e : Int := (log2Fuel n n : Int) - (log2Fuel m m : Int)
  if m * 2 ^ e.toNat ≤ n * 2 ^ (-e).toNat then e else e - 1

/-- The binary32 value nearest to `x` (round to nearest, ties to even): the
significand has 24 bits, the exponent is at least -126. -/
def round32 (x : ℚ) : ℚ :=
  if x = 0 then 0
  else
    let n := x.num.natAbs
    let m := x.den
    let s := max (binaryExponent n m) (-126) - 23
    let mant := roundHalfEven (n * 2 ^ (-s).toNat) (m * 2 ^ s.toNat)
    let y := mkRat (mant * 2 ^ s.toNat : Nat) (2 ^ (-s).toNat)
    if x < 0 then -y else y

/-- The binary32 value nearest to the square root of `x` (`std::sqrt` is
correctly rounded); 0 for `x ≤ 0`. -/
def sqrt32 (x : ℚ) : ℚ :=
  if x ≤ 0 then 0
  else
    let n := x.num.natAbs
    let m := x.den
    let s := max (binaryExponent n m / 2) (-126) - 23
    let N := n * 4 ^ (-s).toNat
    let M := m * 4 ^ s.toNat
    let f := Nat.sqrt (N / M)
    let mant :=
      if 4 * N < (2 * f + 1) ^ 2 * M then f
      else if (2 * f + 1) ^ 2 * M < 4 * N then f + 1
      else if f % 2 = 0 then f else f + 1
    mkRat (mant * 2 ^ s.toNat : Nat) (2 ^ (-s).toNat)

/-- The arithmetic in which the engine computes: `rnd` is the rounding applied
to the exact result of an operation and to a decimal literal, `sqrt` is
`std::sqrt`. -/
structure Arith (α : Type) where
  rnd : α → α
  sqrt : α → α

/-- The arithmetic of C++ `float`. -/
def binary32 : Arith ℚ := { rnd := round32, sqrt := sqrt32 }

namespace Rounded

variable {α : Type} [LinearOrderedField α]

/-- The default member initialisers of `Grain` (gsx.cpp 41-46). -/
def grainInit (A : Arith α) : Grain α :=
  { active := false, envelopePhase := 0, wavePhase := 0,
    frequency := 440, duration := A.rnd 0.02, pan := 0.5 }

/-- The default member initialisers of `Stream`: 20 default grains, timer 0. -/
def streamInit (A : Arith α) : Stream α :=
  { grains := List.replicate GRAINS_PER_STREAM (grainInit A),
    nextGrainTime := 0, phaseAccumulator := 0 }

/-- The base retrigger interval `delay` (gsx.cpp 193-205). -/
def baseDelay (A : Arith α) (density delayOffset : α) : α :=
  if delayOffset > A.rnd 0.0002 then delayOffset else A.rnd (1 / density)

/-- The frequency of a new grain (gsx.cpp 242-250), with the rest of the draws. -/
def spawnFreq (A : Arith α) (p : Params α) (r : Rng α) : α × Rng α :=
  if p.variation > A.rnd 0.01 ∧ p.range > 0 then
    let variationScale :=
      if p.variation < A.rnd 0.3 then
        A.rnd (A.rnd (p.variation * p.variation) / A.rnd 0.3)
      else p.variation
    let freqOffset :=
      A.rnd (A.rnd (A.rnd (A.rnd (r.next - 0.5) * 2) * p.range) * variationScale)
    (clamp (A.rnd (p.centerFreq + freqOffset)) 20 20000, r.advance)
  else
    (clamp p.centerFreq 20 20000, r)

/-- The duration of a new grain (gsx.cpp 254-261), with the rest of the draws. -/
def spawnDur (A : Arith α) (p : Params α) (r : Rng α) : α × Rng α :=
  if p.variation > A.rnd 0.01 then
    let variationScale := A.rnd (p.variation * p.variation)
    let durVariation :=
      A.rnd (A.rnd (A.rnd (A.rnd (r.next - 0.5) * 2) * variationScale) * A.rnd 0.3)
    (clamp (A.rnd (p.duration * A.rnd (1 + durVariation))) (A.rnd 0.001) (A.rnd 0.2),
      r.advance)
  else
    (clamp p.duration (A.rnd 0.001) (A.rnd 0.2), r)

/-- The pan position of a new grain (gsx.cpp 265-280), with the rest of the draws. -/
def spawnPan (A : Arith α) (p : Params α) (r : Rng α) : α × Rng α :=
  if p.spread > A.rnd 0.01 then
    let randomPan := r.next
    let offset := A.rnd (randomPan - 0.5)
    let sign : α := if offset ≥ 0 then 1 else -1
    let normalized := A.rnd (|offset| * 2)
    let pushed := A.rnd (A.rnd (A.sqrt normalized * 0.5) * sign)
    (clamp (A.rnd (0.5 + A.rnd (pushed * p.spread))) 0 1, r.advance)
  else
    (0.5, r)

/-- The body of the slot-search `if` (gsx.cpp 240-283). -/
def triggerSlot (A : Arith α) (p : Params α) (g : Grain α) (r : Rng α) :
    Grain α × Rng α :=
  let (grainFreq, r1) := spawnFreq A p r
  let (grainDur, r2) := spawnDur A p r1
  let (panPos, r3) := spawnPan A p r2
  (g.trigger grainFreq grainDur panPos, r3)

/-- The slot-search loop (gsx.cpp 238-286): the first inactive slot is
triggered and the loop is left (`break`). -/
def spawnGrain (A : Arith α) (p : Params α) :
    List (Grain α) → Rng α → List (Grain α) × Rng α
  | [], r => ([], r)
  | g :: gs, r =>
    if !g.active then
      let (g', r') := triggerSlot A p g r
      (g' :: gs, r')
    else
      let (gs', r') := spawnGrain A p gs r
      (g :: gs', r')

/-- The next retrigger time (gsx.cpp 290-297), with the rest of the draws. -/
def scheduleNext (A : Arith α) (p : Params α) (r : Rng α) : α × Rng α :=
  let delay := baseDelay A p.density p.delayOffset
  if p.variation > A.rnd 0.01 ∧ delay > 0 then
    let variationScale := A.rnd (p.variation * p.variation)
    let delayVariation := A.rnd (A.rnd (A.rnd (r.next - 0.5) * 2) * variationScale)
    (max (A.rnd 0.001) (A.rnd (delay * A.rnd (1 + delayVariation))), r.advance)
  else
    (max (A.rnd 0.001) delay, r)

/-- The phase update of an active grain (gsx.cpp 321-333).  The subtraction of
1 from a binary32 value in `[1, 2 ^ 24)` is exact, so the wrap loop is
`wrapPhase`. -/
def advanceGrain [FloorRing α] (A : Arith α) (sampleTime : α) (g : Grain α) : Grain α :=
  let waveIncrement := A.rnd (g.frequency * sampleTime)
  let wavePhase := wrapPhase (A.rnd (g.wavePhase + waveIncrement))
  let envelopeIncrement := A.rnd (sampleTime / g.duration)
  let envelopePhase := A.rnd (g.envelopePhase + envelopeIncrement)
  let g' := { g with wavePhase := wavePhase, envelopePhase := envelopePhase }
  if envelopePhase ≥ 1 then g'.reset else g'

/-- One pass of the grain loop body over a slot as far as the slot itself is
concerned (gsx.cpp 302-333): inactive slots are skipped (`continue`). -/
def stepGrain [FloorRing α] (A : Arith α) (sampleTime : α) (g : Grain α) : Grain α :=
  if !g.active then g else advanceGrain A sampleTime g

/-- The timer and spawn part of the stream loop body (gsx.cpp 233-298). -/
def spawnStep (A : Arith α) (p : Params α) (s : Stream α) (r : Rng α) :
    Stream α × Rng α :=
  let t := A.rnd (s.nextGrainTime - p.sampleTime)
  if t ≤ 0 then
    let (grains, r1) := spawnGrain A p s.grains r
    let (next, r2) := scheduleNext A p r1
    ({ s with grains := grains, nextGrainTime := next }, r2)
  else
    ({ s with nextGrainTime := t }, r)

/-- The state update of the stream loop body (gsx.cpp 230-334): the timer and
spawn part, then the grain loop.  The accumulators are left out: they are
written only and do not enter the state. -/
def processStream [FloorRing α] (A : Arith α) (p : Params α) (s : Stream α)
    (r : Rng α) : Stream α × Rng α :=
  let (s1, r1) := spawnStep A p s r
  ({ s1 with grains := s1.grains.map (stepGrain A p.sampleTime) }, r1)

/-- The state of a stream that is processed on every tick, after `k` ticks
with the parameters `ps j` and the draws `rs j` on tick `j`. -/
def streamAfter [FloorRing α] (A : Arith α) (ps : Nat → Params α)
    (rs : Nat → Rng α) (s : Stream α) : Nat → Stream α
  | 0 => s
  | k + 1 => (processStream A (ps k) (streamAfter A ps rs s k) (rs k)).1

/-- The retrigger timer of the stream expires on tick `k`. -/
def expiresOn [FloorRing α] (A : Arith α) (ps : Nat → Params α)
    (rs : Nat → Rng α) (s : Stream α) (k : Nat) : Prop :=
  A.rnd ((streamAfter A ps rs s k).nextGrainTime - (ps k).sampleTime) ≤ 0

/-- The envelope phase of a grain of duration `d` after one more advance at
tick size `t` (gsx.cpp 327-328). -/
def envelopeStep (A : Arith α) (t d : α) (phase : α) : α :=
  A.rnd (phase + A.rnd (t / d))

/-- The timer after one more decrement by the tick size `t` (gsx.cpp 233). -/
def timerStep (A : Arith α) (t : α) (time : α) : α := A.rnd (time - t)

/-- A grain of duration `d` lives `L` advances at tick size `t`: its envelope
phase is below 1 after fewer than `L` advances and has reached 1 after `L`. -/
def LivesFor (A : Arith α) (t d : α) (L : Nat) : Prop :=
  (∀ k : Nat, k < L → (envelopeStep A t d)^[k] 0 < 1) ∧ 1 ≤ (envelopeStep A t d)^[L] 0

/-- A timer set to `D` expires on the `G`-th decrement by `t` that follows,
and on none before it. -/
def ExpiresAfter (A : Arith α) (t D : α) (G : Nat) : Prop :=
  0 < G ∧ (∀ j : Nat, 0 < j → j < G → 0 < (timerStep A t)^[j] D) ∧
  (timerStep A t)^[G] D ≤ 0

/-- The least `k` with `1 ≤ k ≤ fuel` for which the `k`-th iterate of `f` from
`x` satisfies `stop`, if there is one. -/
def firstHit (f : α → α) (stop : α → Bool) : Nat → α → Option Nat
  | 0, _ => none
  | fuel + 1, x =>
    if stop (f x) then some 1 else (firstHit f stop fuel (f x)).map (fun k => k + 1)

/-- The parameters of a tick of the steady scenario: tick size `t`, variation
at most 0.01, base interval `D` and grain duration `d`. -/
def SteadyParams (A : Arith α) (t D d : α) (p : Params α) : Prop :=
  p.sampleTime = t ∧ p.variation ≤ A.rnd 0.01 ∧
  baseDelay A p.density p.delayOffset = D ∧ p.duration = d

/-- The ticks since the last expiry of the timer and the ages of the slots,
after one more tick, for spawn period `G` and grain life `L`. -/
def ghostTick (G L : Nat) (x : Nat × List (Option Nat)) : Nat × List (Option Nat) :=
  if x.1 + 1 = G then (0, (fillFirst x.2).map (fun o => o.bind (ageStep L)))
  else (x.1 + 1, x.2.map (fun o => o.bind (ageStep L)))

/-- The ticks since the last expiry and the ages of the slots of a fresh
stream after `k` ticks. -/
def ghostAfter (G L : Nat) : Nat → Nat × List (Option Nat)
  | 0 => (G - 1, List.replicate GRAINS_PER_STREAM none)
  | k + 1 => ghostTick G L (ghostAfter G L k)

/-- A slot has the given age: it is inactive (`none`), or it is active with
duration `d` and has been advanced `n < L` times at tick size `t`. -/
def SlotAge [FloorRing α] (A : Arith α) (t d : α) (L : Nat) (g : Grain α) :
    Option Nat → Prop
  | none => g.active = false
  | some n => n < L ∧ g.active = true ∧ g.duration = d ∧
      g.envelopePhase = (envelopeStep A t d)^[n] 0

/-- The stream is in the state described by the ticks `x.1` since the last
expiry and the ages `x.2` of its slots. -/
def Sim [FloorRing α] (A : Arith α) (t D d : α) (G L : Nat)
    (x : Nat × List (Option Nat)) (s : Stream α) : Prop :=
  x.1 < G ∧
  (if x.1 + 1 = G then A.rnd (s.nextGrainTime - t) ≤ 0
   else s.nextGrainTime = (timerStep A t)^[x.1] D) ∧
  List.Forall₂ (SlotAge A t d L) s.grains x.2

/-- The knob values of the crowded scenario: density 1000, grain duration
20 ms, no variation, no spread, at 48 kHz. -/
def crowdedParams : Params ℚ :=
  { sampleTime := round32 (1 / 48000), centerFreq := 440, numStreams := 1, shape := 0,
    range := 100, duration := round32 (20 / 1000), density := 1000,
    delayOffset := round32 (0.1 / 1000), variation := 0, spread := 0, vcaGain := 1 }

/-- The knob values of a scenario below capacity: density 1000, grain duration
5 ms, no variation, no spread, at 48 kHz. -/
def sparseParams : Params ℚ :=
  { sampleTime := round32 (1 / 48000), centerFreq := 440, numStreams := 1, shape := 0,
    range := 100, duration := round32 (5 / 1000), density := 1000,
    delayOffset := round32 (0.1 / 1000), variation := 0, spread := 0, vcaGain := 1 }

end Rounded

end Gsx

/-!
QuadLFO (src/src/quadlfo.cpp)

A shallow embedding of `QuadLFO::process` from the phase update on, and of
`generateWave` and `updateBrownianMotion`.  The number model is the one of the
granular engine.  The knob and CV reading and the clock detector (lines
165-216) are taken as resolved inputs: the frequency in use and whether the
clock has just reset `phases[0]`.
-/

namespace QuadLFO

open Gsx

section Model

variable {α : Type} [LinearOrderedField α]

/-- `struct LorenzState` (quadlfo.cpp 45-48). -/
structure LorenzState (α : Type) where
  x : α
  y : α
  z : α

/-- The member arrays of the module that `process` reads and writes
(quadlfo.cpp 36, 49, 57-59). -/
structure State (α : Type) where
  phases : Fin 4 → α
  lorenz : Fin 4 → LorenzState α
  brownianValue : Fin 4 → α
  brownianTarget : Fin 4 → α
  lastBrownianPhase : Fin 4 → α

/-- The state of a freshly constructed module. -/
def State.init : State α :=
  { phases := fun _ => 0, lorenz := fun _ => { x := 1, y := 1, z := 1 },
    brownianValue := fun _ => 0, brownianTarget := fun _ => 0,
    lastBrownianPhase := fun _ => 0 }

/-- `lorenzSigma` (quadlfo.cpp 52). -/
def lorenzSigma : Fin 4 → α := ![10.0, 10.2, 9.8, 10.1]

/-- `lorenzRho` (quadlfo.cpp 53). -/
def lorenzRho : Fin 4 → α := ![28.0, 28.3, 27.7, 28.1]

/-- `lorenzBeta` (quadlfo.cpp 54). -/
def lorenzBeta : Fin 4 → α := ![2.667, 2.7, 2.6, 2.65]

/-- The values `process` has resolved before the phase update
(quadlfo.cpp 165-214), and the tick size. -/
structure Params (α : Type) where
  sampleTime : α
  shape : α
  stability : α
  /-- The frequency in use: the knob frequency, or the clock frequency. -/
  actualFreq : α
  /-- The clock detector has seen a rising edge on this tick. -/
  clockReset : Bool
  xSpread : α
  center : α
  ySpread : α

/-- The loop `while (x < 0.f) x += 1.f` (quadlfo.cpp 267, 277). -/
def wrapUp [FloorRing α] (x : α) : α :=
  if x < 0 then wrapUp (x + 1) else x
termination_by (⌈-x⌉).toNat
decreasing_by
  rename_i h
  have h1 : 0 < ⌈-x⌉ := Int.ceil_pos.mpr (by linarith)
  have h2 : -(x + 1) = -x - 1 := by ring
  rw [h2, Int.ceil_sub_one]
  omega

/-- `QuadLFO::updateBrownianMotion` (quadlfo.cpp 85-104). -/
def updateBrownianMotion (st : State α) (outputIndex : Fin 4) (phase _sampleTime : α)
    (r : Rng α) : State α × Rng α :=
  let stepped : α × Rng α :=
    if phase < st.lastBrownianPhase outputIndex then
      let step := 2 * (r.next - 0.5) * 0.1
      let target := st.brownianTarget outputIndex + step
      let pulled := if |target| > 0.8 then target * 0.9 else target
      (clamp pulled (-1.2) 1.2, r.advance)
    else (st.brownianTarget outputIndex, r)
  let smoothing : α := 0.02
  let value := st.brownianValue outputIndex
    + (stepped.1 - st.brownianValue outputIndex) * smoothing
  ({ st with
      brownianTarget := Function.update st.brownianTarget outputIndex stepped.1,
      brownianValue := Function.update st.brownianValue outputIndex value,
      lastBrownianPhase := Function.update st.lastBrownianPhase outputIndex phase },
    stepped.2)

/-- `QuadLFO::generateWave` (quadlfo.cpp 106-162): the sample, the state and
the rest of the draws. -/
def generateWave [FloatMath α] (phase shape : α) (outputIndex : Fin 4) (sampleTime : α)
    (st : State α) (r : Rng α) : α × State α × Rng α :=
  let sine := FloatMath.sin (phase * 2 * FloatMath.pi)
  let triangle :=
    if phase < 0.25 then 4 * phase
    else if phase < 0.75 then 2 - 4 * phase
    else 4 * phase - 4
  let sawtooth := if phase < 0.5 then 2 * phase else 2 * phase - 2
  let square0 : α := if FloatMath.sin (phase * 2 * FloatMath.pi) ≥ 0 then 1 else -1
  let square : α := if phase < 0.001 ∨ phase > 0.999 then 0 else square0
  let updated := updateBrownianMotion st outputIndex phase sampleTime r
  let chaos := updated.1.brownianValue outputIndex
  let wave :=
    if shape ≤ 0.25 then
      let mix := shape * 4
      sine * (1 - mix) + triangle * mix
    else if shape ≤ 0.5 then
      let mix := (shape - 0.25) * 4
      triangle * (1 - mix) + sawtooth * mix
    else if shape ≤ 0.75 then
      let mix := (shape - 0.5) * 4
      sawtooth * (1 - mix) + square * mix
    else
      let mix := (shape - 0.75) * 4
      square * (1 - mix) + chaos * mix
  (wave, updated.1, updated.2)

/-- The value `instabilityAmount` (quadlfo.cpp 257). -/
def instabilityAmount (p : Params α) : α := 1 - p.stability

/-- The value `lorenzX` (quadlfo.cpp 261). -/
def lorenzX (l : LorenzState α) : α := clamp (l.x / 20) (-1) 1

/-- The value `lorenzY` (quadlfo.cpp 262). -/
def lorenzY (l : LorenzState α) : α := clamp (l.y / 20) (-1) 1

/-- The value `lorenzZ` (quadlfo.cpp 263). -/
def lorenzZ (l : LorenzState α) : α := clamp ((l.z - 25) / 25) (-1) 1

/-- The value `ampMod` (quadlfo.cpp 272-273). -/
def ampMod (p : Params α) (l : LorenzState α) : α :=
  clamp (1 + lorenzY l * instabilityAmount p * 0.3) 0.3 1.7

/-- The value `driftedPhase` after its two wrap loops (quadlfo.cpp 266-269). -/
def driftedPhase [FloorRing α] (p : Params α) (l : LorenzState α) (adjustedPhase : α) : α :=
  let phaseOffset := lorenzX l * instabilityAmount p * 0.1
  wrapPhase (wrapUp (adjustedPhase + phaseOffset))

/-- The value `freqModulatedPhase` after its two wrap loops
(quadlfo.cpp 275-279). -/
def freqModulatedPhase [FloorRing α] (p : Params α) (l : LorenzState α)
    (adjustedPhase : α) : α :=
  let freqMod := 1 + lorenzZ l * instabilityAmount p * 0.05
  wrapPhase (wrapUp (driftedPhase p l adjustedPhase * freqMod))

/-- The phase offsets of the four outputs after `xSpread` (quadlfo.cpp 217-223). -/
def phaseOffsets (p : Params α) : Fin 4 → α :=
  fun i => (![0, 0.25, 0.5, 0.75] : Fin 4 → α) i * p.xSpread

/-- The value `adjustedPhase` (quadlfo.cpp 250-252). -/
def adjustedPhase (p : Params α) (st : State α) (i : Fin 4) : α :=
  let a := st.phases 0 + phaseOffsets p i
  if a ≥ 1 then a - 1 else a

/-- The wave of output `i` (quadlfo.cpp 250-290): the sample, the state and
the rest of the draws. -/
def outputWave [FloorRing α] [FloatMath α] (p : Params α) (st : State α) (r : Rng α)
    (i : Fin 4) : α × State α × Rng α :=
  let base := generateWave (adjustedPhase p st i) p.shape i p.sampleTime st r
  if p.stability < 1 then
    let phase := freqModulatedPhase p (st.lorenz i) (adjustedPhase p st i)
    let modulated := generateWave phase p.shape i p.sampleTime base.2.1 base.2.2
    let harmonicContent := FloatMath.sin (phase * 3 * FloatMath.pi)
      * lorenzZ (st.lorenz i) * instabilityAmount p * 0.1
    (modulated.1 * ampMod p (st.lorenz i) + harmonicContent, modulated.2.1, modulated.2.2)
  else base

/-- The variables of the output loop: the state, the draws, the values written
to `outputs[0..]` so far, `minVal` and `maxVal`. -/
structure Loop (α : Type) where
  st : State α
  r : Rng α
  outputs : List α
  minVal : α
  maxVal : α

/-- The body of the output loop (quadlfo.cpp 249-297). -/
def outputStep [FloorRing α] [FloatMath α] (p : Params α) (a : Loop α) (i : Fin 4) :
    Loop α :=
  let w := outputWave p a.st a.r i
  let out := p.center + w.1 * p.ySpread
  { st := w.2.1, r := w.2.2, outputs := a.outputs ++ [out],
    minVal := min a.minVal out, maxVal := max a.maxVal out }

/-- The Euler step of the Lorenz system of output `i` (quadlfo.cpp 231-243). -/
def lorenzStep (p : Params α) (i : Fin 4) (l : LorenzState α) : LorenzState α :=
  let lorenzDt := p.sampleTime * (1 - p.stability) * 2.0
  if p.stability < 1 then
    let dx := lorenzSigma i * (l.y - l.x)
    let dy := l.x * (lorenzRho i - l.z) - l.y
    let dz := l.x * l.y - lorenzBeta i * l.z
    { x := l.x + dx * lorenzDt, y := l.y + dy * lorenzDt, z := l.z + dz * lorenzDt }
  else l

/-- The state before the output loop (quadlfo.cpp 187, 225-244): the clock
reset, the master phase update and the Lorenz updates. -/
def advanceState (p : Params α) (st : State α) : State α :=
  let phase0 := if p.clockReset then 0 else st.phases 0
  let deltaPhase := p.actualFreq * p.sampleTime
  let moved := phase0 + deltaPhase
  let wrapped := if moved ≥ 1 then moved - 1 else moved
  { st with phases := Function.update st.phases 0 wrapped,
            lorenz := fun i => lorenzStep p i (st.lorenz i) }

/-- The six voltages written by `process` (quadlfo.cpp 300-305). -/
structure Outputs (α : Type) where
  outMin : α
  outMax : α
  outA : α
  outB : α
  outC : α
  outD : α

/-- The variables of the output loop before its first pass
(quadlfo.cpp 246-247): `minVal = 10`, `maxVal = -10`. -/
def Loop.start (st : State α) (r : Rng α) : Loop α :=
  { st := st, r := r, outputs := [], minVal := 10, maxVal := -10 }

/-- The output loop `for (int i = 0; i < 4; i++)` (quadlfo.cpp 249-297). -/
def outputLoop [FloorRing α] [FloatMath α] (p : Params α) (st : State α) (r : Rng α) :
    Loop α :=
  ([0, 1, 2, 3] : List (Fin 4)).foldl (outputStep p) (Loop.start st r)

/-- `QuadLFO::process` from the clock reset on (quadlfo.cpp 187, 216-306): the
new state, the rest of the draws and the six voltages. -/
def process [FloorRing α] [FloatMath α] (p : Params α) (st : State α) (r : Rng α) :
    State α × Rng α × Outputs α :=
  let a := outputLoop p (advanceState p st) r
  (a.st, a.r,
    { outMin := a.minVal, outMax := a.maxVal,
      outA := a.outputs.getD 0 0, outB := a.outputs.getD 1 0,
      outC := a.outputs.getD 2 0, outD := a.outputs.getD 3 0 })

/-- The state of a module whose master phase has reached 0.43 while the
stability was 1 (the Lorenz systems are still in their initial state). -/
def driftState : State α :=
  { phases := fun _ => 0.43, lorenz := fun _ => { x := 1, y := 1, z := 1 },
    brownianValue := fun _ => 0, brownianTarget := fun _ => 0,
    lastBrownianPhase := fun _ => 0.43 }

/-- Stability 0, shape 0.75 (square), no phase spread, centre 5 and Y spread 5,
frequency 1 Hz at 48 kHz. -/
def driftParams : Params α :=
  { sampleTime := 1 / 48000, shape := 0.75, stability := 0, actualFreq := 1,
    clockReset := false, xSpread := 0, center := 5, ySpread := 5 }

end Model

end QuadLFO

namespace Gsx

section Clamp

variable {α : Type} [LinearOrderedField α]

theorem clamp_le_hi (x a b : α) (hab : a ≤ b) : clamp x a b ≤ b := by
  unfold clamp
  exact max_le (min_le_right _ _) hab

theorem lo_le_clamp (x a b : α) : a ≤ clamp x a b := by
  unfold clamp
  exact le_max_right _ _

theorem clamp_of_mem (x a b : α) (h1 : a ≤ x) (h2 : x ≤ b) : clamp x a b = x := by
  unfold clamp
  rw [min_eq_left h2, max_eq_left h1]

end Clamp

section Lifecycle

variable {α : Type} [LinearOrderedField α] [FloorRing α]

theorem stepGrain_of_inactive (t : α) (g : Grain α) (h : g.active = false) :
    stepGrain t g = g := by
  simp [stepGrain, h]

theorem stepGrain_of_active (t : α) (g : Grain α) (h : g.active = true) :
    stepGrain t g = advanceGrain t g := by
  simp [stepGrain, h]

theorem advanceGrain_of_lt (t : α) (g : Grain α)
    (h : g.envelopePhase + t / g.duration < 1) :
    (advanceGrain t g).active = g.active ∧
    (advanceGrain t g).envelopePhase = g.envelopePhase + t / g.duration ∧
    (advanceGrain t g).duration = g.duration ∧
    (advanceGrain t g).frequency = g.frequency ∧
    (advanceGrain t g).pan = g.pan := by
  simp [advanceGrain, not_le.mpr h]

theorem advanceGrain_of_ge (t : α) (g : Grain α)
    (h : 1 ≤ g.envelopePhase + t / g.duration) :
    (advanceGrain t g).active = false ∧
    (advanceGrain t g).envelopePhase = 0 ∧
    (advanceGrain t g).wavePhase = 0 ∧
    (advanceGrain t g).duration = g.duration ∧
    (advanceGrain t g).frequency = g.frequency ∧
    (advanceGrain t g).pan = g.pan := by
  simp [advanceGrain, h, Grain.reset]

/-- While fewer than `ceil (d / t)` advances have been made, a triggered grain
is active and its envelope phase is the number of advances times `t / d`. -/
theorem iterate_stepGrain_trigger (d t : α) (hd : 0 < d) (ht : 0 < t)
    (g : Grain α) (f pan : α) (k : Nat) (hk : k < ⌈d / t⌉₊) :
    ((stepGrain t)^[k] (g.trigger f d pan)).active = true ∧
    ((stepGrain t)^[k] (g.trigger f d pan)).duration = d ∧
    ((stepGrain t)^[k] (g.trigger f d pan)).envelopePhase = k * (t / d) := by
  induction k with
  | zero => simp [Grain.trigger]
  | succ k ih =>
    obtain ⟨ha, hdur, henv⟩ := ih (by omega)
    have hlt : ((k + 1 : Nat) : α) < d / t := Nat.lt_ceil.mp hk
    have hphase : ((stepGrain t)^[k] (g.trigger f d pan)).envelopePhase
        + t / ((stepGrain t)^[k] (g.trigger f d pan)).duration < 1 := by
      rw [hdur, henv]
      have h1 : ((k + 1 : Nat) : α) * t < d := (lt_div_iff₀ ht).mp hlt
      have h2 : (k : α) * (t / d) + t / d = (((k + 1 : Nat) : α) * t) / d := by
        push_cast; field_simp; ring
      rw [h2, div_lt_one hd]
      exact h1
    rw [Function.iterate_succ_apply', stepGrain_of_active _ _ ha]
    obtain ⟨h1, h2, h3, -, -⟩ := advanceGrain_of_lt t _ hphase
    refine ⟨by rw [h1, ha], by rw [h3, hdur], ?_⟩
    rw [h2, hdur, henv]
    push_cast
    ring

/-- The grain lifetime when no result is rounded.  For every duration `d > 0`
and tick size `t > 0`, a grain triggered with duration `d` and then advanced
once per tick by the exact grain loop body is still active after `k` advances
for every `k < ceil (d / t)`, and is inactive after exactly `ceil (d / t)`
advances.  The binary32 lifetime is `binary32_grain_lifetime`. -/
theorem grain_lifetime (d t : α) (hd : 0 < d) (ht : 0 < t)
    (g : Grain α) (f pan : α) :
    (∀ k : Nat, k < ⌈d / t⌉₊ →
      ((stepGrain t)^[k] (g.trigger f d pan)).active = true) ∧
    ((stepGrain t)^[⌈d / t⌉₊] (g.trigger f d pan)).active = false := by
  refine ⟨fun k hk => (iterate_stepGrain_trigger d t hd ht g f pan k hk).1, ?_⟩
  have hpos : 0 < ⌈d / t⌉₊ := Nat.ceil_pos.mpr (div_pos hd ht)
  obtain ⟨k, hk⟩ : ∃ k, ⌈d / t⌉₊ = k + 1 := ⟨⌈d / t⌉₊ - 1, by omega⟩
  obtain ⟨ha, hdur, henv⟩ :=
    iterate_stepGrain_trigger d t hd ht g f pan k (by omega)
  have hle : d / t ≤ ((k + 1 : Nat) : α) := by
    rw [← hk]
    exact Nat.le_ceil _
  have hphase : 1 ≤ ((stepGrain t)^[k] (g.trigger f d pan)).envelopePhase
      + t / ((stepGrain t)^[k] (g.trigger f d pan)).duration := by
    rw [hdur, henv]
    have h1 : d ≤ ((k + 1 : Nat) : α) * t := (div_le_iff₀ ht).mp hle
    have h2 : (k : α) * (t / d) + t / d = (((k + 1 : Nat) : α) * t) / d := by
      push_cast; field_simp; ring
    rw [h2, one_le_div hd]
    exact h1
  rw [hk, Function.iterate_succ_apply', stepGrain_of_active _ _ ha]
  exact (advanceGrain_of_ge t _ hphase).1

/-- A grain of duration 5/2 advanced with tick size 1 is inactive after its
third advance. -/
theorem grain_lifetime_witness :
    ((stepGrain (1 : ℚ))^[⌈(5 / 2 : ℚ) / 1⌉₊]
      ((Grain.init : Grain ℚ).trigger 440 (5 / 2) (1 / 2))).active = false :=
  (grain_lifetime (5 / 2 : ℚ) 1 (by norm_num) (by norm_num) Grain.init 440 (1 / 2)).2

/-- A slot that is active after the grain loop body was active before it. -/
theorem active_of_stepGrain (t : α) (g : Grain α)
    (h : (stepGrain t g).active = true) : g.active = true := by
  by_contra hg
  have hg' : g.active = false := by simpa using hg
  rw [stepGrain_of_inactive t g hg', hg'] at h
  cases h

omit [LinearOrderedField α] [FloorRing α] in
theorem activeCount_cons (g : Grain α) (gs : List (Grain α)) :
    activeCount (g :: gs) = activeCount gs + (if g.active = true then 1 else 0) := by
  simp [activeCount, List.countP_cons]

/-- The grain loop does not increase the number of active slots. -/
theorem activeCount_map_stepGrain_le (t : α) (gs : List (Grain α)) :
    activeCount (gs.map (stepGrain t)) ≤ activeCount gs := by
  induction gs with
  | nil => simp
  | cons g gs ih =>
    rw [List.map_cons, activeCount_cons, activeCount_cons]
    by_cases h : (stepGrain t g).active = true
    · rw [if_pos h, if_pos (active_of_stepGrain t g h)]
      omega
    · rw [if_neg h]
      split_ifs <;> omega

end Lifecycle

section Spawn

variable {α : Type} [LinearOrderedField α] [FloatMath α]

/-- The pan computed for a new grain lies in `[0, 1]`. -/
theorem spawnPan_mem (p : Params α) (r : Rng α) :
    0 ≤ (spawnPan p r).1 ∧ (spawnPan p r).1 ≤ 1 := by
  unfold spawnPan
  split_ifs
  · exact ⟨lo_le_clamp _ _ _, clamp_le_hi _ _ _ zero_le_one⟩
  · constructor <;> norm_num

/-- The slot written by the body of the slot-search `if`. -/
theorem triggerSlot_fst (p : Params α) (g : Grain α) (r : Rng α) :
    (triggerSlot p g r).1 =
      g.trigger (spawnFreq p r).1 (spawnDur p (spawnFreq p r).2).1
        (spawnPan p (spawnDur p (spawnFreq p r).2).2).1 := rfl

/-- A full pool is left alone by the slot search, and no draw is made. -/
theorem spawnGrain_of_full (p : Params α) (gs : List (Grain α)) (r : Rng α)
    (h : ∀ g ∈ gs, g.active = true) : spawnGrain p gs r = (gs, r) := by
  induction gs with
  | nil => rfl
  | cons g gs ih =>
    have hg : g.active = true := h g (List.mem_cons_self _ _)
    have hgs : ∀ x ∈ gs, x.active = true :=
      fun x hx => h x (List.mem_cons_of_mem _ hx)
    simp [spawnGrain, hg, ih hgs]

/-- The slot search triggers the inactive slot of lowest index. -/
theorem spawnGrain_first_free (p : Params α) (gs : List (Grain α)) (r : Rng α)
    (h : ∃ g ∈ gs, g.active = false) :
    ∃ (i : Nat) (hi : i < gs.length),
      (gs[i]).active = false ∧
      (∀ (j : Nat) (hj : j < gs.length), j < i → (gs[j]).active = true) ∧
      spawnGrain p gs r =
        (gs.set i (triggerSlot p (gs[i]) r).1, (triggerSlot p (gs[i]) r).2) := by
  induction gs with
  | nil => simp at h
  | cons g gs ih =>
    by_cases hg : g.active = true
    · have hgs : ∃ x ∈ gs, x.active = false := by
        obtain ⟨x, hx, hxa⟩ := h
        rcases List.mem_cons.mp hx with rfl | hx
        · rw [hg] at hxa; cases hxa
        · exact ⟨x, hx, hxa⟩
      obtain ⟨i, hi, hia, hmin, heq⟩ := ih hgs
      refine ⟨i + 1, by simpa using hi, by simpa using hia, ?_, ?_⟩
      · intro j hj hji
        cases j with
        | zero => simpa using hg
        | succ j => simpa using hmin j (by simpa using hj) (by omega)
      · simp [spawnGrain, hg, heq]
    · have hg' : g.active = false := by simpa using hg
      refine ⟨0, by simp, by simpa using hg', ?_, ?_⟩
      · intro j hj hji; omega
      · simp [spawnGrain, hg']

/-- The timer and spawn part when the timer expires. -/
theorem spawnStep_of_due (p : Params α) (s : Stream α) (r : Rng α)
    (hdue : s.nextGrainTime - p.sampleTime ≤ 0) :
    (spawnStep p s r).1.grains = (spawnGrain p s.grains r).1 ∧
    (spawnStep p s r).1.nextGrainTime =
      (scheduleNext p (spawnGrain p s.grains r).2).1 ∧
    (spawnStep p s r).2 = (scheduleNext p (spawnGrain p s.grains r).2).2 := by
  simp [spawnStep, hdue]

/-- The timer and spawn part when the timer does not expire. -/
theorem spawnStep_of_not_due (p : Params α) (s : Stream α) (r : Rng α)
    (hdue : 0 < s.nextGrainTime - p.sampleTime) :
    (spawnStep p s r).1.grains = s.grains ∧
    (spawnStep p s r).1.nextGrainTime = s.nextGrainTime - p.sampleTime ∧
    (spawnStep p s r).2 = r := by
  simp [spawnStep, not_le.mpr hdue]

/-- C3 (first free slot).  When a stream has an inactive slot and the
retrigger timer expires, the spawn step triggers the inactive slot of lowest
index, with active = true, both phases 0 and the computed frequency, duration
and pan, and every other slot of the stream is as before. -/
theorem first_free_slot (p : Params α) (s : Stream α) (r : Rng α)
    (hfree : ∃ g ∈ s.grains, g.active = false)
    (hdue : s.nextGrainTime - p.sampleTime ≤ 0) :
    ∃ (i : Nat) (hi : i < s.grains.length) (g' : Grain α),
      (s.grains[i]).active = false ∧
      (∀ (j : Nat) (hj : j < s.grains.length), j < i → (s.grains[j]).active = true) ∧
      (spawnStep p s r).1.grains = s.grains.set i g' ∧
      g'.active = true ∧ g'.envelopePhase = 0 ∧ g'.wavePhase = 0 ∧
      g'.frequency = (spawnFreq p r).1 ∧
      g'.duration = (spawnDur p (spawnFreq p r).2).1 ∧
      g'.pan = (spawnPan p (spawnDur p (spawnFreq p r).2).2).1 := by
  obtain ⟨i, hi, hia, hmin, heq⟩ := spawnGrain_first_free p s.grains r hfree
  refine ⟨i, hi, (triggerSlot p (s.grains[i]) r).1, hia, hmin, ?_, ?_⟩
  · rw [(spawnStep_of_due p s r hdue).1, heq]
  · rw [triggerSlot_fst]
    refine ⟨rfl, rfl, rfl, rfl, rfl, ?_⟩
    have hmem := spawnPan_mem p (spawnDur p (spawnFreq p r).2).2
    exact clamp_of_mem _ _ _ hmem.1 hmem.2

end Spawn

section GrainLoop

variable {α : Type} [LinearOrderedField α] [FloorRing α] [FloatMath α]

/-- The grain loop changes each slot by `stepGrain`. -/
theorem processGrains_fst (shape t : α) (gs : List (Grain α)) (m : Mix α) :
    (processGrains shape t gs m).1 = gs.map (stepGrain t) := by
  induction gs generalizing m with
  | nil => rfl
  | cons g gs ih =>
    by_cases hg : g.active = true
    · simp [processGrains, hg, ih, stepGrain]
    · have hg' : g.active = false := by simpa using hg
      simp [processGrains, hg', ih, stepGrain]

/-- The grains of a stream after the stream loop body. -/
theorem processStream_grains (p : Params α) (s : Stream α) (r : Rng α) (m : Mix α) :
    (processStream p s r m).1.grains =
      (spawnStep p s r).1.grains.map (stepGrain p.sampleTime) := by
  simp [processStream, processGrains_fst]

/-- The timer of a stream after the stream loop body. -/
theorem processStream_nextGrainTime (p : Params α) (s : Stream α) (r : Rng α)
    (m : Mix α) :
    (processStream p s r m).1.nextGrainTime = (spawnStep p s r).1.nextGrainTime := by
  simp [processStream]

/-- The draws left after the stream loop body. -/
theorem processStream_rng (p : Params α) (s : Stream α) (r : Rng α) (m : Mix α) :
    (processStream p s r m).2.1 = (spawnStep p s r).2 := by
  simp [processStream]

/-- C2 (full pool drop).  When every slot of a stream is active and the
retrigger timer expires on this tick, the spawn step leaves the whole grain
pool exactly as it was (no grain is triggered), and the number of active
grains of the stream after the tick is not larger than before it. -/
theorem full_pool_drop (p : Params α) (s : Stream α) (r : Rng α) (m : Mix α)
    (hfull : ∀ g ∈ s.grains, g.active = true)
    (hdue : s.nextGrainTime - p.sampleTime ≤ 0) :
    (spawnStep p s r).1.grains = s.grains ∧
    activeCount (spawnStep p s r).1.grains = activeCount s.grains ∧
    activeCount (processStream p s r m).1.grains ≤ activeCount s.grains := by
  have h1 : (spawnStep p s r).1.grains = s.grains := by
    rw [(spawnStep_of_due p s r hdue).1, spawnGrain_of_full p s.grains r hfull]
  refine ⟨h1, by rw [h1], ?_⟩
  rw [processStream_grains, h1]
  exact activeCount_map_stepGrain_le _ _

end GrainLoop

section EndToEndScenario

variable {α : Type} [LinearOrderedField α] [FloatMath α]

theorem endToEnd_triggerSlot (p : Params α) (hp : EndToEnd p) (g : Grain α)
    (r : Rng α) : triggerSlot p g r = (g.trigger 440 0.02 0.5, r) := by
  obtain ⟨-, -, -, -, hdur, hvar, hspr, hfreq, -⟩ := hp
  simp only [triggerSlot, spawnFreq, spawnDur, spawnPan, hdur, hvar, hspr, hfreq]
  norm_num [clamp]

omit [FloatMath α] in
theorem endToEnd_scheduleNext (p : Params α) (hp : EndToEnd p) (r : Rng α) :
    scheduleNext p r = (1 / 100, r) := by
  obtain ⟨-, -, hden, hdel, -, hvar, -, -, -⟩ := hp
  have h : ¬ p.delayOffset > 0.0002 := not_lt.mpr hdel
  simp only [scheduleNext, baseDelay, hvar, hden, if_neg h]
  norm_num

omit [LinearOrderedField α] [FloatMath α] in
theorem triggeredSlots_cons (g g' : Grain α) (gs gs' : List (Grain α)) :
    triggeredSlots (g :: gs) (g' :: gs') =
      triggeredSlots gs gs' + (if (!g.active && g'.active) = true then 1 else 0) := by
  simp [triggeredSlots, List.countP_cons]

omit [LinearOrderedField α] [FloatMath α] in
theorem triggeredSlots_self (gs : List (Grain α)) : triggeredSlots gs gs = 0 := by
  induction gs with
  | nil => rfl
  | cons g gs ih =>
    rw [triggeredSlots_cons, ih]
    cases g.active <;> simp

variable [FloorRing α]

omit [FloatMath α] in
theorem map_stepGrain_of_inactive (t : α) (gs : List (Grain α))
    (h : ∀ g ∈ gs, g.active = false) : gs.map (stepGrain t) = gs := by
  induction gs with
  | nil => rfl
  | cons g gs ih =>
    rw [List.map_cons, stepGrain_of_inactive t g (h g (List.mem_cons_self _ _)),
      ih (fun x hx => h x (List.mem_cons_of_mem _ hx))]

omit [FloatMath α] in
theorem stepGrain_aged (n : Nat) (g : Grain α) (h : Aged n g) (hn : n + 1 < 960) :
    Aged (n + 1) (stepGrain (1 / 48000 : α) g) := by
  obtain ⟨ha, hd, he⟩ := h
  have hlt : g.envelopePhase + (1 / 48000 : α) / g.duration < 1 := by
    rw [hd, he]
    have h1 : ((n : α) + 1) < 960 := by exact_mod_cast hn
    have h2 : (n : α) / 960 + (1 / 48000 : α) / 0.02 = ((n : α) + 1) / 960 := by
      norm_num
      ring
    rw [h2, div_lt_one (by norm_num)]
    exact h1
  rw [stepGrain_of_active _ _ ha]
  obtain ⟨h1, h2, h3, -, -⟩ := advanceGrain_of_lt _ g hlt
  refine ⟨by rw [h1, ha], by rw [h3, hd], ?_⟩
  rw [h2, hd, he]
  push_cast
  norm_num
  ring

omit [FloatMath α] in
theorem stepGrain_aged_last (g : Grain α) (h : Aged 959 g) :
    (stepGrain (1 / 48000 : α) g).active = false := by
  obtain ⟨ha, hd, he⟩ := h
  have hge : 1 ≤ g.envelopePhase + (1 / 48000 : α) / g.duration := by
    rw [hd, he]
    norm_num
  rw [stepGrain_of_active _ _ ha]
  exact (advanceGrain_of_ge _ g hge).1

omit [FloatMath α] [FloorRing α] in
theorem aged_trigger (g : Grain α) : Aged 0 (g.trigger 440 0.02 0.5) := by
  simp [Aged, Grain.trigger]

omit [FloatMath α] in
theorem endToEnd_old_step (a : Nat) (g : Grain α)
    (h : g.active = false ∨ (a + 481 < 960 ∧ Aged (a + 481) g)) :
    (stepGrain (1 / 48000 : α) g).active = false ∨
      (a + 1 + 481 < 960 ∧ Aged (a + 1 + 481) (stepGrain (1 / 48000 : α) g)) := by
  rcases h with h | ⟨hlt, hag⟩
  · left
    rw [stepGrain_of_inactive _ g h, h]
  · by_cases hlast : a + 481 = 959
    · left
      rw [hlast] at hag
      exact stepGrain_aged_last g hag
    · right
      refine ⟨by omega, ?_⟩
      have h1 := stepGrain_aged (a + 481) g hag (by omega)
      have h2 : a + 1 + 481 = a + 481 + 1 := by omega
      rw [h2]
      exact h1

/-- One tick of the stream of the end-to-end scenario keeps its invariant; a
grain is triggered on the tick that follows age 479, and on no other. -/
theorem endToEnd_step (p : Params α) (hp : EndToEnd p) (a : Nat) (s : Stream α)
    (r : Rng α) (m : Mix α) (h : EndToEndInv a s) :
    EndToEndInv ((a + 1) % 480) (processStream p s r m).1 ∧
    triggeredSlots s.grains (spawnStep p s r).1.grains = (if a = 479 then 1 else 0) := by
  obtain ⟨ha, htimer, g0, g1, rest, hgs, hrest, hcase⟩ := h
  have ht : p.sampleTime = 1 / 48000 := hp.1
  have hmapRest := map_stepGrain_of_inactive (1 / 48000 : α) rest hrest
  rw [EndToEndInv, processStream_grains, processStream_nextGrainTime, ht]
  by_cases h479 : a = 479
  · subst h479
    have hdue : s.nextGrainTime - p.sampleTime ≤ 0 := by
      rw [htimer, ht]; norm_num
    obtain ⟨e1, e2, -⟩ := spawnStep_of_due p s r hdue
    rw [e1, e2, endToEnd_scheduleNext p hp, hgs]
    rcases hcase with ⟨hy, ho⟩ | ⟨hy, ho⟩
    · have hg1 : g1.active = false := by
        rcases ho with ho | ⟨hlt, -⟩
        · exact ho
        · omega
      have hsp : spawnGrain p (g0 :: g1 :: rest) r =
          (g0 :: g1.trigger 440 0.02 0.5 :: rest, r) := by
        simp [spawnGrain, hy.1, hg1, endToEnd_triggerSlot p hp]
      rw [hsp]
      refine ⟨⟨by norm_num, by norm_num, _, _, _, by
          rw [List.map_cons, List.map_cons, hmapRest], hrest, Or.inr ⟨?_, Or.inr ⟨by norm_num, ?_⟩⟩⟩, ?_⟩
      · exact stepGrain_aged 0 _ (aged_trigger g1) (by norm_num)
      · exact stepGrain_aged 480 _ hy (by norm_num)
      · rw [triggeredSlots_cons, triggeredSlots_cons, triggeredSlots_self]
        simp [hy.1, hg1, Grain.trigger]
    · have hg0 : g0.active = false := by
        rcases ho with ho | ⟨hlt, -⟩
        · exact ho
        · omega
      have hsp : spawnGrain p (g0 :: g1 :: rest) r =
          (g0.trigger 440 0.02 0.5 :: g1 :: rest, r) := by
        simp [spawnGrain, hg0, endToEnd_triggerSlot p hp]
      rw [hsp]
      refine ⟨⟨by norm_num, by norm_num, _, _, _, by
          rw [List.map_cons, List.map_cons, hmapRest], hrest, Or.inl ⟨?_, Or.inr ⟨by norm_num, ?_⟩⟩⟩, ?_⟩
      · exact stepGrain_aged 0 _ (aged_trigger g0) (by norm_num)
      · exact stepGrain_aged 480 _ hy (by norm_num)
      · rw [triggeredSlots_cons, triggeredSlots_self]
        simp [hg0, Grain.trigger]
  · have ha' : a + 1 < 480 := by omega
    have hnot : 0 < s.nextGrainTime - p.sampleTime := by
      rw [htimer, ht]
      have h1 : ((a : α) + 1) < 480 := by exact_mod_cast ha'
      linarith
    obtain ⟨e1, e2, -⟩ := spawnStep_of_not_due p s r hnot
    rw [e1, e2, htimer, ht, hgs, if_neg h479, Nat.mod_eq_of_lt ha']
    refine ⟨⟨ha', by push_cast; ring, _, _, _, by
        rw [List.map_cons, List.map_cons, hmapRest], hrest, ?_⟩, by
        rw [← hgs, triggeredSlots_self]⟩
    rcases hcase with ⟨hy, ho⟩ | ⟨hy, ho⟩
    · exact Or.inl ⟨stepGrain_aged (a + 1) g0 hy (by omega), endToEnd_old_step a g1 ho⟩
    · exact Or.inr ⟨stepGrain_aged (a + 1) g1 hy (by omega), endToEnd_old_step a g0 ho⟩

/-- The first tick of a fresh stream in the end-to-end scenario triggers a
grain in slot 0 and establishes the invariant at age 0. -/
theorem endToEnd_first_tick (p : Params α) (hp : EndToEnd p) (r : Rng α) (m : Mix α) :
    EndToEndInv 0 (processStream p Stream.init r m).1 ∧
    triggeredSlots (Stream.init : Stream α).grains
      (spawnStep p Stream.init r).1.grains = 1 := by
  have ht : p.sampleTime = 1 / 48000 := hp.1
  have hdue : (Stream.init : Stream α).nextGrainTime - p.sampleTime ≤ 0 := by
    rw [ht]; norm_num [Stream.init]
  have hgs : (Stream.init : Stream α).grains =
      Grain.init :: Grain.init :: List.replicate 18 Grain.init := rfl
  have hrest : ∀ g ∈ List.replicate 18 (Grain.init : Grain α), g.active = false := by
    intro g hg
    rw [List.eq_of_mem_replicate hg]
    rfl
  have hmapRest := map_stepGrain_of_inactive (1 / 48000 : α) _ hrest
  have hsp : spawnGrain p (Grain.init :: Grain.init :: List.replicate 18 Grain.init) r =
      ((Grain.init : Grain α).trigger 440 0.02 0.5 :: Grain.init ::
        List.replicate 18 Grain.init, r) := by
    simp [spawnGrain, Grain.init, endToEnd_triggerSlot p hp]
  obtain ⟨e1, e2, -⟩ := spawnStep_of_due p Stream.init r hdue
  rw [EndToEndInv, processStream_grains, processStream_nextGrainTime, ht, e1, e2,
    endToEnd_scheduleNext p hp, hgs, hsp]
  refine ⟨⟨by norm_num, by norm_num, _, _, _, by
      rw [List.map_cons, List.map_cons, hmapRest], hrest, Or.inl ⟨?_, Or.inl ?_⟩⟩, ?_⟩
  · exact stepGrain_aged 0 _ (aged_trigger _) (by norm_num)
  · rw [stepGrain_of_inactive _ _ rfl]
    rfl
  · rw [triggeredSlots_cons, triggeredSlots_self]
    simp [Grain.init, Grain.trigger]

theorem spawnCount_succ (p : Params α) (n : Nat) (e : Engine α) (r : Rng α) :
    spawnCount p (n + 1) e r =
      tickTriggers p (activeStreams p.numStreams) e.streams r
        + spawnCount p n (process p e r).1 (process p e r).2.1 := rfl

/-- With one active stream, `process` runs the stream loop body on stream 0
and leaves the other streams alone. -/
theorem process_one_stream (p : Params α) (hn : p.numStreams = 1) (s : Stream α)
    (rest : List (Stream α)) (r : Rng α) :
    (process p { streams := s :: rest } r).1.streams =
      (processStream p s r Mix.zero).1 :: rest ∧
    tickTriggers p (activeStreams p.numStreams) (s :: rest) r =
      triggeredSlots s.grains (spawnStep p s r).1.grains := by
  have h1 : activeStreams p.numStreams = 1 := by
    rw [hn]; decide
  rw [h1]
  constructor
  · simp [process, processStreams, h1]
  · simp [tickTriggers]

/-- In the end-to-end scenario the number of grains triggered during `n`
ticks that start `a` ticks after a spawn is `(a + n) / 480`. -/
theorem endToEnd_count_from (p : Params α) (hp : EndToEnd p) (n : Nat) :
    ∀ (a : Nat) (s : Stream α) (rest : List (Stream α)) (r : Rng α),
      EndToEndInv a s →
      spawnCount p n { streams := s :: rest } r = (a + n) / 480 := by
  induction n with
  | zero =>
    intro a s rest r h
    have ha : a < 480 := h.1
    simp [spawnCount, Nat.div_eq_of_lt ha]
  | succ n ih =>
    intro a s rest r h
    have ha : a < 480 := h.1
    obtain ⟨hinv, htrig⟩ := endToEnd_step p hp a s r Mix.zero h
    obtain ⟨hstreams, hticks⟩ := process_one_stream p hp.2.1 s rest r
    have hnext : (process p { streams := s :: rest } r).1 =
        { streams := (processStream p s r Mix.zero).1 :: rest } := by
      cases hproc : (process p { streams := s :: rest } r).1
      rw [hproc] at hstreams
      simp only at hstreams
      rw [hstreams]
    rw [spawnCount_succ, hnext, ih _ _ rest _ hinv, hticks, htrig]
    by_cases h479 : a = 479
    · subst h479
      simp only [if_true]
      omega
    · rw [if_neg h479, Nat.mod_eq_of_lt (by omega)]
      omega

/-- In the end-to-end scenario exactly 100 grains are triggered during the
first 48000 ticks of a fresh engine. -/
theorem endToEnd_count (p : Params α) (hp : EndToEnd p) (r : Rng α) :
    spawnCount p 48000 Engine.init r = 100 := by
  have hinit : (Engine.init : Engine α) =
      { streams := Stream.init :: List.replicate 19 Stream.init } := rfl
  obtain ⟨hinv, htrig⟩ := endToEnd_first_tick p hp r Mix.zero
  obtain ⟨hstreams, hticks⟩ :=
    process_one_stream p hp.2.1 Stream.init (List.replicate 19 Stream.init) r
  have hnext : (process p { streams := Stream.init :: List.replicate 19 Stream.init } r).1 =
      { streams := (processStream p Stream.init r Mix.zero).1 ::
          List.replicate 19 Stream.init } := by
    cases hproc : (process p { streams := Stream.init :: List.replicate 19 Stream.init } r).1
    rw [hproc] at hstreams
    simp only at hstreams
    rw [hstreams]
  have h48 : (48000 : Nat) = 47999 + 1 := rfl
  rw [hinit, h48, spawnCount_succ, hnext,
    endToEnd_count_from p hp 47999 0 _ _ _ hinv, hticks, htrig]

/-- C4 (end-to-end spawn count).  From the freshly constructed engine, with one
active stream, density 100 (Delay control not above 0.0002 s), grain duration
0.02 s, variation 0, spread 0, centre frequency 440, shape 0 and tick size
1/48000 s, 48000 consecutive calls of `process` trigger a number of grains
within 2 of 100. -/
theorem endToEnd_spawn_count (p : Params α) (hp : EndToEnd p) (r : Rng α) :
    98 ≤ spawnCount p 48000 Engine.init r ∧
    spawnCount p 48000 Engine.init r ≤ 102 := by
  rw [endToEnd_count p hp r]
  constructor <;> norm_num

end EndToEndScenario

section Witnesses

theorem scenarioParams_endToEnd : EndToEnd (scenarioParams : Params ℝ) := by
  norm_num [EndToEnd, scenarioParams]

/-- The spawn step leaves the full pool of `fullStream` alone. -/
theorem full_pool_drop_witness :
    (spawnStep (scenarioParams : Params ℝ) fullStream (fun _ => 0)).1.grains =
      (fullStream : Stream ℝ).grains :=
  (full_pool_drop scenarioParams fullStream (fun _ => 0) Mix.zero
    (by
      intro g hg
      rw [List.eq_of_mem_replicate hg])
    (by norm_num [fullStream, scenarioParams])).1

/-- The spawn step of a fresh stream triggers a slot. -/
theorem first_free_slot_witness :
    ∃ (i : Nat) (hi : i < (Stream.init : Stream ℝ).grains.length) (g' : Grain ℝ),
      ((Stream.init : Stream ℝ).grains[i]).active = false ∧
      (∀ (j : Nat) (hj : j < (Stream.init : Stream ℝ).grains.length), j < i →
        ((Stream.init : Stream ℝ).grains[j]).active = true) ∧
      (spawnStep scenarioParams (Stream.init : Stream ℝ) (fun _ => 0)).1.grains =
        (Stream.init : Stream ℝ).grains.set i g' ∧
      g'.active = true ∧ g'.envelopePhase = 0 ∧ g'.wavePhase = 0 ∧
      g'.frequency = (spawnFreq (scenarioParams : Params ℝ) (fun _ => 0)).1 ∧
      g'.duration = (spawnDur (scenarioParams : Params ℝ)
        (spawnFreq (scenarioParams : Params ℝ) (fun _ => 0)).2).1 ∧
      g'.pan = (spawnPan (scenarioParams : Params ℝ)
        (spawnDur (scenarioParams : Params ℝ)
          (spawnFreq (scenarioParams : Params ℝ) (fun _ => 0)).2).2).1 :=
  first_free_slot scenarioParams Stream.init (fun _ => 0)
    ⟨Grain.init, by simp [Stream.init, GRAINS_PER_STREAM], rfl⟩
    (by norm_num [Stream.init, scenarioParams])

/-- The end-to-end count for `scenarioParams`. -/
theorem endToEnd_spawn_count_witness :
    98 ≤ spawnCount (scenarioParams : Params ℝ) 48000 Engine.init (fun _ => 0) ∧
    spawnCount (scenarioParams : Params ℝ) 48000 Engine.init (fun _ => 0) ≤ 102 :=
  endToEnd_spawn_count scenarioParams scenarioParams_endToEnd (fun _ => 0)

end Witnesses

section Output

variable {α : Type} [LinearOrderedField α] [FloorRing α] [FloatMath α]

/-- C5 (output range).  Both voltages written by `process` lie in `[-10, 10]`,
and each is `clamp (sum * gain * vcaGain) (-10) 10`, where `sum` is the
channel accumulator after the stream loop and `gain` the density gain. -/
theorem output_range (p : Params α) (e : Engine α) (r : Rng α) :
    (-10 ≤ (process p e r).2.2.left ∧ (process p e r).2.2.left ≤ 10) ∧
    (-10 ≤ (process p e r).2.2.right ∧ (process p e r).2.2.right ≤ 10) ∧
    (process p e r).2.2.left =
      clamp ((processStreams p (activeStreams p.numStreams) e.streams r Mix.zero).2.2.leftOut
        * densityGain
          (processStreams p (activeStreams p.numStreams) e.streams r Mix.zero).2.2.activeGrainCount
        * p.vcaGain) (-10) 10 ∧
    (process p e r).2.2.right =
      clamp ((processStreams p (activeStreams p.numStreams) e.streams r Mix.zero).2.2.rightOut
        * densityGain
          (processStreams p (activeStreams p.numStreams) e.streams r Mix.zero).2.2.activeGrainCount
        * p.vcaGain) (-10) 10 := by
  have h10 : (-10 : α) ≤ 10 := by norm_num
  have hl : (process p e r).2.2.left =
      clamp ((processStreams p (activeStreams p.numStreams) e.streams r Mix.zero).2.2.leftOut
        * densityGain
          (processStreams p (activeStreams p.numStreams) e.streams r Mix.zero).2.2.activeGrainCount
        * p.vcaGain) (-10) 10 := by
    simp only [process, mul_assoc]
  have hr : (process p e r).2.2.right =
      clamp ((processStreams p (activeStreams p.numStreams) e.streams r Mix.zero).2.2.rightOut
        * densityGain
          (processStreams p (activeStreams p.numStreams) e.streams r Mix.zero).2.2.activeGrainCount
        * p.vcaGain) (-10) 10 := by
    simp only [process, mul_assoc]
  refine ⟨?_, ?_, hl, hr⟩
  · rw [hl]
    exact ⟨lo_le_clamp _ _ _, clamp_le_hi _ _ _ h10⟩
  · rw [hr]
    exact ⟨lo_le_clamp _ _ _, clamp_le_hi _ _ _ h10⟩

end Output

section Synthesis

theorem realMath_sin (x : ℝ) : FloatMath.sin x = Real.sin x := rfl

theorem realMath_cos (x : ℝ) : FloatMath.cos x = Real.cos x := rfl

theorem realMath_sqrt (x : ℝ) : FloatMath.sqrt x = Real.sqrt x := rfl

theorem realMath_pi : (FloatMath.pi : ℝ) = Real.pi := rfl

/-- C6 (waveform range), the code at phase 0.25 and shape 1: the value is
1.01, above 1.  The mix weight of the last band is `(1 - 0.66) * 3 = 1.02`. -/
theorem generateGrainWave_quarter_one :
    generateGrainWave (0.25 : ℝ) 1 = 1.01 ∧ ¬ generateGrainWave (0.25 : ℝ) 1 ≤ 1 := by
  have h : generateGrainWave (0.25 : ℝ) 1 = 1.01 := by
    unfold generateGrainWave
    norm_num
  rw [h]
  norm_num

/-- C7 (zero alignment), the code at phase 0 and shape 0.9: the value is
0.72, not 0.  The square anchor is 1 at phase 0. -/
theorem generateGrainWave_zero_phase :
    generateGrainWave (0 : ℝ) 0.9 = 0.72 ∧ generateGrainWave (0 : ℝ) 0.9 ≠ 0 := by
  have h : generateGrainWave (0 : ℝ) 0.9 = 0.72 := by
    unfold generateGrainWave
    norm_num
  rw [h]
  norm_num

/-- C8 (Hann envelope).  On `[0, 1]` the window is `0.5 * (1 - cos (2 π p))`,
outside it is 0; it is 0 at 0 and at 1, it is 1 at 0.5, and it lies in
`[0, 1]` everywhere. -/
theorem hannWindow_spec :
    (∀ p : ℝ, 0 ≤ p → p ≤ 1 →
      hannWindow p = 0.5 * (1 - Real.cos (2 * Real.pi * p))) ∧
    (∀ p : ℝ, p < 0 ∨ 1 < p → hannWindow p = 0) ∧
    hannWindow (0 : ℝ) = 0 ∧ hannWindow (1 : ℝ) = 0 ∧ hannWindow (0.5 : ℝ) = 1 ∧
    (∀ p : ℝ, 0 ≤ hannWindow p ∧ hannWindow p ≤ 1) := by
  have hin : ∀ p : ℝ, 0 ≤ p → p ≤ 1 →
      hannWindow p = 0.5 * (1 - Real.cos (2 * Real.pi * p)) := by
    intro p h0 h1
    have h : ¬ (p < 0 ∨ p > 1) := by
      rintro (h | h) <;> linarith
    rw [hannWindow, if_neg h, realMath_cos, realMath_pi]
  have hout : ∀ p : ℝ, p < 0 ∨ 1 < p → hannWindow p = 0 := by
    intro p h
    rw [hannWindow, if_pos h]
  refine ⟨hin, hout, ?_, ?_, ?_, ?_⟩
  · rw [hin 0 le_rfl zero_le_one]
    simp
  · rw [hin 1 zero_le_one le_rfl]
    simp
  · rw [hin 0.5 (by norm_num) (by norm_num)]
    have h : 2 * Real.pi * 0.5 = Real.pi := by ring
    rw [h, Real.cos_pi]
    norm_num
  · intro p
    by_cases h : p < 0 ∨ 1 < p
    · rw [hout p h]
      exact ⟨le_rfl, zero_le_one⟩
    · have h0 : 0 ≤ p := by
        by_contra hc
        exact h (Or.inl (not_le.mp hc))
      have h1 : p ≤ 1 := by
        by_contra hc
        exact h (Or.inr (not_le.mp hc))
      rw [hin p h0 h1]
      have hc1 := Real.cos_le_one (2 * Real.pi * p)
      have hc2 := Real.neg_one_le_cos (2 * Real.pi * p)
      constructor <;> linarith

theorem densityGain_of_pos (n : Nat) (hn : 0 < n) :
    densityGain (α := ℝ) n = clamp (1 / Real.sqrt ((n : ℝ) * 0.5)) 0.15 1 := by
  rw [densityGain, if_pos hn, realMath_sqrt]

/-- C9 (density-compensation gain values).  The gain is
`clamp (1 / sqrt (n * 0.5)) 0.15 1` for every active-grain count `n > 0` and
1 for `n = 0`; it is exactly 1 for `n = 1` and exactly 0.15 for `n = 200`. -/
theorem densityGain_values :
    (∀ n : Nat, 0 < n →
      densityGain (α := ℝ) n = clamp (1 / Real.sqrt ((n : ℝ) * 0.5)) 0.15 1) ∧
    densityGain (α := ℝ) 0 = 1 ∧
    densityGain (α := ℝ) 1 = 1 ∧
    densityGain (α := ℝ) 200 = 0.15 := by
  refine ⟨densityGain_of_pos, by simp [densityGain], ?_, ?_⟩
  · rw [densityGain_of_pos 1 one_pos]
    have hpos : 0 < Real.sqrt (((1 : Nat) : ℝ) * 0.5) := Real.sqrt_pos.mpr (by norm_num)
    have hle : Real.sqrt (((1 : Nat) : ℝ) * 0.5) ≤ 1 := Real.sqrt_le_one.mpr (by norm_num)
    have h1 : 1 ≤ 1 / Real.sqrt (((1 : Nat) : ℝ) * 0.5) := (one_le_div hpos).mpr hle
    rw [clamp, min_eq_right h1, max_eq_left (by norm_num)]
  · rw [densityGain_of_pos 200 (by norm_num)]
    have h100 : (((200 : Nat) : ℝ) * 0.5) = 10 ^ 2 := by norm_num
    rw [h100, Real.sqrt_sq (by norm_num), clamp, min_eq_left (by norm_num),
      max_eq_right (by norm_num)]

theorem clamp_mono (x y a b : ℝ) (h : x ≤ y) : clamp x a b ≤ clamp y a b := by
  unfold clamp
  exact max_le_max (min_le_min h le_rfl) le_rfl

/-- C10 (density-compensation monotonicity).  For active-grain counts
`m ≤ n` (also `m = 0`) the gain for `n` is at most the gain for `m`, and the
gain lies in `[0.15, 1]`. -/
theorem densityGain_antitone (m n : Nat) (h : m ≤ n) :
    densityGain (α := ℝ) n ≤ densityGain (α := ℝ) m ∧
    0.15 ≤ densityGain (α := ℝ) n ∧ densityGain (α := ℝ) n ≤ 1 := by
  have hrange : ∀ k : Nat, 0.15 ≤ densityGain (α := ℝ) k ∧ densityGain (α := ℝ) k ≤ 1 := by
    intro k
    rcases Nat.eq_zero_or_pos k with hk | hk
    · subst hk
      norm_num [densityGain]
    · rw [densityGain_of_pos k hk]
      exact ⟨lo_le_clamp _ _ _, clamp_le_hi _ _ _ (by norm_num)⟩
  refine ⟨?_, hrange n⟩
  rcases Nat.eq_zero_or_pos m with hm | hm
  · subst hm
    have h0 : densityGain (α := ℝ) 0 = 1 := by simp [densityGain]
    rw [h0]
    exact (hrange n).2
  · have hn : 0 < n := lt_of_lt_of_le hm h
    rw [densityGain_of_pos m hm, densityGain_of_pos n hn]
    apply clamp_mono
    have hm' : (0 : ℝ) < (m : ℝ) * 0.5 := by
      have : (0 : ℝ) < m := by exact_mod_cast hm
      linarith
    have hmn : (m : ℝ) * 0.5 ≤ (n : ℝ) * 0.5 := by
      have : (m : ℝ) ≤ n := by exact_mod_cast h
      linarith
    exact one_div_le_one_div_of_le (Real.sqrt_pos.mpr hm') (Real.sqrt_le_sqrt hmn)

/-- The gain for 200 active grains is at most the gain for one. -/
theorem densityGain_antitone_witness :
    densityGain (α := ℝ) 200 ≤ densityGain (α := ℝ) 1 :=
  (densityGain_antitone 1 200 (by norm_num)).1

end Synthesis

section Panning

/-- The accumulators after the contribution of one active grain. -/
theorem mixGrain_eq (shape : ℝ) (g : Grain ℝ) (m : Mix ℝ) :
    mixGrain shape g m =
      { leftOut := m.leftOut + grainSample shape g * leftGain g.pan,
        rightOut := m.rightOut + grainSample shape g * rightGain g.pan,
        activeGrainCount := m.activeGrainCount + 1 } := rfl

/-- The grain loop on an active grain adds its contribution. -/
theorem processGrains_active_single (shape t : ℝ) (g : Grain ℝ) (m : Mix ℝ)
    (h : g.active = true) : (processGrains shape t [g] m).2 = mixGrain shape g m := by
  simp [processGrains, h]

/-- C11 (pan endpoints).  An active grain with enveloped sample `x` adds
`(x, 0)` to the accumulators `(leftOut, rightOut)` when its pan is 0 and
`(0, x)` when its pan is 1; when its pan is 0.5 both gains are `sqrt 0.5`. -/
theorem pan_endpoints (shape : ℝ) (g : Grain ℝ) (m : Mix ℝ) :
    (g.pan = 0 →
      (mixGrain shape g m).leftOut = m.leftOut + grainSample shape g ∧
      (mixGrain shape g m).rightOut = m.rightOut + 0) ∧
    (g.pan = 1 →
      (mixGrain shape g m).leftOut = m.leftOut + 0 ∧
      (mixGrain shape g m).rightOut = m.rightOut + grainSample shape g) ∧
    (g.pan = 0.5 →
      leftGain g.pan = Real.sqrt 0.5 ∧ rightGain g.pan = Real.sqrt 0.5 ∧
      (mixGrain shape g m).leftOut = m.leftOut + grainSample shape g * Real.sqrt 0.5 ∧
      (mixGrain shape g m).rightOut = m.rightOut + grainSample shape g * Real.sqrt 0.5) := by
  rw [mixGrain_eq]
  refine ⟨fun h => ?_, fun h => ?_, fun h => ?_⟩
  · simp [h, leftGain, rightGain, realMath_sqrt]
  · simp [h, leftGain, rightGain, realMath_sqrt]
  · have h1 : leftGain g.pan = Real.sqrt 0.5 := by
      rw [h, leftGain, realMath_sqrt]
      norm_num
    have h2 : rightGain g.pan = Real.sqrt 0.5 := by
      rw [h, rightGain, realMath_sqrt]
    simp only [h1, h2]
    exact ⟨trivial, trivial, trivial, trivial⟩

end Panning

section TriggeredGrains

variable {α : Type} [LinearOrderedField α] [FloatMath α]

/-- A slot after the slot search is the slot before it, or it was inactive
and is now what the body of the search `if` has written. -/
theorem spawnGrain_slot (p : Params α) (r : Rng α) (gs : List (Grain α)) :
    ∀ (i : Nat) (g g' : Grain α), gs[i]? = some g →
      (spawnGrain p gs r).1[i]? = some g' →
      g' = g ∨ (g.active = false ∧ g' = (triggerSlot p g r).1) := by
  induction gs with
  | nil =>
    intro i g g' h1
    simp at h1
  | cons x xs ih =>
    intro i g g' h1 h2
    by_cases hx : x.active = true
    · have hsp : (spawnGrain p (x :: xs) r).1 = x :: (spawnGrain p xs r).1 := by
        simp [spawnGrain, hx]
      rw [hsp] at h2
      cases i with
      | zero =>
        simp only [List.getElem?_cons_zero, Option.some.injEq] at h1 h2
        left
        rw [← h1, ← h2]
      | succ i =>
        simp only [List.getElem?_cons_succ] at h1 h2
        exact ih i g g' h1 h2
    · have hx' : x.active = false := by simpa using hx
      have hsp : (spawnGrain p (x :: xs) r).1 = (triggerSlot p x r).1 :: xs := by
        simp [spawnGrain, hx']
      rw [hsp] at h2
      cases i with
      | zero =>
        simp only [List.getElem?_cons_zero, Option.some.injEq] at h1 h2
        right
        rw [← h1, ← h2]
        exact ⟨hx', rfl⟩
      | succ i =>
        simp only [List.getElem?_cons_succ] at h1 h2
        left
        rw [h1] at h2
        exact (Option.some.inj h2).symm

/-- A slot that is inactive before the spawn step and active after it holds
the grain written by the body of the slot-search `if`. -/
theorem spawnStep_triggered (p : Params α) (s : Stream α) (r : Rng α)
    (i : Nat) (g g' : Grain α) (h1 : s.grains[i]? = some g)
    (h2 : (spawnStep p s r).1.grains[i]? = some g')
    (hg : g.active = false) (hg' : g'.active = true) :
    g' = (triggerSlot p g r).1 := by
  by_cases hdue : s.nextGrainTime - p.sampleTime ≤ 0
  · rw [(spawnStep_of_due p s r hdue).1] at h2
    rcases spawnGrain_slot p r s.grains i g g' h1 h2 with h | ⟨-, h⟩
    · rw [h, hg] at hg'
      cases hg'
    · exact h
  · rw [(spawnStep_of_not_due p s r (not_le.mp hdue)).1, h1] at h2
    rw [← Option.some.inj h2, hg] at hg'
    cases hg'

/-- The spawn step of a fresh stream whose timer expires triggers slot 0. -/
theorem spawnStep_init_head (p : Params α) (r : Rng α) (h : 0 ≤ p.sampleTime) :
    (Stream.init : Stream α).grains[0]? = some Grain.init ∧
    (spawnStep p Stream.init r).1.grains[0]? = some (triggerSlot p Grain.init r).1 := by
  have hdue : (Stream.init : Stream α).nextGrainTime - p.sampleTime ≤ 0 := by
    simp [Stream.init, h]
  rw [(spawnStep_of_due p Stream.init r hdue).1]
  simp [Stream.init, GRAINS_PER_STREAM, spawnGrain, Grain.init, List.replicate]

/-- C12 (no jitter at variation 0, frequency and duration).  With variation 0,
centre frequency in `[50, 2000]` and base duration in `[0.001, 0.1]`, whatever
the range and the draws, a grain triggered by the spawn step (a slot inactive
before it and active after it) has the centre frequency as its frequency and
the base duration as its duration. -/
theorem no_jitter_freq_dur (p : Params α) (s : Stream α) (r : Rng α)
    (hv : p.variation = 0)
    (hc : 50 ≤ p.centerFreq ∧ p.centerFreq ≤ 2000)
    (hd : 0.001 ≤ p.duration ∧ p.duration ≤ 0.1)
    (i : Nat) (g g' : Grain α) (h1 : s.grains[i]? = some g)
    (h2 : (spawnStep p s r).1.grains[i]? = some g')
    (hg : g.active = false) (hg' : g'.active = true) :
    g'.frequency = p.centerFreq ∧ g'.duration = p.duration := by
  rw [spawnStep_triggered p s r i g g' h1 h2 hg hg', triggerSlot_fst]
  have hf : (spawnFreq p r).1 = p.centerFreq := by
    have hno : ¬ ((0 : α) > 0.01 ∧ p.range > 0) := by norm_num
    simp only [spawnFreq, hv, if_neg hno]
    exact clamp_of_mem _ _ _ (by linarith [hc.1]) (by linarith [hc.2])
  have hdur : ∀ r' : Rng α, (spawnDur p r').1 = p.duration := by
    intro r'
    have hno : ¬ ((0 : α) > 0.01) := by norm_num
    simp only [spawnDur, hv, if_neg hno]
    exact clamp_of_mem _ _ _ hd.1 (by have h := hd.2; norm_num at h ⊢; linarith)
  exact ⟨hf, hdur _⟩

/-- C13 as amended (pan without spread).  With spread at most 0.01, whatever
the variation and the draws, a grain triggered by the spawn step has pan 0.5. -/
theorem pan_centre_of_small_spread (p : Params α) (s : Stream α) (r : Rng α)
    (hs : p.spread ≤ 0.01)
    (i : Nat) (g g' : Grain α) (h1 : s.grains[i]? = some g)
    (h2 : (spawnStep p s r).1.grains[i]? = some g')
    (hg : g.active = false) (hg' : g'.active = true) :
    g'.pan = 0.5 := by
  rw [spawnStep_triggered p s r i g g' h1 h2 hg hg', triggerSlot_fst]
  have hp : ∀ r' : Rng α, (spawnPan p r').1 = 0.5 := by
    intro r'
    simp only [spawnPan, if_neg (not_lt.mpr hs)]
  show clamp _ 0 1 = 0.5
  rw [hp]
  exact clamp_of_mem _ _ _ (by norm_num) (by norm_num)

/-- C16 as amended (frequency randomisation).  For range `> 0` and variation
`v > 0.01`, a grain triggered by the spawn step has frequency
`clamp (c + (2 u - 1) * range * f v) 20 20000`, where `u` is the first draw,
`f v = v * v / 0.3` for `v < 0.3` and `f v = v` for `v ≥ 0.3`. -/
theorem freq_randomisation (p : Params α) (s : Stream α) (r : Rng α)
    (hv : p.variation > 0.01) (hr : p.range > 0)
    (i : Nat) (g g' : Grain α) (h1 : s.grains[i]? = some g)
    (h2 : (spawnStep p s r).1.grains[i]? = some g')
    (hg : g.active = false) (hg' : g'.active = true) :
    g'.frequency =
      clamp (p.centerFreq + (2 * r.next - 1) * p.range *
        (if p.variation < 0.3 then p.variation * p.variation / 0.3 else p.variation))
        20 20000 := by
  rw [spawnStep_triggered p s r i g g' h1 h2 hg hg', triggerSlot_fst]
  show (spawnFreq p r).1 = _
  simp only [spawnFreq, if_pos (And.intro hv hr)]
  congr 2
  ring

omit [FloatMath α] in
/-- A value within 30 percent of a base duration `b` in `[0.001, 0.1]` stays
within 30 percent of `b` when it is clamped to `[0.001, 0.2]`. -/
theorem clamp_dur_close (b x : α) (hb0 : 0.001 ≤ b) (hb1 : b ≤ 0.1) (hx1 : x ≤ 1.3 * b)
    (hx2 : 0.7 * b ≤ x) : |clamp x 0.001 0.2 - b| ≤ 0.3 * b := by
  rw [abs_le]
  unfold clamp
  constructor
  · have h : b - 0.3 * b ≤ max (min x 0.2) 0.001 := by
      rcases le_total x 0.2 with hx | hx
      · rw [min_eq_left hx]
        exact le_trans (by linarith) (le_max_left _ _)
      · rw [min_eq_right hx]
        exact le_trans (by linarith) (le_max_left _ _)
    linarith
  · have h : max (min x 0.2) 0.001 ≤ b + 0.3 * b := by
      apply max_le
      · exact le_trans (min_le_left _ _) (by linarith)
      · linarith
    linarith

omit [FloatMath α] in
/-- The jittered duration before the clamp is within 30 percent of the base. -/
theorem dur_jitter_bounds (b u v : α) (hb : 0 ≤ b) (hv0 : 0 ≤ v) (hv1 : v ≤ 1)
    (hu0 : 0 ≤ u) (hu1 : u < 1) :
    b * (1 + (2 * u - 1) * 0.3 * v ^ 2) ≤ 1.3 * b ∧
    0.7 * b ≤ b * (1 + (2 * u - 1) * 0.3 * v ^ 2) := by
  have hvv : v ^ 2 ≤ 1 := by nlinarith
  have hvv0 : 0 ≤ v ^ 2 := sq_nonneg _
  have hj1 : (2 * u - 1) * 0.3 * v ^ 2 ≤ 0.3 := by nlinarith
  have hj2 : -0.3 ≤ (2 * u - 1) * 0.3 * v ^ 2 := by nlinarith
  constructor <;> nlinarith

/-- C17 (duration randomisation).  For variation `v > 0.01`, a grain triggered
by the spawn step has duration `clamp (b * (1 + (2 u - 1) * 0.3 * v ^ 2)) 0.001 0.2`,
where `u` is the draw that follows the frequency computation; for `v ≤ 1`,
`u` in `[0, 1)` and `b` in `[0.001, 0.1]` it differs from `b` by at most
`0.3 * b`. -/
theorem dur_randomisation (p : Params α) (s : Stream α) (r : Rng α)
    (hv : p.variation > 0.01)
    (i : Nat) (g g' : Grain α) (h1 : s.grains[i]? = some g)
    (h2 : (spawnStep p s r).1.grains[i]? = some g')
    (hg : g.active = false) (hg' : g'.active = true) :
    g'.duration =
      clamp (p.duration * (1 + (2 * (spawnFreq p r).2.next - 1) * 0.3 * p.variation ^ 2))
        0.001 0.2 ∧
    (p.variation ≤ 1 →
      0 ≤ (spawnFreq p r).2.next → (spawnFreq p r).2.next < 1 →
      0.001 ≤ p.duration → p.duration ≤ 0.1 →
      |g'.duration - p.duration| ≤ 0.3 * p.duration) := by
  rw [spawnStep_triggered p s r i g g' h1 h2 hg hg', triggerSlot_fst]
  have hval : (spawnDur p (spawnFreq p r).2).1 =
      clamp (p.duration * (1 + (2 * (spawnFreq p r).2.next - 1) * 0.3 * p.variation ^ 2))
        0.001 0.2 := by
    simp only [spawnDur, if_pos hv]
    congr 2
    ring
  refine ⟨hval, ?_⟩
  intro hv1 hu0 hu1 hb0 hb1
  show |(spawnDur p (spawnFreq p r).2).1 - p.duration| ≤ 0.3 * p.duration
  rw [hval]
  have hb : 0 ≤ p.duration := le_trans (by norm_num) hb0
  have hv0 : 0 ≤ p.variation := le_of_lt (lt_trans (by norm_num) hv)
  obtain ⟨hx1, hx2⟩ :=
    dur_jitter_bounds p.duration (spawnFreq p r).2.next p.variation hb hv0 hv1 hu0 hu1
  exact clamp_dur_close _ _ hb0 hb1 hx1 hx2

end TriggeredGrains

section RandomisationInstances

/-- With `scenarioParams` the grain triggered in a fresh stream has the centre
frequency and the base duration. -/
theorem no_jitter_freq_dur_witness :
    (triggerSlot (scenarioParams : Params ℝ) Grain.init (fun _ => 0)).1.frequency =
      (scenarioParams : Params ℝ).centerFreq ∧
    (triggerSlot (scenarioParams : Params ℝ) Grain.init (fun _ => 0)).1.duration =
      (scenarioParams : Params ℝ).duration :=
  no_jitter_freq_dur scenarioParams Stream.init (fun _ => 0) rfl
    (by norm_num [scenarioParams]) (by norm_num [scenarioParams]) 0 Grain.init _
    (spawnStep_init_head scenarioParams (fun _ => 0) (by norm_num [scenarioParams])).1
    (spawnStep_init_head scenarioParams (fun _ => 0) (by norm_num [scenarioParams])).2 rfl rfl

/-- The pan computed with `panParams` for the draw 0.625. -/
theorem spawnPan_panParams (r : Rng ℝ) (hr : r.next = 0.625) :
    (spawnPan (panParams : Params ℝ) r).1 = 0.75 := by
  have hsq : Real.sqrt (|(0.625 : ℝ) - 0.5| * 2) = 0.5 := by
    have h : |(0.625 : ℝ) - 0.5| * 2 = 0.5 ^ 2 := by
      rw [abs_of_nonneg (by norm_num)]
      norm_num
    rw [h, Real.sqrt_sq (by norm_num)]
  have hs : (panParams : Params ℝ).spread > 0.01 := by norm_num [panParams]
  have hge : (0.625 : ℝ) - 0.5 ≥ 0 := by norm_num
  simp only [spawnPan, if_pos hs, hr, realMath_sqrt, hsq, if_pos hge]
  norm_num [panParams, clamp]

/-- C13 (no jitter at variation 0, pan), the code at variation 0, spread 1 and
draw 0.625: the grain triggered in slot 0 of a fresh stream has pan 0.75,
not 0.5. -/
theorem pan_jitter_at_variation_zero :
    (panParams : Params ℝ).variation = 0 ∧
    (Stream.init : Stream ℝ).grains[0]? = some Grain.init ∧
    (spawnStep (panParams : Params ℝ) Stream.init (fun _ => 0.625)).1.grains[0]? =
      some (triggerSlot (panParams : Params ℝ) Grain.init (fun _ => 0.625)).1 ∧
    (triggerSlot (panParams : Params ℝ) Grain.init (fun _ => 0.625)).1.active = true ∧
    (triggerSlot (panParams : Params ℝ) Grain.init (fun _ => 0.625)).1.pan = 0.75 ∧
    (triggerSlot (panParams : Params ℝ) Grain.init (fun _ => 0.625)).1.pan ≠ 0.5 := by
  have hhead := spawnStep_init_head (panParams : Params ℝ) (fun _ => 0.625)
    (by norm_num [panParams])
  have hpan : (triggerSlot (panParams : Params ℝ) Grain.init (fun _ => 0.625)).1.pan
      = 0.75 := by
    rw [triggerSlot_fst]
    show clamp _ 0 1 = 0.75
    rw [spawnPan_panParams _ (by
      norm_num [spawnDur, spawnFreq, panParams, Rng.next])]
    norm_num [clamp]
  refine ⟨rfl, hhead.1, hhead.2, rfl, hpan, ?_⟩
  rw [hpan]
  norm_num

/-- With `scenarioParams` (spread 0) the grain triggered in a fresh stream has
pan 0.5. -/
theorem pan_centre_of_small_spread_witness :
    (triggerSlot (scenarioParams : Params ℝ) Grain.init (fun _ => 0)).1.pan = 0.5 :=
  pan_centre_of_small_spread scenarioParams Stream.init (fun _ => 0)
    (by norm_num [scenarioParams]) 0 Grain.init _
    (spawnStep_init_head scenarioParams (fun _ => 0) (by norm_num [scenarioParams])).1
    (spawnStep_init_head scenarioParams (fun _ => 0) (by norm_num [scenarioParams])).2 rfl rfl

/-- C16 (frequency randomisation), the code at centre frequency 440, range
300, variation 0.2 and draw 0: the triggered grain has frequency 400, while
`clamp (c + (2 u - 1) * range * v ^ 2) 20 20000` is 428. -/
theorem freq_scale_below_threshold :
    (triggerSlot (jitterParams : Params ℝ) Grain.init (fun _ => 0)).1.frequency = 400 ∧
    clamp ((jitterParams : Params ℝ).centerFreq
      + (2 * 0 - 1) * (jitterParams : Params ℝ).range
        * (jitterParams : Params ℝ).variation ^ 2) 20 20000 = 428 ∧
    (triggerSlot (jitterParams : Params ℝ) Grain.init (fun _ => 0)).1.frequency ≠
      clamp ((jitterParams : Params ℝ).centerFreq
        + (2 * 0 - 1) * (jitterParams : Params ℝ).range
          * (jitterParams : Params ℝ).variation ^ 2) 20 20000 := by
  have h1 : (triggerSlot (jitterParams : Params ℝ) Grain.init (fun _ => 0)).1.frequency
      = 400 := by
    rw [triggerSlot_fst]
    show (spawnFreq _ _).1 = 400
    norm_num [spawnFreq, jitterParams, Rng.next, clamp]
  have h2 : clamp ((jitterParams : Params ℝ).centerFreq
      + (2 * 0 - 1) * (jitterParams : Params ℝ).range
        * (jitterParams : Params ℝ).variation ^ 2) 20 20000 = 428 := by
    norm_num [jitterParams, clamp]
  refine ⟨h1, h2, ?_⟩
  rw [h1, h2]
  norm_num

/-- The amended frequency formula for `jitterParams` in a fresh stream. -/
theorem freq_randomisation_witness :
    (triggerSlot (jitterParams : Params ℝ) Grain.init (fun _ => 0)).1.frequency =
      clamp ((jitterParams : Params ℝ).centerFreq
        + (2 * Rng.next (fun _ => (0 : ℝ)) - 1) * (jitterParams : Params ℝ).range *
        (if (jitterParams : Params ℝ).variation < 0.3 then
          (jitterParams : Params ℝ).variation * (jitterParams : Params ℝ).variation / 0.3
         else (jitterParams : Params ℝ).variation)) 20 20000 :=
  freq_randomisation jitterParams Stream.init (fun _ => 0)
    (by norm_num [jitterParams]) (by norm_num [jitterParams]) 0 Grain.init _
    (spawnStep_init_head jitterParams (fun _ => 0) (by norm_num [jitterParams])).1
    (spawnStep_init_head jitterParams (fun _ => 0) (by norm_num [jitterParams])).2 rfl rfl

/-- The duration formula for `jitterParams` in a fresh stream. -/
theorem dur_randomisation_witness :
    (triggerSlot (jitterParams : Params ℝ) Grain.init (fun _ => 0)).1.duration =
      clamp ((jitterParams : Params ℝ).duration
        * (1 + (2 * (spawnFreq (jitterParams : Params ℝ) (fun _ => 0)).2.next - 1) * 0.3
          * (jitterParams : Params ℝ).variation ^ 2)) 0.001 0.2 :=
  (dur_randomisation jitterParams Stream.init (fun _ => 0)
    (by norm_num [jitterParams]) 0 Grain.init _
    (spawnStep_init_head jitterParams (fun _ => 0) (by norm_num [jitterParams])).1
    (spawnStep_init_head jitterParams (fun _ => 0) (by norm_num [jitterParams])).2 rfl rfl).1

end RandomisationInstances

section PanRandomisation

/-- The pan of a grain triggered with the draws `r`. -/
theorem triggerSlot_pan (p : Params ℝ) (g : Grain ℝ) (r : Rng ℝ) :
    (triggerSlot p g r).1.pan =
      clamp (spawnPan p (spawnDur p (spawnFreq p r).2).2).1 0 1 := rfl

/-- The pan computed from a draw `u` in `[0, 1]` with spread in `(0.01, 1]`:
its value, and its distance from the centre. -/
theorem spawnPan_value (p : Params ℝ) (r : Rng ℝ) (hs : p.spread > 0.01)
    (hs1 : p.spread ≤ 1) (hu0 : 0 ≤ r.next) (hu1 : r.next ≤ 1) :
    (spawnPan p r).1 =
      0.5 + Real.sign (r.next - 0.5) * 0.5 * Real.sqrt |2 * r.next - 1| * p.spread ∧
    0.5 - p.spread / 2 ≤ (spawnPan p r).1 ∧ (spawnPan p r).1 ≤ 0.5 + p.spread / 2 := by
  have hspos : 0 < p.spread := lt_trans (by norm_num) hs
  have habs : |r.next - 0.5| * 2 = |2 * r.next - 1| := by
    have h : 2 * r.next - 1 = (r.next - 0.5) * 2 := by ring
    rw [h, abs_mul, abs_of_pos (by norm_num : (0 : ℝ) < 2)]
  have hle : |2 * r.next - 1| ≤ 1 := by
    rw [abs_le]
    constructor <;> linarith
  have hq0 : 0 ≤ Real.sqrt |2 * r.next - 1| := Real.sqrt_nonneg _
  have hq1 : Real.sqrt |2 * r.next - 1| ≤ 1 := Real.sqrt_le_one.mpr hle
  have hsign : Real.sqrt |2 * r.next - 1| * 0.5 *
      (if r.next - 0.5 ≥ 0 then (1 : ℝ) else -1) =
      Real.sign (r.next - 0.5) * 0.5 * Real.sqrt |2 * r.next - 1| := by
    rcases lt_trichotomy (r.next - 0.5) 0 with h | h | h
    · rw [Real.sign_of_neg h, if_neg (not_le.mpr h)]
      ring
    · have h0 : 2 * r.next - 1 = 0 := by linarith
      rw [h, h0]
      simp
    · rw [Real.sign_of_pos h, if_pos (le_of_lt h)]
      ring
  have hval : 0.5 + Real.sqrt (|r.next - 0.5| * 2) * 0.5 *
      (if r.next - 0.5 ≥ 0 then (1 : ℝ) else -1) * p.spread =
      0.5 + Real.sign (r.next - 0.5) * 0.5 * Real.sqrt |2 * r.next - 1| * p.spread := by
    rw [habs, hsign]
  have hsg : Real.sign (r.next - 0.5) = -1 ∨ Real.sign (r.next - 0.5) = 0 ∨
      Real.sign (r.next - 0.5) = 1 := Real.sign_apply_eq _
  have hlo : 0.5 - p.spread / 2 ≤
      0.5 + Real.sign (r.next - 0.5) * 0.5 * Real.sqrt |2 * r.next - 1| * p.spread := by
    rcases hsg with h | h | h <;> rw [h] <;> nlinarith
  have hhi : 0.5 + Real.sign (r.next - 0.5) * 0.5 * Real.sqrt |2 * r.next - 1| * p.spread
      ≤ 0.5 + p.spread / 2 := by
    rcases hsg with h | h | h <;> rw [h] <;> nlinarith
  have heq : (spawnPan p r).1 =
      0.5 + Real.sign (r.next - 0.5) * 0.5 * Real.sqrt |2 * r.next - 1| * p.spread := by
    simp only [spawnPan, if_pos hs, realMath_sqrt]
    rw [hval]
    exact clamp_of_mem _ _ _ (by linarith) (by linarith)
  rw [heq]
  exact ⟨rfl, hlo, hhi⟩

/-- Mirrored draws give mirrored pans. -/
theorem spawnPan_mirror (p : Params ℝ) (r r' : Rng ℝ)
    (hs1 : p.spread ≤ 1) (hu0 : 0 ≤ r.next) (hu1 : r.next ≤ 1)
    (hm : r'.next = 1 - r.next) :
    (spawnPan p r').1 = 1 - (spawnPan p r).1 := by
  by_cases hs : p.spread > 0.01
  · rw [(spawnPan_value p r hs hs1 hu0 hu1).1,
      (spawnPan_value p r' hs hs1 (by rw [hm]; linarith) (by rw [hm]; linarith)).1, hm]
    have h1 : 1 - r.next - 0.5 = -(r.next - 0.5) := by ring
    have h2 : 2 * (1 - r.next) - 1 = -(2 * r.next - 1) := by ring
    rw [h1, h2, Real.sign_neg, abs_neg]
    ring
  · simp only [spawnPan, if_neg hs]
    norm_num

/-- C18 (pan randomisation).  For spread `s` in `[0, 1]` and pan draw `u` in
`[0, 1)`, a grain triggered by the spawn step has pan 0.5 when `s ≤ 0.01` and
`0.5 + sign (u - 0.5) * 0.5 * sqrt |2 u - 1| * s` otherwise; the pan lies in
`[0.5 - s / 2, 0.5 + s / 2]` and in `[0, 1]`, and a grain triggered with the
mirrored pan draw `1 - u` has the mirrored pan. -/
theorem pan_randomisation (p : Params ℝ) (s : Stream ℝ) (r : Rng ℝ)
    (hs : 0 ≤ p.spread ∧ p.spread ≤ 1)
    (hu : 0 ≤ panDraw p r ∧ panDraw p r < 1)
    (i : Nat) (g g' : Grain ℝ) (h1 : s.grains[i]? = some g)
    (h2 : (spawnStep p s r).1.grains[i]? = some g')
    (hg : g.active = false) (hg' : g'.active = true) :
    g'.pan = (if p.spread ≤ 0.01 then 0.5 else
      0.5 + Real.sign (panDraw p r - 0.5) * 0.5 * Real.sqrt |2 * panDraw p r - 1|
        * p.spread) ∧
    (0.5 - p.spread / 2 ≤ g'.pan ∧ g'.pan ≤ 0.5 + p.spread / 2) ∧
    (0 ≤ g'.pan ∧ g'.pan ≤ 1) ∧
    (∀ (r' : Rng ℝ) (g2 : Grain ℝ), panDraw p r' = 1 - panDraw p r →
      (triggerSlot p g2 r').1.pan = 1 - g'.pan) := by
  rw [spawnStep_triggered p s r i g g' h1 h2 hg hg']
  have hclamp : ∀ (r0 : Rng ℝ) (g0 : Grain ℝ), (triggerSlot p g0 r0).1.pan =
      (spawnPan p (spawnDur p (spawnFreq p r0).2).2).1 := by
    intro r0 g0
    rw [triggerSlot_pan]
    exact clamp_of_mem _ _ _ (spawnPan_mem p _).1 (spawnPan_mem p _).2
  have hmirror : ∀ (r' : Rng ℝ) (g2 : Grain ℝ), panDraw p r' = 1 - panDraw p r →
      (triggerSlot p g2 r').1.pan = 1 - (triggerSlot p g r).1.pan := by
    intro r' g2 hm
    rw [hclamp, hclamp]
    exact spawnPan_mirror p _ _ hs.2 hu.1 (le_of_lt hu.2) hm
  have hmem := spawnPan_mem p (spawnDur p (spawnFreq p r).2).2
  have hpan := hclamp r g
  by_cases hsp : p.spread ≤ 0.01
  · have hval : (spawnPan p (spawnDur p (spawnFreq p r).2).2).1 = 0.5 := by
      simp only [spawnPan, if_neg (not_lt.mpr hsp)]
    rw [if_pos hsp, hpan, hval]
    refine ⟨rfl, ⟨by linarith [hs.1], by linarith [hs.1]⟩,
      ⟨by norm_num, by norm_num⟩, ?_⟩
    intro r' g2 hm
    rw [hmirror r' g2 hm, hpan, hval]
  · obtain ⟨hval, hlo, hhi⟩ := spawnPan_value p (spawnDur p (spawnFreq p r).2).2
      (not_le.mp hsp) hs.2 hu.1 (le_of_lt hu.2)
    rw [if_neg hsp, hpan]
    exact ⟨hval, ⟨hlo, hhi⟩, hmem, fun r' g2 hm => by rw [hmirror r' g2 hm, hpan]⟩

end PanRandomisation

section PanInstances

theorem panDraw_jitterParams :
    panDraw (jitterParams : Params ℝ) (fun _ => 0.625) = 0.625 := by
  norm_num [panDraw, spawnDur, spawnFreq, jitterParams, Rng.next, Rng.advance]

/-- With `jitterParams` and the constant draw 0.625 the grain triggered in a
fresh stream has its pan in `[0, 1]`. -/
theorem pan_randomisation_witness :
    0 ≤ (triggerSlot (jitterParams : Params ℝ) Grain.init (fun _ => 0.625)).1.pan ∧
    (triggerSlot (jitterParams : Params ℝ) Grain.init (fun _ => 0.625)).1.pan ≤ 1 :=
  (pan_randomisation jitterParams Stream.init (fun _ => 0.625)
    (by norm_num [jitterParams])
    (by rw [panDraw_jitterParams]; norm_num) 0 Grain.init _
    (spawnStep_init_head jitterParams (fun _ => 0.625) (by norm_num [jitterParams])).1
    (spawnStep_init_head jitterParams (fun _ => 0.625) (by norm_num [jitterParams])).2
    rfl rfl).2.2.1

end PanInstances

section Timer

variable {α : Type} [LinearOrderedField α] [FloatMath α]

omit [FloatMath α] in
/-- The value computed by the rescheduling code, as a formula in the draw. -/
theorem scheduleNext_value (p : Params α) (r : Rng α)
    (hu : 0 ≤ r.next ∧ r.next < 1) (hv : p.variation ≤ 1) :
    (scheduleNext p r).1 =
      max 0.001 (baseDelay p.density p.delayOffset *
        (1 + (if p.variation > 0.01 then (2 * r.next - 1) * p.variation ^ 2 else 0))) := by
  by_cases hvar : p.variation > 0.01
  · have hv0 : 0 ≤ p.variation := le_of_lt (lt_trans (by norm_num) hvar)
    have hvv : p.variation ^ 2 ≤ 1 := by nlinarith
    have hj : 0 ≤ 1 + (2 * r.next - 1) * p.variation ^ 2 := by nlinarith [hu.1]
    rw [if_pos hvar]
    by_cases hd : baseDelay p.density p.delayOffset > 0
    · simp only [scheduleNext, if_pos (And.intro hvar hd)]
      congr 2
      ring
    · have hno : ¬ (p.variation > 0.01 ∧ baseDelay p.density p.delayOffset > 0) :=
        fun h => hd h.2
      have hd' : baseDelay p.density p.delayOffset ≤ 0 := not_lt.mp hd
      have hprod : baseDelay p.density p.delayOffset *
          (1 + (2 * r.next - 1) * p.variation ^ 2) ≤ 0 :=
        mul_nonpos_of_nonpos_of_nonneg hd' hj
      simp only [scheduleNext, if_neg hno]
      rw [max_eq_left (le_trans hd' (by norm_num)),
        max_eq_left (le_trans hprod (by norm_num))]
  · have hno : ¬ (p.variation > 0.01 ∧ baseDelay p.density p.delayOffset > 0) :=
      fun h => hvar h.1
    simp only [scheduleNext, if_neg hno, if_neg hvar, add_zero, mul_one]

omit [FloatMath α] in
/-- C15 (base interval selection).  For density in `[1, 1000]` and a resolved
Delay value in `[0.0001, 0.2]`, the base retrigger interval is the Delay value
when that is above 0.0002 and `1 / density` otherwise; it is never the sum of
the two, and it is the interval the rescheduling code starts from. -/
theorem base_interval (p : Params α) (r : Rng α)
    (hden : 1 ≤ p.density ∧ p.density ≤ 1000)
    (hd : 0.0001 ≤ p.delayOffset ∧ p.delayOffset ≤ 0.2) :
    (0.0002 < p.delayOffset → baseDelay p.density p.delayOffset = p.delayOffset) ∧
    (p.delayOffset ≤ 0.0002 → baseDelay p.density p.delayOffset = 1 / p.density) ∧
    baseDelay p.density p.delayOffset ≠ 1 / p.density + p.delayOffset ∧
    (p.variation ≤ 0.01 →
      (scheduleNext p r).1 = max 0.001 (baseDelay p.density p.delayOffset)) := by
  have hdpos : 0 < p.delayOffset := lt_of_lt_of_le (by norm_num) hd.1
  have hinv : 0 < 1 / p.density := one_div_pos.mpr (lt_of_lt_of_le one_pos hden.1)
  refine ⟨fun h => by rw [baseDelay, if_pos h],
    fun h => by rw [baseDelay, if_neg (not_lt.mpr h)], ?_, ?_⟩
  · by_cases h : p.delayOffset > 0.0002
    · rw [baseDelay, if_pos h]
      intro hc
      linarith
    · rw [baseDelay, if_neg h]
      intro hc
      linarith
  · intro hv
    have hno : ¬ (p.variation > 0.01 ∧ baseDelay p.density p.delayOffset > 0) :=
      fun h => not_lt.mpr hv h.1
    simp only [scheduleNext, if_neg hno]

variable [FloorRing α]

/-- C14 (retrigger timer step).  On a tick of an active stream, if
`nextGrainTime - sampleTime > 0` the new timer is that difference; otherwise,
whatever the state of the grain pool, the new timer is
`max 0.001 (delay * (1 + j))` with `j = (2 u - 1) * variation ^ 2` for the draw
`u` that follows the slot search (`j = 0` when `variation ≤ 0.01`); it is at
least 0.001 and, for `delay ≥ 0`, at most
`max 0.001 (delay * (1 + variation ^ 2))`. -/
theorem timer_step (p : Params α) (s : Stream α) (r : Rng α) (m : Mix α)
    (hu : 0 ≤ (spawnGrain p s.grains r).2.next ∧ (spawnGrain p s.grains r).2.next < 1)
    (hv : p.variation ≤ 1) :
    (0 < s.nextGrainTime - p.sampleTime →
      (processStream p s r m).1.nextGrainTime = s.nextGrainTime - p.sampleTime) ∧
    (s.nextGrainTime - p.sampleTime ≤ 0 →
      (processStream p s r m).1.nextGrainTime =
        max 0.001 (baseDelay p.density p.delayOffset *
          (1 + (if p.variation > 0.01 then
            (2 * (spawnGrain p s.grains r).2.next - 1) * p.variation ^ 2 else 0))) ∧
      0.001 ≤ (processStream p s r m).1.nextGrainTime ∧
      (0 ≤ baseDelay p.density p.delayOffset →
        (processStream p s r m).1.nextGrainTime ≤
          max 0.001 (baseDelay p.density p.delayOffset * (1 + p.variation ^ 2)))) := by
  rw [processStream_nextGrainTime]
  refine ⟨fun h => (spawnStep_of_not_due p s r h).2.1, fun h => ?_⟩
  rw [(spawnStep_of_due p s r h).2.1, scheduleNext_value p _ hu hv]
  refine ⟨rfl, le_max_left _ _, fun hd => ?_⟩
  apply max_le_max le_rfl
  apply mul_le_mul_of_nonneg_left _ hd
  have hvv0 : 0 ≤ p.variation ^ 2 := sq_nonneg _
  split_ifs
  · nlinarith [hu.2]
  · linarith

end Timer

section TimerInstances

/-- The base interval of `scenarioParams` is `1 / density`. -/
theorem base_interval_witness :
    baseDelay (scenarioParams : Params ℚ).density (scenarioParams : Params ℚ).delayOffset
      = 1 / (scenarioParams : Params ℚ).density :=
  (base_interval (scenarioParams : Params ℚ) (fun _ => 0)
    (by norm_num [scenarioParams]) (by norm_num [scenarioParams])).2.1
    (by norm_num [scenarioParams])

/-- With a constant stream of draws the draws left after the slot search
are the same constant stream. -/
theorem spawnGrain_const_draws (p : Params ℝ) (c : ℝ) (gs : List (Grain ℝ)) :
    (spawnGrain p gs (fun _ => c)).2 = fun _ => c := by
  have hf : (spawnFreq p (fun _ => c)).2 = fun _ => c := by
    unfold spawnFreq
    split_ifs <;> rfl
  have hd : (spawnDur p (fun _ => c)).2 = fun _ => c := by
    unfold spawnDur
    split_ifs <;> rfl
  have hp : (spawnPan p (fun _ => c)).2 = fun _ => c := by
    unfold spawnPan
    split_ifs <;> rfl
  have ht : ∀ g : Grain ℝ, (triggerSlot p g (fun _ => c)).2 = fun _ => c := by
    intro g
    show (spawnPan p (spawnDur p (spawnFreq p (fun _ => c)).2).2).2 = _
    rw [hf, hd, hp]
  induction gs with
  | nil => rfl
  | cons g gs ih =>
    by_cases hg : g.active = true
    · simpa [spawnGrain, hg] using ih
    · have hg' : g.active = false := by simpa using hg
      simpa [spawnGrain, hg'] using ht g

theorem spawnGrain_init_draw :
    (spawnGrain (jitterParams : Params ℝ) (Stream.init : Stream ℝ).grains
      (fun _ => 0)).2.next = 0 := by
  rw [spawnGrain_const_draws]
  rfl

/-- The first tick of a fresh stream with `jitterParams` reschedules the timer
to at least 0.001. -/
theorem timer_step_witness :
    0.001 ≤ (processStream (jitterParams : Params ℝ) Stream.init (fun _ => 0)
      Mix.zero).1.nextGrainTime :=
  ((timer_step (jitterParams : Params ℝ) Stream.init (fun _ => 0) Mix.zero
    (by rw [spawnGrain_init_draw]; norm_num)
    (by norm_num [jitterParams])).2
    (by norm_num [Stream.init, jitterParams])).2.1

end TimerInstances

section WavePhase

variable {α : Type} [LinearOrderedField α] [FloorRing α]

theorem wrapPhase_of_lt_one (x : α) (h : x < 1) : wrapPhase x = x := by
  rw [wrapPhase, if_neg (not_le.mpr h)]

theorem wrapPhase_of_one_le (x : α) (h : 1 ≤ x) : wrapPhase x = wrapPhase (x - 1) := by
  rw [wrapPhase, if_pos h]

/-- The wrap loop returns the fractional part of a value that is not negative;
it makes `floor x` passes. -/
theorem wrapPhase_eq_fract (n : Nat) : ∀ x : α, 0 ≤ x → ⌊x⌋₊ = n →
    wrapPhase x = Int.fract x := by
  induction n with
  | zero =>
    intro x h0 hn
    have hlt : x < 1 := by
      have h := Nat.lt_floor_add_one x
      rw [hn] at h
      simpa using h
    rw [wrapPhase_of_lt_one x hlt, Int.fract_eq_self.mpr ⟨h0, hlt⟩]
  | succ n ih =>
    intro x _ hn
    have h1 : 1 ≤ x := by
      have h : 1 ≤ ⌊x⌋₊ := by omega
      exact_mod_cast (Nat.le_floor_iff' (by norm_num)).mp h
    have hfl : ⌊x - 1⌋₊ = n := by
      rw [Nat.floor_sub_one, hn]
      rfl
    rw [wrapPhase_of_one_le x h1, ih (x - 1) (by linarith) hfl, Int.fract_sub_one]

/-- C19 (wave-phase wrap).  For an active grain with wave phase in `[0, 1)`
and increment `frequency * sampleTime ≥ 0` of any size, the wrap loop ends
with the fractional part of `wavePhase + frequency * sampleTime`, which lies
in `[0, 1)`; that is the wave phase of the grain after the tick when it stays
active, and the wave phase after the tick is in `[0, 1)` in every case. -/
theorem wave_phase_wrap (t : α) (g : Grain α)
    (hw : 0 ≤ g.wavePhase ∧ g.wavePhase < 1) (hinc : 0 ≤ g.frequency * t) :
    wrapPhase (g.wavePhase + g.frequency * t) =
      Int.fract (g.wavePhase + g.frequency * t) ∧
    (0 ≤ wrapPhase (g.wavePhase + g.frequency * t) ∧
      wrapPhase (g.wavePhase + g.frequency * t) < 1) ∧
    (g.envelopePhase + t / g.duration < 1 →
      (advanceGrain t g).wavePhase = Int.fract (g.wavePhase + g.frequency * t)) ∧
    (0 ≤ (advanceGrain t g).wavePhase ∧ (advanceGrain t g).wavePhase < 1) := by
  have hx : 0 ≤ g.wavePhase + g.frequency * t := add_nonneg hw.1 hinc
  have hfr := wrapPhase_eq_fract ⌊g.wavePhase + g.frequency * t⌋₊ _ hx rfl
  have hsurv : g.envelopePhase + t / g.duration < 1 →
      (advanceGrain t g).wavePhase = Int.fract (g.wavePhase + g.frequency * t) := by
    intro h
    simp [advanceGrain, not_le.mpr h, hfr]
  refine ⟨hfr, ?_, hsurv, ?_⟩
  · rw [hfr]
    exact ⟨Int.fract_nonneg _, Int.fract_lt_one _⟩
  · by_cases h : g.envelopePhase + t / g.duration < 1
    · rw [hsurv h]
      exact ⟨Int.fract_nonneg _, Int.fract_lt_one _⟩
    · rw [(advanceGrain_of_ge t g (not_lt.mp h)).2.2.1]
      exact ⟨le_rfl, zero_lt_one⟩

/-- A grain of frequency 440 with wave phase 1/2 and tick size 1/100 (its
increment is 4.4) ends with wave phase 9/10. -/
theorem wave_phase_wrap_witness :
    wrapPhase ((1 / 2 : ℚ) + 440 * (1 / 100)) = Int.fract ((1 / 2 : ℚ) + 440 * (1 / 100)) :=
  (wave_phase_wrap (1 / 100 : ℚ)
    { active := true, envelopePhase := 0, wavePhase := 1 / 2, frequency := 440,
      duration := 1 / 50, pan := 1 / 2 }
    (by norm_num) (by norm_num)).1

end WavePhase

section InactiveStreams

variable {α : Type} [LinearOrderedField α] [FloorRing α] [FloatMath α]

/-- The stream loop leaves the streams from index `n` on as they are. -/
theorem processStreams_drop (p : Params α) (n : Nat) :
    ∀ (ss : List (Stream α)) (r : Rng α) (m : Mix α),
      (processStreams p n ss r m).1.drop n = ss.drop n := by
  induction n with
  | zero =>
    intro ss r m
    simp [processStreams]
  | succ n ih =>
    intro ss r m
    cases ss with
    | nil => simp [processStreams]
    | cons x xs => simp [processStreams, ih]

/-- The stream loop depends on the first `n` streams only: its draws, its
accumulators and the new first `n` streams are the same for two engine states
that agree on their first `n` streams. -/
theorem processStreams_congr (p : Params α) (n : Nat) :
    ∀ (ss ss' : List (Stream α)) (r : Rng α) (m : Mix α),
      ss'.take n = ss.take n →
      (processStreams p n ss' r m).2 = (processStreams p n ss r m).2 ∧
      (processStreams p n ss' r m).1.take n = (processStreams p n ss r m).1.take n := by
  induction n with
  | zero =>
    intro ss ss' r m _
    simp [processStreams]
  | succ n ih =>
    intro ss ss' r m h
    cases ss with
    | nil =>
      cases ss' with
      | nil => simp [processStreams]
      | cons y ys => simp at h
    | cons x xs =>
      cases ss' with
      | nil => simp at h
      | cons y ys =>
        simp only [List.take_succ_cons, List.cons.injEq] at h
        obtain ⟨hxy, htl⟩ := h
        subst hxy
        obtain ⟨h1, h2⟩ := ih xs ys (processStream p y r m).2.1 (processStream p y r m).2.2 htl
        simp only [processStreams, List.take_succ_cons, List.cons.injEq, true_and]
        exact ⟨h1, h2⟩

/-- C20 (inactive streams are frozen).  With `n` the active-stream count (the
clamped `numStreams`, which is `numStreams` itself when that is in `[1, 20]`),
one call of `process` leaves the streams from index `n` on unchanged, and the
accumulators (`leftOut`, `rightOut`, `activeGrainCount`) and the two output
voltages do not depend on those streams. -/
theorem inactive_streams_frozen (p : Params α) (e : Engine α) (r : Rng α) :
    (process p e r).1.streams.drop (activeStreams p.numStreams) =
      e.streams.drop (activeStreams p.numStreams) ∧
    (∀ e' : Engine α,
      e'.streams.take (activeStreams p.numStreams) =
        e.streams.take (activeStreams p.numStreams) →
      (processStreams p (activeStreams p.numStreams) e'.streams r Mix.zero).2.2 =
        (processStreams p (activeStreams p.numStreams) e.streams r Mix.zero).2.2 ∧
      (process p e' r).2.2 = (process p e r).2.2) ∧
    (1 ≤ p.numStreams → p.numStreams ≤ 20 →
      (activeStreams p.numStreams : Int) = p.numStreams) := by
  refine ⟨?_, ?_, ?_⟩
  · simp only [process]
    exact processStreams_drop p _ _ _ _
  · intro e' h
    have hc := (processStreams_congr p _ e.streams e'.streams r Mix.zero h).1
    refine ⟨by rw [hc], ?_⟩
    simp only [process, hc]
  · intro h1 h20
    unfold activeStreams MAX_STREAMS
    rw [min_eq_left (by exact_mod_cast h20), max_eq_left h1]
    exact Int.toNat_of_nonneg (by linarith)

end InactiveStreams

section ShapeAnchors

/-- C21 (shape anchors), the code at the anchor shapes: shape 0 gives the pure
sine, but at shape 0.33 and phase 1/12 the value is 0.335 (the triangle anchor
is 1/3 there), and at shape 0.66 and phase 0.25 the value is 0.505 (the
sawtooth anchor is 0.5 there): the mix weight at the end of the first two
bands is 0.99, not 1. -/
theorem shape_anchor_values :
    (∀ p : ℝ, generateGrainWave p 0 = Real.sin (p * 2 * Real.pi)) ∧
    generateGrainWave (1 / 12 : ℝ) 0.33 = 0.335 ∧
    generateGrainWave (0.25 : ℝ) 0.66 = 0.505 := by
  refine ⟨fun p => ?_, ?_, ?_⟩
  · unfold generateGrainWave
    rw [if_pos (by norm_num), realMath_sin, realMath_pi]
    ring
  · have hs : Real.sin ((1 / 12 : ℝ) * 2 * Real.pi) = 1 / 2 := by
      have h : (1 / 12 : ℝ) * 2 * Real.pi = Real.pi / 6 := by ring
      rw [h, Real.sin_pi_div_six]
    unfold generateGrainWave
    rw [realMath_sin, realMath_pi, hs]
    norm_num
  · unfold generateGrainWave
    norm_num

end ShapeAnchors

section EqualPower

/-- C24 (equal-power panning).  For pan in `[0, 1]` the two gains satisfy
`leftGain ^ 2 + rightGain ^ 2 = 1`, so the amounts `(l, r)` that a grain with
enveloped sample `x` adds to the accumulators satisfy `l ^ 2 + r ^ 2 = x ^ 2`. -/
theorem equal_power (shape : ℝ) (g : Grain ℝ) (m : Mix ℝ)
    (h : 0 ≤ g.pan ∧ g.pan ≤ 1) :
    leftGain g.pan ^ 2 + rightGain g.pan ^ 2 = 1 ∧
    ((mixGrain shape g m).leftOut - m.leftOut) ^ 2
      + ((mixGrain shape g m).rightOut - m.rightOut) ^ 2 = grainSample shape g ^ 2 := by
  have h1 : leftGain g.pan ^ 2 = 1 - g.pan := by
    rw [leftGain, realMath_sqrt, Real.sq_sqrt (by linarith [h.2])]
  have h2 : rightGain g.pan ^ 2 = g.pan := by
    rw [rightGain, realMath_sqrt, Real.sq_sqrt h.1]
  have hsum : leftGain g.pan ^ 2 + rightGain g.pan ^ 2 = 1 := by
    rw [h1, h2]
    ring
  refine ⟨hsum, ?_⟩
  rw [mixGrain_eq]
  simp only [add_sub_cancel_left]
  calc (grainSample shape g * leftGain g.pan) ^ 2
        + (grainSample shape g * rightGain g.pan) ^ 2
      = grainSample shape g ^ 2 * (leftGain g.pan ^ 2 + rightGain g.pan ^ 2) := by ring
    _ = grainSample shape g ^ 2 := by rw [hsum, mul_one]

/-- The gains of a grain with pan 1/4. -/
theorem equal_power_witness :
    leftGain (1 / 4 : ℝ) ^ 2 + rightGain (1 / 4 : ℝ) ^ 2 = 1 :=
  (equal_power 0
    { active := true, envelopePhase := 0, wavePhase := 0, frequency := 440,
      duration := 1 / 50, pan := 1 / 4 } Mix.zero (by norm_num)).1

end EqualPower

section FrequencyBound

variable {α : Type} [LinearOrderedField α] [FloatMath α]

omit [FloatMath α] in
/-- The frequency computation in terms of `freqVariationScale`. -/
theorem spawnFreq_fst (p : Params α) (r : Rng α) :
    (spawnFreq p r).1 =
      if p.variation > 0.01 ∧ p.range > 0 then
        clamp (p.centerFreq
          + (r.next - 0.5) * 2 * p.range * freqVariationScale p.variation) 20 20000
      else clamp p.centerFreq 20 20000 := by
  unfold spawnFreq freqVariationScale
  split_ifs <;> rfl

omit [FloatMath α] in
/-- The variation scale of the frequency is at most the variation, and it is
not negative. -/
theorem freqVariationScale_le (v : α) (hv : 0 ≤ v) :
    0 ≤ freqVariationScale v ∧ freqVariationScale v ≤ v := by
  unfold freqVariationScale
  split_ifs with h
  · constructor
    · exact div_nonneg (mul_nonneg hv hv) (by norm_num)
    · rw [div_le_iff₀ (by norm_num)]
      nlinarith
  · exact ⟨hv, le_rfl⟩

omit [FloatMath α] in
/-- Clamping to a band that contains `c` does not move a value away from `c`. -/
theorem abs_clamp_sub_le (x c a b : α) (h1 : a ≤ c) (h2 : c ≤ b) :
    |clamp x a b - c| ≤ |x - c| := by
  unfold clamp
  rw [abs_le]
  constructor
  · rcases le_total x b with hx | hx
    · rw [min_eq_left hx]
      rcases le_total x a with hxa | hxa
      · rw [max_eq_right hxa]
        have := neg_abs_le (x - c)
        have := abs_nonneg (x - c)
        linarith
      · rw [max_eq_left hxa]
        exact neg_abs_le _
    · rw [min_eq_right hx, max_eq_left (le_trans h1 h2)]
      have := abs_nonneg (x - c)
      linarith
  · rcases le_total x b with hx | hx
    · rw [min_eq_left hx]
      rcases le_total x a with hxa | hxa
      · rw [max_eq_right hxa]
        have := abs_nonneg (x - c)
        linarith
      · rw [max_eq_left hxa]
        exact le_abs_self _
    · rw [min_eq_right hx, max_eq_left (le_trans h1 h2)]
      have := le_abs_self (x - c)
      linarith

/-- C27 (frequency offset bound).  For variation `v` in `[0, 1]`, range
`r ≥ 0`, centre frequency `c` in `[20, 20000]` and first draw `u` in `[0, 1)`,
a grain triggered by the spawn step has `|frequency - c| ≤ r * v`; and at
`v = 0.3` the scale used below the threshold, `v * v / 0.3`, is the scale used
from the threshold on, `v`. -/
theorem freq_offset_bound (p : Params α) (s : Stream α) (r : Rng α)
    (hv : 0 ≤ p.variation ∧ p.variation ≤ 1) (hr : 0 ≤ p.range)
    (hc : 20 ≤ p.centerFreq ∧ p.centerFreq ≤ 20000)
    (hu : 0 ≤ r.next ∧ r.next < 1)
    (i : Nat) (g g' : Grain α) (h1 : s.grains[i]? = some g)
    (h2 : (spawnStep p s r).1.grains[i]? = some g')
    (hg : g.active = false) (hg' : g'.active = true) :
    |g'.frequency - p.centerFreq| ≤ p.range * p.variation ∧
    ((0.3 : α) * 0.3 / 0.3 = 0.3 ∧ freqVariationScale (0.3 : α) = 0.3 ∧
      (∀ v : α, v < 0.3 → freqVariationScale v = v * v / 0.3) ∧
      (∀ v : α, 0.3 ≤ v → freqVariationScale v = v)) := by
  constructor
  · rw [spawnStep_triggered p s r i g g' h1 h2 hg hg', triggerSlot_fst]
    show |(spawnFreq p r).1 - p.centerFreq| ≤ _
    rw [spawnFreq_fst]
    have hrv : 0 ≤ p.range * p.variation := mul_nonneg hr hv.1
    split_ifs with h
    · refine le_trans (abs_clamp_sub_le _ _ _ _ hc.1 hc.2) ?_
      obtain ⟨hs0, hs1⟩ := freqVariationScale_le p.variation hv.1
      have hrs : p.range * freqVariationScale p.variation ≤ p.range * p.variation :=
        mul_le_mul_of_nonneg_left hs1 hr
      have hrs0 : 0 ≤ p.range * freqVariationScale p.variation := mul_nonneg hr hs0
      rw [add_sub_cancel_left, abs_le]
      constructor <;> nlinarith [hu.1, hu.2]
    · rw [clamp_of_mem _ _ _ hc.1 hc.2, sub_self, abs_zero]
      exact hrv
  · refine ⟨by norm_num, ?_, ?_, ?_⟩
    · rw [freqVariationScale, if_neg (lt_irrefl _)]
    · intro v h
      rw [freqVariationScale, if_pos h]
    · intro v h
      rw [freqVariationScale, if_neg (not_lt.mpr h)]

end FrequencyBound

section FrequencyBoundInstances

/-- With `jitterParams` and the constant draw 0 the grain triggered in a fresh
stream has its frequency within `range * variation` of the centre. -/
theorem freq_offset_bound_witness :
    |(triggerSlot (jitterParams : Params ℝ) Grain.init (fun _ => 0)).1.frequency
      - (jitterParams : Params ℝ).centerFreq|
      ≤ (jitterParams : Params ℝ).range * (jitterParams : Params ℝ).variation :=
  (freq_offset_bound jitterParams Stream.init (fun _ => 0)
    (by norm_num [jitterParams]) (by norm_num [jitterParams])
    (by norm_num [jitterParams]) (by norm_num [Rng.next]) 0 Grain.init _
    (spawnStep_init_head jitterParams (fun _ => 0) (by norm_num [jitterParams])).1
    (spawnStep_init_head jitterParams (fun _ => 0) (by norm_num [jitterParams])).2
    rfl rfl).1

end FrequencyBoundInstances

section Invariants

variable {α : Type} [LinearOrderedField α] [FloatMath α]

/-- The slot search keeps a property of all slots that holds of every
triggered grain. -/
theorem spawnGrain_all (P : Grain α → Prop) (p : Params α)
    (htrig : ∀ (g : Grain α) (r : Rng α), P (triggerSlot p g r).1)
    (gs : List (Grain α)) (r : Rng α) (h : ∀ g ∈ gs, P g) :
    ∀ g ∈ (spawnGrain p gs r).1, P g := by
  induction gs with
  | nil =>
    intro g hg
    simp [spawnGrain] at hg
  | cons x xs ih =>
    have hx : P x := h x (List.mem_cons_self _ _)
    have hxs : ∀ g ∈ xs, P g := fun g hg => h g (List.mem_cons_of_mem _ hg)
    by_cases hxa : x.active = true
    · have hsp : (spawnGrain p (x :: xs) r).1 = x :: (spawnGrain p xs r).1 := by
        simp [spawnGrain, hxa]
      rw [hsp]
      intro g hg
      rcases List.mem_cons.mp hg with rfl | hg
      · exact hx
      · exact ih hxs g hg
    · have hxa' : x.active = false := by simpa using hxa
      have hsp : (spawnGrain p (x :: xs) r).1 = (triggerSlot p x r).1 :: xs := by
        simp [spawnGrain, hxa']
      rw [hsp]
      intro g hg
      rcases List.mem_cons.mp hg with rfl | hg
      · exact htrig x r
      · exact hxs g hg

/-- The spawn step keeps a property of all slots that holds of every
triggered grain. -/
theorem spawnStep_all (P : Grain α → Prop) (p : Params α)
    (htrig : ∀ (g : Grain α) (r : Rng α), P (triggerSlot p g r).1)
    (s : Stream α) (r : Rng α) (h : ∀ g ∈ s.grains, P g) :
    ∀ g ∈ (spawnStep p s r).1.grains, P g := by
  by_cases hdue : s.nextGrainTime - p.sampleTime ≤ 0
  · rw [(spawnStep_of_due p s r hdue).1]
    exact spawnGrain_all P p htrig s.grains r h
  · rw [(spawnStep_of_not_due p s r (not_le.mp hdue)).1]
    exact h

variable [FloorRing α]

/-- The stream loop body keeps a property of all slots that holds of every
triggered grain and is kept by the grain loop body. -/
theorem processStream_all (P : Grain α → Prop) (p : Params α)
    (htrig : ∀ (g : Grain α) (r : Rng α), P (triggerSlot p g r).1)
    (hstep : ∀ g : Grain α, P g → P (stepGrain p.sampleTime g))
    (s : Stream α) (r : Rng α) (m : Mix α) (h : ∀ g ∈ s.grains, P g) :
    ∀ g ∈ (processStream p s r m).1.grains, P g := by
  rw [processStream_grains]
  intro g hg
  obtain ⟨g0, hg0, rfl⟩ := List.mem_map.mp hg
  exact hstep g0 (spawnStep_all P p htrig s r h g0 hg0)

/-- The stream loop keeps such a property of all slots of all streams. -/
theorem processStreams_all (P : Grain α → Prop) (p : Params α)
    (htrig : ∀ (g : Grain α) (r : Rng α), P (triggerSlot p g r).1)
    (hstep : ∀ g : Grain α, P g → P (stepGrain p.sampleTime g)) (n : Nat) :
    ∀ (ss : List (Stream α)) (r : Rng α) (m : Mix α),
      (∀ s ∈ ss, ∀ g ∈ s.grains, P g) →
      ∀ s ∈ (processStreams p n ss r m).1, ∀ g ∈ s.grains, P g := by
  induction n with
  | zero =>
    intro ss r m h
    simpa [processStreams] using h
  | succ n ih =>
    intro ss r m h
    cases ss with
    | nil => simp [processStreams]
    | cons x xs =>
      have hx : ∀ g ∈ x.grains, P g := h x (List.mem_cons_self _ _)
      have hxs : ∀ s ∈ xs, ∀ g ∈ s.grains, P g :=
        fun s hs => h s (List.mem_cons_of_mem _ hs)
      have hsp : (processStreams p (n + 1) (x :: xs) r m).1 =
          (processStream p x r m).1 ::
            (processStreams p n xs (processStream p x r m).2.1
              (processStream p x r m).2.2).1 := by
        simp [processStreams]
      rw [hsp]
      intro s hs
      rcases List.mem_cons.mp hs with rfl | hs
      · exact processStream_all P p htrig hstep x r m hx
      · exact ih xs _ _ hxs s hs

/-- One call of `process` keeps such a property of all grain records. -/
theorem process_all (P : Grain α → Prop) (p : Params α)
    (htrig : ∀ (g : Grain α) (r : Rng α), P (triggerSlot p g r).1)
    (hstep : ∀ g : Grain α, P g → P (stepGrain p.sampleTime g))
    (e : Engine α) (r : Rng α) (h : EngineAll P e) :
    EngineAll P (process p e r).1 := by
  have hs : (process p e r).1.streams =
      (processStreams p (activeStreams p.numStreams) e.streams r Mix.zero).1 := by
    simp [process]
  intro s hs'
  rw [hs] at hs'
  exact processStreams_all P p htrig hstep _ e.streams r Mix.zero h s hs'

omit [FloatMath α] [FloorRing α] in
theorem grainParamsOk_init : GrainParamsOk (Grain.init : Grain α) := by
  norm_num [GrainParamsOk, Grain.init]

omit [FloorRing α] in
theorem grainParamsOk_trigger (p : Params α) (g : Grain α) (r : Rng α) :
    GrainParamsOk (triggerSlot p g r).1 := by
  rw [triggerSlot_fst]
  refine ⟨?_, ⟨lo_le_clamp _ _ _, clamp_le_hi _ _ _ zero_le_one⟩, ?_⟩
  · show 0.001 ≤ (spawnDur p _).1 ∧ (spawnDur p _).1 ≤ 0.2
    unfold spawnDur
    split_ifs <;> exact ⟨lo_le_clamp _ _ _, clamp_le_hi _ _ _ (by norm_num)⟩
  · show 20 ≤ (spawnFreq p r).1 ∧ (spawnFreq p r).1 ≤ 20000
    unfold spawnFreq
    split_ifs <;> exact ⟨lo_le_clamp _ _ _, clamp_le_hi _ _ _ (by norm_num)⟩

omit [FloatMath α] in
/-- The grain loop body leaves duration, pan and frequency alone. -/
theorem stepGrain_params (t : α) (g : Grain α) :
    (stepGrain t g).duration = g.duration ∧ (stepGrain t g).pan = g.pan ∧
    (stepGrain t g).frequency = g.frequency := by
  by_cases ha : g.active = true
  · rw [stepGrain_of_active t g ha]
    by_cases h : g.envelopePhase + t / g.duration < 1
    · obtain ⟨-, -, h3, h4, h5⟩ := advanceGrain_of_lt t g h
      exact ⟨h3, h5, h4⟩
    · obtain ⟨-, -, -, h3, h4, h5⟩ := advanceGrain_of_ge t g (not_lt.mp h)
      exact ⟨h3, h5, h4⟩
  · rw [stepGrain_of_inactive t g (by simpa using ha)]
    exact ⟨rfl, rfl, rfl⟩

omit [FloatMath α] in
theorem grainParamsOk_step (t : α) (g : Grain α) (h : GrainParamsOk g) :
    GrainParamsOk (stepGrain t g) := by
  obtain ⟨h1, h2, h3⟩ := stepGrain_params t g
  unfold GrainParamsOk
  rw [h1, h2, h3]
  exact h

omit [FloatMath α] [FloorRing α] in
theorem engineAll_init (P : Grain α → Prop) (h : P Grain.init) :
    EngineAll P (Engine.init : Engine α) := by
  intro s hs g hg
  rw [List.eq_of_mem_replicate hs] at hg
  rw [List.eq_of_mem_replicate hg]
  exact h

/-- C22 (grain parameter invariant).  In every state reachable from the
freshly constructed engine by calls of `process` with any parameters and any
draws, every grain record has duration in `[0.001, 0.2]`, pan in `[0, 1]` and
frequency in `[20, 20000]`; so its duration is not 0 and neither `pan` nor
`1 - pan` is negative. -/
theorem grain_params_invariant (e : Engine α) (h : ReachableBy (fun _ => True) e) :
    ∀ s ∈ e.streams, ∀ g ∈ s.grains,
      GrainParamsOk g ∧ g.duration ≠ 0 ∧ 0 ≤ g.pan ∧ 0 ≤ 1 - g.pan := by
  have hall : EngineAll GrainParamsOk e := by
    induction h with
    | init => exact engineAll_init _ grainParamsOk_init
    | step p r e _ _ ih =>
      exact process_all _ p (grainParamsOk_trigger p)
        (fun g hg => grainParamsOk_step _ g hg) e r ih
  intro s hs g hg
  have hok := hall s hs g hg
  refine ⟨hok, ?_, hok.2.1.1, by linarith [hok.2.1.2]⟩
  have hpos : (0 : α) < g.duration := lt_of_lt_of_le (by norm_num) hok.1.1
  exact ne_of_gt hpos

end Invariants

section InvariantInstances

/-- The grain triggered and advanced on the first tick of a fresh engine with
`scenarioParams` is a grain record of the engine after that tick, and it is
active. -/
theorem first_tick_grain :
    (processStream (scenarioParams : Params ℝ) Stream.init (fun _ => 0) Mix.zero).1 ∈
      (process (scenarioParams : Params ℝ) Engine.init (fun _ => 0)).1.streams ∧
    stepGrain (scenarioParams : Params ℝ).sampleTime
        (triggerSlot (scenarioParams : Params ℝ) Grain.init (fun _ => 0)).1 ∈
      (processStream (scenarioParams : Params ℝ) Stream.init (fun _ => 0) Mix.zero).1.grains ∧
    (stepGrain (scenarioParams : Params ℝ).sampleTime
        (triggerSlot (scenarioParams : Params ℝ) Grain.init (fun _ => 0)).1).active = true := by
  refine ⟨?_, ?_, ?_⟩
  · have h := (process_one_stream (scenarioParams : Params ℝ) rfl Stream.init
      (List.replicate 19 Stream.init) (fun _ => 0)).1
    have hinit : (Engine.init : Engine ℝ) =
        { streams := Stream.init :: List.replicate 19 Stream.init } := rfl
    rw [hinit, h]
    exact List.mem_cons_self _ _
  · rw [processStream_grains]
    apply List.mem_map_of_mem
    exact List.getElem?_mem
      (spawnStep_init_head scenarioParams (fun _ => 0) (by norm_num [scenarioParams])).2
  · have htr : (triggerSlot (scenarioParams : Params ℝ) Grain.init (fun _ => 0)).1 =
        (Grain.init : Grain ℝ).trigger 440 0.02 0.5 := by
      rw [endToEnd_triggerSlot scenarioParams scenarioParams_endToEnd]
    have hs : (scenarioParams : Params ℝ).sampleTime = 1 / 48000 := rfl
    rw [htr, hs]
    exact (stepGrain_aged 0 ((Grain.init : Grain ℝ).trigger 440 0.02 0.5)
      (aged_trigger Grain.init) (by norm_num)).1

/-- The parameters of the grain triggered on the first tick of a fresh engine
with `scenarioParams`. -/
theorem grain_params_invariant_witness :
    GrainParamsOk (stepGrain (scenarioParams : Params ℝ).sampleTime
      (triggerSlot (scenarioParams : Params ℝ) Grain.init (fun _ => 0)).1) ∧
    (stepGrain (scenarioParams : Params ℝ).sampleTime
      (triggerSlot (scenarioParams : Params ℝ) Grain.init (fun _ => 0)).1).duration ≠ 0 ∧
    0 ≤ (stepGrain (scenarioParams : Params ℝ).sampleTime
      (triggerSlot (scenarioParams : Params ℝ) Grain.init (fun _ => 0)).1).pan ∧
    0 ≤ 1 - (stepGrain (scenarioParams : Params ℝ).sampleTime
      (triggerSlot (scenarioParams : Params ℝ) Grain.init (fun _ => 0)).1).pan :=
  grain_params_invariant _
    (ReachableBy.step scenarioParams (fun _ => 0) Engine.init trivial ReachableBy.init)
    _ first_tick_grain.1 _ first_tick_grain.2.1

end InvariantInstances

section PhaseInvariant

variable {α : Type} [LinearOrderedField α] [FloorRing α]

theorem advanceGrain_wavePhase_of_lt (t : α) (g : Grain α)
    (h : g.envelopePhase + t / g.duration < 1) :
    (advanceGrain t g).wavePhase = wrapPhase (g.wavePhase + g.frequency * t) := by
  simp [advanceGrain, not_le.mpr h]

/-- The wrap loop ends in `[0, 1)` when it starts from a value that is not
negative. -/
theorem wrapPhase_mem (x : α) (hx : 0 ≤ x) : 0 ≤ wrapPhase x ∧ wrapPhase x < 1 := by
  rw [wrapPhase_eq_fract ⌊x⌋₊ x hx rfl]
  exact ⟨Int.fract_nonneg _, Int.fract_lt_one _⟩

/-- With a positive tick size the grain loop body keeps the bounds on the
parameters and on the phases of active grains. -/
theorem grainOk_step (t : α) (ht : 0 < t) (g : Grain α)
    (h : GrainParamsOk g ∧ GrainPhasesOk g) :
    GrainParamsOk (stepGrain t g) ∧ GrainPhasesOk (stepGrain t g) := by
  refine ⟨grainParamsOk_step t g h.1, ?_⟩
  by_cases ha : g.active = true
  · obtain ⟨⟨he0, _⟩, ⟨hw0, _⟩⟩ := h.2 ha
    have hd : (0 : α) < g.duration := lt_of_lt_of_le (by norm_num) h.1.1.1
    have hf : (0 : α) ≤ g.frequency := le_trans (by norm_num) h.1.2.2.1
    rw [stepGrain_of_active t g ha]
    by_cases hlt : g.envelopePhase + t / g.duration < 1
    · obtain ⟨_, h2, _, _, _⟩ := advanceGrain_of_lt t g hlt
      intro _
      rw [h2, advanceGrain_wavePhase_of_lt t g hlt]
      refine ⟨⟨?_, hlt⟩, wrapPhase_mem _ ?_⟩
      · exact add_nonneg he0 (le_of_lt (div_pos ht hd))
      · exact add_nonneg hw0 (mul_nonneg hf (le_of_lt ht))
    · intro hact
      rw [(advanceGrain_of_ge t g (not_lt.mp hlt)).1] at hact
      cases hact
  · rw [stepGrain_of_inactive t g (by simpa using ha)]
    exact h.2

variable [FloatMath α]

omit [FloorRing α] in
theorem grainPhasesOk_trigger (p : Params α) (g : Grain α) (r : Rng α) :
    GrainPhasesOk (triggerSlot p g r).1 := by
  intro _
  rw [triggerSlot_fst]
  exact ⟨⟨le_rfl, zero_lt_one⟩, ⟨le_rfl, zero_lt_one⟩⟩

omit [FloorRing α] [FloatMath α] in
theorem grainPhasesOk_init : GrainPhasesOk (Grain.init : Grain α) := by
  intro h
  cases h

/-- In every state reachable with positive tick sizes every grain record has
its parameters in range and, when active, its phases in `[0, 1)`. -/
theorem reachable_grainOk (e : Engine α)
    (h : ReachableBy (fun p => 0 < p.sampleTime) e) :
    EngineAll (fun g => GrainParamsOk g ∧ GrainPhasesOk g) e := by
  induction h with
  | init => exact engineAll_init _ ⟨grainParamsOk_init, grainPhasesOk_init⟩
  | step p r e hp _ ih =>
    exact process_all _ p
      (fun g r => ⟨grainParamsOk_trigger p g r, grainPhasesOk_trigger p g r⟩)
      (fun g hg => grainOk_step _ hp g hg) e r ih

/-- C23 (phase invariant of active grains).  In every state reachable from the
freshly constructed engine by calls of `process` with positive tick size,
every active grain has envelope phase and wave phase in `[0, 1)`; and on the
next tick, whatever its parameters and draws, every grain that is active when
the grain loop runs (after the spawn step) has its envelope phase in
`[0, 1)`, so that the guard `phase < 0 || phase > 1` of `hannWindow` is false
for it. -/
theorem phase_invariant (e : Engine α)
    (h : ReachableBy (fun p => 0 < p.sampleTime) e) :
    (∀ s ∈ e.streams, ∀ g ∈ s.grains, g.active = true →
      (0 ≤ g.envelopePhase ∧ g.envelopePhase < 1) ∧
      (0 ≤ g.wavePhase ∧ g.wavePhase < 1)) ∧
    (∀ (p : Params α) (r : Rng α), ∀ s ∈ e.streams,
      ∀ g ∈ (spawnStep p s r).1.grains, g.active = true →
        (0 ≤ g.envelopePhase ∧ g.envelopePhase < 1) ∧
        ¬ (g.envelopePhase < 0 ∨ g.envelopePhase > 1)) := by
  have hall := reachable_grainOk e h
  refine ⟨fun s hs g hg ha => (hall s hs g hg).2 ha, ?_⟩
  intro p r s hs g hg ha
  have hok : GrainPhasesOk g :=
    spawnStep_all GrainPhasesOk p (grainPhasesOk_trigger p) s r
      (fun g0 hg0 => (hall s hs g0 hg0).2) g hg
  obtain ⟨⟨h0, h1⟩, _⟩ := hok ha
  refine ⟨⟨h0, h1⟩, ?_⟩
  rintro (hc | hc)
  · exact absurd hc (not_lt.mpr h0)
  · exact absurd hc (not_lt.mpr (le_of_lt h1))

end PhaseInvariant

section PhaseInvariantInstances

/-- The phases of the grain triggered on the first tick of a fresh engine with
`scenarioParams`. -/
theorem phase_invariant_witness :
    (0 ≤ (stepGrain (scenarioParams : Params ℝ).sampleTime
        (triggerSlot (scenarioParams : Params ℝ) Grain.init (fun _ => 0)).1).envelopePhase ∧
      (stepGrain (scenarioParams : Params ℝ).sampleTime
        (triggerSlot (scenarioParams : Params ℝ) Grain.init (fun _ => 0)).1).envelopePhase
        < 1) ∧
    (0 ≤ (stepGrain (scenarioParams : Params ℝ).sampleTime
        (triggerSlot (scenarioParams : Params ℝ) Grain.init (fun _ => 0)).1).wavePhase ∧
      (stepGrain (scenarioParams : Params ℝ).sampleTime
        (triggerSlot (scenarioParams : Params ℝ) Grain.init (fun _ => 0)).1).wavePhase < 1) :=
  (phase_invariant _
    (ReachableBy.step scenarioParams (fun _ => 0) Engine.init
      (by norm_num [scenarioParams]) ReachableBy.init)).1
    _ first_tick_grain.1 _ first_tick_grain.2.1 first_tick_grain.2.2

end PhaseInvariantInstances

section StreamLoop

variable {α : Type} [LinearOrderedField α] [FloorRing α] [FloatMath α]

/-- The new state of a stream and the draws left do not depend on the
accumulators with which the stream loop body is entered. -/
theorem processStream_mix_irrelevant (p : Params α) (s : Stream α) (r : Rng α)
    (m m' : Mix α) :
    (processStream p s r m).1 = (processStream p s r m').1 ∧
    (processStream p s r m).2.1 = (processStream p s r m').2.1 := by
  simp [processStream, processGrains_fst]

/-- Each of the first `n` streams is updated by the stream loop body, entered
with the draws left by the streams before it. -/
theorem processStreams_getElem? (p : Params α) (n : Nat) :
    ∀ (ss : List (Stream α)) (r : Rng α) (m : Mix α) (i : Nat) (s : Stream α),
      i < n → ss[i]? = some s →
      ∃ r' : Rng α,
        (processStreams p n ss r m).1[i]? = some (processStream p s r' Mix.zero).1 := by
  induction n with
  | zero =>
    intro ss r m i s hi
    omega
  | succ n ih =>
    intro ss r m i s hi hs
    cases ss with
    | nil => simp at hs
    | cons x xs =>
      have hsp : (processStreams p (n + 1) (x :: xs) r m).1 =
          (processStream p x r m).1 ::
            (processStreams p n xs (processStream p x r m).2.1
              (processStream p x r m).2.2).1 := by
        simp [processStreams]
      rw [hsp]
      cases i with
      | zero =>
        simp only [List.getElem?_cons_zero, Option.some.injEq] at hs ⊢
        subst hs
        exact ⟨r, (processStream_mix_irrelevant p x r m Mix.zero).1⟩
      | succ i =>
        simp only [List.getElem?_cons_succ] at hs ⊢
        exact ih xs _ _ i s (by omega) hs

end StreamLoop

section RateCap

variable {α : Type} [LinearOrderedField α] [FloorRing α] [FloatMath α]

theorem streamAfter_succ_of_act (act : Nat → Bool) (ps : Nat → Params α)
    (rs : Nat → Rng α) (s : Stream α) (k : Nat) (h : act k = true) :
    streamAfter act ps rs s (k + 1) =
      (processStream (ps k) (streamAfter act ps rs s k) (rs k) Mix.zero).1 := by
  simp [streamAfter, h]

end RateCap

section RateCapInstances

end RateCapInstances

section Ages

theorem reduceOption_map_bind (f : Nat → Option Nat) (os : List (Option Nat)) :
    (os.map (fun o => o.bind f)).reduceOption = os.reduceOption.filterMap f := by
  induction os with
  | nil => rfl
  | cons o os ih =>
    cases o with
    | none => simpa [List.reduceOption_cons_of_none] using ih
    | some n =>
      rw [List.map_cons, List.reduceOption_cons_of_some, List.filterMap_cons]
      cases hf : f n with
      | none => simpa [hf, List.reduceOption_cons_of_none] using ih
      | some m => simp [hf, List.reduceOption_cons_of_some, ih]

theorem ageStep_eq_some (L n m : Nat) (h : ageStep L n = some m) :
    m = n + 1 ∧ n + 1 < L := by
  unfold ageStep at h
  split_ifs at h with hlt
  · exact ⟨(Option.some.inj h).symm, hlt⟩

theorem fillFirst_length (os : List (Option Nat)) : (fillFirst os).length = os.length := by
  induction os with
  | nil => rfl
  | cons o os ih =>
    cases o with
    | none => rfl
    | some n => simp [fillFirst, ih]

/-- The ages after the slot search are 0 or ages from before it. -/
theorem mem_fillFirst (os : List (Option Nat)) (n : Nat)
    (h : n ∈ (fillFirst os).reduceOption) : n = 0 ∨ n ∈ os.reduceOption := by
  induction os with
  | nil => simp [fillFirst] at h
  | cons o os ih =>
    cases o with
    | none =>
      simp only [fillFirst, List.reduceOption_cons_of_some, List.mem_cons] at h
      rcases h with h | h
      · exact Or.inl h
      · right
        simpa [List.reduceOption_cons_of_none] using h
    | some m =>
      simp only [fillFirst, List.reduceOption_cons_of_some, List.mem_cons] at h
      rcases h with h | h
      · right
        simp [List.reduceOption_cons_of_some, h]
      · rcases ih h with h0 | h1
        · exact Or.inl h0
        · right
          simp [List.reduceOption_cons_of_some, h1]

/-- The ages after the slot search are distinct when those before it are
distinct and positive. -/
theorem nodup_fillFirst (os : List (Option Nat)) (hnd : os.reduceOption.Nodup)
    (hpos : ∀ n ∈ os.reduceOption, 0 < n) : (fillFirst os).reduceOption.Nodup := by
  induction os with
  | nil => simp [fillFirst]
  | cons o os ih =>
    cases o with
    | none =>
      rw [List.reduceOption_cons_of_none] at hnd hpos
      simp only [fillFirst, List.reduceOption_cons_of_some, List.nodup_cons]
      refine ⟨fun h0 => ?_, hnd⟩
      exact absurd (hpos 0 h0) (lt_irrefl 0)
    | some m =>
      rw [List.reduceOption_cons_of_some] at hnd hpos
      obtain ⟨hm, hnd'⟩ := List.nodup_cons.mp hnd
      simp only [fillFirst, List.reduceOption_cons_of_some, List.nodup_cons]
      refine ⟨fun hmem => ?_, ih hnd' (fun n hn => hpos n (List.mem_cons_of_mem _ hn))⟩
      rcases mem_fillFirst os m hmem with h0 | h1
      · have := hpos m (List.mem_cons_self _ _)
        omega
      · exact hm h1

/-- Distinct ages stay distinct after an advance. -/
theorem nodup_filterMap_ageStep (L : Nat) (l : List Nat) (h : l.Nodup) :
    (l.filterMap (ageStep L)).Nodup := by
  apply List.Nodup.filterMap _ h
  intro a a' b hb hb'
  have h1 := ageStep_eq_some L a b (by simpa using hb)
  have h2 := ageStep_eq_some L a' b (by simpa using hb')
  omega

/-- Distinct positive multiples of `P` below `20 * P` are at most 19. -/
theorem length_le_of_multiples (P : Nat) (l : List Nat) (hnd : l.Nodup)
    (h : ∀ n ∈ l, n < 20 * P ∧ ∃ j : Nat, n = (j + 1) * P) : l.length ≤ 19 := by
  have hPpos : ∀ n ∈ l, 0 < P := by
    intro n hn
    obtain ⟨hlt, j, hj⟩ := h n hn
    rcases Nat.eq_zero_or_pos P with h0 | h0
    · subst h0
      omega
    · exact h0
  have hinj : (l.map (fun n => n / P)).Nodup := by
    apply List.Nodup.map_on _ hnd
    intro x hx y hy hxy
    obtain ⟨-, jx, hjx⟩ := h x hx
    obtain ⟨-, jy, hjy⟩ := h y hy
    have hP := hPpos x hx
    rw [hjx, hjy, Nat.mul_div_cancel _ hP, Nat.mul_div_cancel _ hP] at hxy
    rw [hjx, hjy, hxy]
  have hsub : (l.map (fun n => n / P)).toFinset ⊆ Finset.Icc 1 19 := by
    intro x hx
    rw [List.mem_toFinset, List.mem_map] at hx
    obtain ⟨n, hn, rfl⟩ := hx
    obtain ⟨hlt, j, hj⟩ := h n hn
    have hP := hPpos n hn
    rw [hj, Nat.mul_div_cancel _ hP, Finset.mem_Icc]
    have hj20 : (j + 1) * P < 20 * P := by rw [← hj]; exact hlt
    have := Nat.lt_of_mul_lt_mul_right hj20
    omega
  have hcard := Finset.card_le_card hsub
  rw [List.toFinset_card_of_nodup hinj, List.length_map] at hcard
  simpa using hcard

end Ages

section SteadySlots

variable {α : Type} [LinearOrderedField α] [FloorRing α]

/-- A grain of duration `d` that has been advanced `n` times at tick size `t`
survives one more advance exactly when `n + 1 < ceil (d / t)`. -/
theorem slotAge_step (t d : α) (ht : 0 < t) (hd : 0 < d) (g : Grain α)
    (o : Option Nat) (h : SlotAge t d g o) :
    SlotAge t d (stepGrain t g) (o.bind (ageStep ⌈d / t⌉₊)) := by
  cases o with
  | none =>
    have hg : g.active = false := h
    rw [stepGrain_of_inactive t g hg]
    exact hg
  | some n =>
    obtain ⟨ha, hdur, henv⟩ := h
    have hsum : g.envelopePhase + t / g.duration = ((n + 1 : Nat) : α) * t / d := by
      rw [hdur, henv]
      push_cast
      field_simp
      ring
    rw [stepGrain_of_active t g ha]
    by_cases hlt : n + 1 < ⌈d / t⌉₊
    · have h1 : ((n + 1 : Nat) : α) * t < d := (lt_div_iff₀ ht).mp (Nat.lt_ceil.mp hlt)
      have hphase : g.envelopePhase + t / g.duration < 1 := by
        rw [hsum, div_lt_one hd]
        exact h1
      obtain ⟨e1, e2, e3, -, -⟩ := advanceGrain_of_lt t g hphase
      have hage : ageStep ⌈d / t⌉₊ n = some (n + 1) := by
        rw [ageStep, if_pos hlt]
      show SlotAge t d _ (ageStep ⌈d / t⌉₊ n)
      rw [hage]
      refine ⟨by rw [e1, ha], by rw [e3, hdur], ?_⟩
      rw [e2, hsum]
      ring
    · have h1 : d ≤ ((n + 1 : Nat) : α) * t :=
        (div_le_iff₀ ht).mp (Nat.ceil_le.mp (not_lt.mp hlt))
      have hphase : 1 ≤ g.envelopePhase + t / g.duration := by
        rw [hsum, one_le_div hd]
        exact h1
      have hage : ageStep ⌈d / t⌉₊ n = none := by
        rw [ageStep, if_neg hlt]
      show SlotAge t d _ (ageStep ⌈d / t⌉₊ n)
      rw [hage]
      exact (advanceGrain_of_ge t g hphase).1

/-- The grain loop advances the ages of all slots. -/
theorem forall₂_slotAge_step (t d : α) (ht : 0 < t) (hd : 0 < d)
    (gs : List (Grain α)) (os : List (Option Nat))
    (h : List.Forall₂ (SlotAge t d) gs os) :
    List.Forall₂ (SlotAge t d) (gs.map (stepGrain t))
      (os.map (fun o => o.bind (ageStep ⌈d / t⌉₊))) := by
  induction h with
  | nil => exact List.Forall₂.nil
  | cons hhead _ ih => exact List.Forall₂.cons (slotAge_step t d ht hd _ _ hhead) ih

variable [FloatMath α]

omit [FloorRing α] in
/-- In the steady scenario a triggered grain has duration `d` and age 0. -/
theorem slotAge_trigger (t D d : α) (p : Params α) (hp : SteadyParams t D d p)
    (hd : 0.001 ≤ d ∧ d ≤ 0.2) (g : Grain α) (r : Rng α) :
    SlotAge t d (triggerSlot p g r).1 (some 0) := by
  obtain ⟨-, hv, -, hdur⟩ := hp
  rw [triggerSlot_fst]
  refine ⟨rfl, ?_, ?_⟩
  · show (spawnDur p _).1 = d
    simp only [spawnDur, if_neg (not_lt.mpr hv), hdur]
    exact clamp_of_mem _ _ _ hd.1 hd.2
  · show (0 : α) = ((0 : Nat) : α) * (t / d)
    simp

omit [FloorRing α] in
/-- The slot search gives age 0 to the first inactive slot. -/
theorem forall₂_slotAge_spawn (t D d : α) (p : Params α) (hp : SteadyParams t D d p)
    (hd : 0.001 ≤ d ∧ d ≤ 0.2) (r : Rng α)
    (gs : List (Grain α)) (os : List (Option Nat))
    (h : List.Forall₂ (SlotAge t d) gs os) :
    List.Forall₂ (SlotAge t d) (spawnGrain p gs r).1 (fillFirst os) := by
  induction h with
  | nil => exact List.Forall₂.nil
  | @cons g o gs os hhead htail ih =>
    cases o with
    | none =>
      have hg : g.active = false := hhead
      have hsp : (spawnGrain p (g :: gs) r).1 = (triggerSlot p g r).1 :: gs := by
        simp [spawnGrain, hg]
      rw [hsp]
      exact List.Forall₂.cons (slotAge_trigger t D d p hp hd g r) htail
    | some n =>
      have hg : g.active = true := hhead.1
      have hsp : (spawnGrain p (g :: gs) r).1 = g :: (spawnGrain p gs r).1 := by
        simp [spawnGrain, hg]
      rw [hsp]
      exact List.Forall₂.cons hhead ih

omit [FloorRing α] [FloatMath α] in
/-- An inactive age corresponds to an inactive slot. -/
theorem exists_inactive_of_none (t d : α) (gs : List (Grain α)) (os : List (Option Nat))
    (h : List.Forall₂ (SlotAge t d) gs os) (hn : none ∈ os) :
    ∃ g ∈ gs, g.active = false := by
  induction h with
  | nil => simp at hn
  | @cons g o gs os hhead _ ih =>
    rcases List.mem_cons.mp hn with h0 | h0
    · subst h0
      exact ⟨g, List.mem_cons_self _ _, hhead⟩
    · obtain ⟨g', hg', ha⟩ := ih h0
      exact ⟨g', List.mem_cons_of_mem _ hg', ha⟩

omit [FloorRing α] in
/-- When the pool has an inactive slot the slot search triggers exactly one
slot. -/
theorem triggeredSlots_spawnGrain (p : Params α) (r : Rng α) (gs : List (Grain α))
    (h : ∃ g ∈ gs, g.active = false) :
    triggeredSlots gs (spawnGrain p gs r).1 = 1 := by
  induction gs with
  | nil => simp at h
  | cons g gs ih =>
    by_cases hg : g.active = true
    · have hgs : ∃ x ∈ gs, x.active = false := by
        obtain ⟨x, hx, hxa⟩ := h
        rcases List.mem_cons.mp hx with rfl | hx
        · rw [hg] at hxa
          cases hxa
        · exact ⟨x, hx, hxa⟩
      have hsp : (spawnGrain p (g :: gs) r).1 = g :: (spawnGrain p gs r).1 := by
        simp [spawnGrain, hg]
      rw [hsp, triggeredSlots_cons, ih hgs]
      simp [hg]
    · have hg' : g.active = false := by simpa using hg
      have hsp : (spawnGrain p (g :: gs) r).1 = (triggerSlot p g r).1 :: gs := by
        simp [spawnGrain, hg']
      rw [hsp, triggeredSlots_cons, triggeredSlots_self]
      have hact : (triggerSlot p g r).1.active = true := rfl
      simp [hg', hact]

end SteadySlots

section Steady

variable {α : Type} [LinearOrderedField α] [FloorRing α] [FloatMath α]

omit [FloorRing α] [FloatMath α] in
/-- In the steady scenario the rescheduled timer is the base interval. -/
theorem steady_scheduleNext (t D d : α) (hD : 0.001 ≤ D) (p : Params α)
    (hp : SteadyParams t D d p) (r : Rng α) : (scheduleNext p r).1 = D := by
  obtain ⟨-, hv, hbase, -⟩ := hp
  have hno : ¬ (p.variation > 0.01 ∧ baseDelay p.density p.delayOffset > 0) :=
    fun h => not_lt.mpr hv h.1
  simp only [scheduleNext]
  rw [if_neg hno, hbase]
  exact max_eq_right hD

omit [LinearOrderedField α] [FloorRing α] [FloatMath α] in
theorem forall₂_replicate (R : Grain α → Option Nat → Prop) (g : Grain α)
    (o : Option Nat) (h : R g o) (n : Nat) :
    List.Forall₂ R (List.replicate n g) (List.replicate n o) := by
  induction n with
  | zero => exact List.Forall₂.nil
  | succ n ih => exact List.Forall₂.cons h ih

/-- One tick of the stream of the steady scenario: the invariant is kept, the
timer expires exactly when `a + 1` is the spawn period, the pool then has an
inactive slot, and exactly one grain is triggered then and none otherwise. -/
theorem steady_step (t D d : α) (ht : 0 < t) (hD : 0.001 ≤ D)
    (hd : 0.001 ≤ d ∧ d ≤ 0.2)
    (hcap : ⌈d / t⌉₊ ≤ GRAINS_PER_STREAM * ⌈D / t⌉₊)
    (p : Params α) (hp : SteadyParams t D d p) (r : Rng α) (m : Mix α)
    (a : Nat) (s : Stream α) (h : SteadyInv t D d a s) :
    SteadyInv t D d ((a + 1) % ⌈D / t⌉₊) (processStream p s r m).1 ∧
    (s.nextGrainTime - p.sampleTime ≤ 0 ↔ a + 1 = ⌈D / t⌉₊) ∧
    (a + 1 = ⌈D / t⌉₊ → ∃ g ∈ s.grains, g.active = false) ∧
    triggeredSlots s.grains (spawnStep p s r).1.grains =
      (if a + 1 = ⌈D / t⌉₊ then 1 else 0) := by
  obtain ⟨haP, htimer, ages, hrel, hlen, hnd, hmem⟩ := h
  have hst : p.sampleTime = t := hp.1
  have hDpos : 0 < D := lt_of_lt_of_le (by norm_num) hD
  have hdpos : 0 < d := lt_of_lt_of_le (by norm_num) hd.1
  have hPle : D ≤ (⌈D / t⌉₊ : α) * t := (div_le_iff₀ ht).mp (Nat.le_ceil _)
  have hLpos : 0 < ⌈d / t⌉₊ := Nat.ceil_pos.mpr (div_pos hdpos ht)
  by_cases hsp : a + 1 = ⌈D / t⌉₊
  · -- the timer expires
    rw [if_pos hsp] at htimer
    have hdue : s.nextGrainTime - p.sampleTime ≤ 0 := by rw [hst]; exact htimer
    have hmult : ∀ n ∈ ages.reduceOption,
        n < 20 * ⌈D / t⌉₊ ∧ ∃ j : Nat, n = (j + 1) * ⌈D / t⌉₊ := by
      intro n hn
      obtain ⟨hnL, j, hj⟩ := hmem n hn
      refine ⟨lt_of_lt_of_le hnL hcap, j, ?_⟩
      rw [hj, hsp]
      ring
    have hcount := length_le_of_multiples _ _ hnd hmult
    have hnone : none ∈ ages := by
      rw [← List.reduceOption_length_lt_iff, hlen]
      exact lt_of_le_of_lt hcount (by decide)
    have hfree := exists_inactive_of_none t d s.grains ages hrel hnone
    obtain ⟨e1, e2, -⟩ := spawnStep_of_due p s r hdue
    have hmod : (a + 1) % ⌈D / t⌉₊ = 0 := by rw [hsp, Nat.mod_self]
    refine ⟨?_, ⟨fun _ => hsp, fun _ => hdue⟩, fun _ => hfree, ?_⟩
    · rw [hmod]
      refine ⟨by omega, ?_, (fillFirst ages).map (fun o => o.bind (ageStep ⌈d / t⌉₊)),
        ?_, ?_, ?_, ?_⟩
      · rw [processStream_nextGrainTime, e2, steady_scheduleNext t D d hD p hp]
        split_ifs with h1
        · have hP1 : (⌈D / t⌉₊ : α) = 1 := by
            rw [← h1]
            norm_num
          rw [hP1, one_mul] at hPle
          linarith
        · simp
      · rw [processStream_grains, e1, hst]
        exact forall₂_slotAge_step t d ht hdpos _ _
          (forall₂_slotAge_spawn t D d p hp hd r _ _ hrel)
      · rw [List.length_map, fillFirst_length, hlen]
      · rw [reduceOption_map_bind]
        apply nodup_filterMap_ageStep
        apply nodup_fillFirst _ hnd
        intro n hn
        obtain ⟨-, j, hj⟩ := hmem n hn
        omega
      · intro n' hn'
        rw [reduceOption_map_bind, List.mem_filterMap] at hn'
        obtain ⟨n, hn, hstep⟩ := hn'
        obtain ⟨hn1, hn2⟩ := ageStep_eq_some _ n n' hstep
        refine ⟨by omega, ?_⟩
        rcases mem_fillFirst ages n hn with h0 | h1
        · exact ⟨0, by omega⟩
        · obtain ⟨-, j, hj⟩ := hmem n h1
          refine ⟨j + 1, ?_⟩
          rw [hn1, hj, hsp]
          ring
    · rw [if_pos hsp, e1]
      exact triggeredSlots_spawnGrain p r s.grains hfree
  · -- the timer does not expire
    rw [if_neg hsp] at htimer
    have ha1 : a + 1 < ⌈D / t⌉₊ := by omega
    have hlt : ((a + 1 : Nat) : α) * t < D := (lt_div_iff₀ ht).mp (Nat.lt_ceil.mp ha1)
    push_cast at hlt
    have hnot : 0 < s.nextGrainTime - p.sampleTime := by
      rw [hst, htimer]
      linarith
    obtain ⟨e1, e2, -⟩ := spawnStep_of_not_due p s r hnot
    have hmod : (a + 1) % ⌈D / t⌉₊ = a + 1 := Nat.mod_eq_of_lt ha1
    refine ⟨?_, ⟨fun hc => absurd hc (not_le.mpr hnot), fun hc => absurd hc hsp⟩,
      fun hc => absurd hc hsp, ?_⟩
    · rw [hmod]
      refine ⟨ha1, ?_, ages.map (fun o => o.bind (ageStep ⌈d / t⌉₊)), ?_, ?_, ?_, ?_⟩
      · rw [processStream_nextGrainTime, e2, hst, htimer]
        split_ifs with h1
        · have hP1 : (⌈D / t⌉₊ : α) = ((a + 1 + 1 : Nat) : α) := by rw [h1]
          rw [hP1] at hPle
          push_cast at hPle
          linarith
        · push_cast
          ring
      · rw [processStream_grains, e1, hst]
        exact forall₂_slotAge_step t d ht hdpos _ _ hrel
      · rw [List.length_map, hlen]
      · rw [reduceOption_map_bind]
        exact nodup_filterMap_ageStep _ _ hnd
      · intro n' hn'
        rw [reduceOption_map_bind, List.mem_filterMap] at hn'
        obtain ⟨n, hn, hstep⟩ := hn'
        obtain ⟨hn1, hn2⟩ := ageStep_eq_some _ n n' hstep
        obtain ⟨-, j, hj⟩ := hmem n hn
        exact ⟨by omega, j, by omega⟩
    · rw [if_neg hsp, e1, triggeredSlots_self]

/-- The state of the stream of the steady scenario after `k` ticks. -/
theorem steady_invariant (t D d : α) (ht : 0 < t) (hD : 0.001 ≤ D)
    (hd : 0.001 ≤ d ∧ d ≤ 0.2)
    (hcap : ⌈d / t⌉₊ ≤ GRAINS_PER_STREAM * ⌈D / t⌉₊)
    (ps : Nat → Params α) (rs : Nat → Rng α)
    (hps : ∀ k, SteadyParams t D d (ps k)) (k : Nat) :
    ∃ a : Nat, (a + 1) % ⌈D / t⌉₊ = k % ⌈D / t⌉₊ ∧
      SteadyInv t D d a (streamAfter (fun _ => true) ps rs Stream.init k) := by
  have hDpos : 0 < D := lt_of_lt_of_le (by norm_num) hD
  have hPpos : 0 < ⌈D / t⌉₊ := Nat.ceil_pos.mpr (div_pos hDpos ht)
  induction k with
  | zero =>
    refine ⟨⌈D / t⌉₊ - 1, ?_, by omega, ?_, List.replicate GRAINS_PER_STREAM none, ?_, ?_⟩
    · have h : ⌈D / t⌉₊ - 1 + 1 = ⌈D / t⌉₊ := by omega
      rw [h, Nat.mod_self, Nat.zero_mod]
    · have h : ⌈D / t⌉₊ - 1 + 1 = ⌈D / t⌉₊ := by omega
      rw [if_pos h]
      show (0 : α) - t ≤ 0
      linarith
    · exact forall₂_replicate _ _ _ rfl _
    · refine ⟨List.length_replicate _ _, ?_, ?_⟩
      · simp [GRAINS_PER_STREAM, List.replicate, List.reduceOption_cons_of_none]
      · intro n hn
        simp [GRAINS_PER_STREAM, List.replicate, List.reduceOption_cons_of_none] at hn
  | succ k ih =>
    obtain ⟨a, hmod, hinv⟩ := ih
    refine ⟨(a + 1) % ⌈D / t⌉₊, ?_, ?_⟩
    · rw [Nat.add_mod, Nat.mod_mod, ← Nat.add_mod, Nat.add_mod (a + 1) 1, hmod,
        ← Nat.add_mod]
    · rw [streamAfter_succ_of_act _ ps rs Stream.init k rfl]
      exact (steady_step t D d ht hD hd hcap (ps k) (hps k) (rs k) Mix.zero a _ hinv).1

/-- The capacity of the pool when no result is rounded.  For a stream of the
freshly constructed engine that is processed on every tick with tick size
`t > 0`, variation at most 0.01, base interval `D ≥ 0.001` and grain duration
`d` in `[0.001, 0.2]`, if `ceil (d / t) ≤ 20 * ceil (D / t)` then in exact
arithmetic the timer expires exactly on the ticks `k` that are multiples of
`ceil (D / t)`, the pool has an inactive slot on each of them, and the spawn
step triggers exactly one grain on them and none on the other ticks.  The
statement for rounded results is `no_drop_within_capacity`. -/
theorem no_drop_below_capacity (t D d : α) (ht : 0 < t) (hD : 0.001 ≤ D)
    (hd : 0.001 ≤ d ∧ d ≤ 0.2)
    (hcap : ⌈d / t⌉₊ ≤ GRAINS_PER_STREAM * ⌈D / t⌉₊)
    (ps : Nat → Params α) (rs : Nat → Rng α)
    (hps : ∀ k, SteadyParams t D d (ps k)) (k : Nat) :
    (expiresOn (fun _ => true) ps rs Stream.init k ↔ k % ⌈D / t⌉₊ = 0) ∧
    (expiresOn (fun _ => true) ps rs Stream.init k →
      ∃ g ∈ (streamAfter (fun _ => true) ps rs Stream.init k).grains, g.active = false) ∧
    triggeredSlots (streamAfter (fun _ => true) ps rs Stream.init k).grains
      (spawnStep (ps k) (streamAfter (fun _ => true) ps rs Stream.init k) (rs k)).1.grains
      = (if k % ⌈D / t⌉₊ = 0 then 1 else 0) := by
  obtain ⟨a, hmod, hinv⟩ := steady_invariant t D d ht hD hd hcap ps rs hps k
  have haP : a < ⌈D / t⌉₊ := hinv.1
  obtain ⟨-, hexp, hfree, htrig⟩ :=
    steady_step t D d ht hD hd hcap (ps k) (hps k) (rs k) Mix.zero a _ hinv
  have hiff : a + 1 = ⌈D / t⌉₊ ↔ k % ⌈D / t⌉₊ = 0 := by
    rw [← hmod]
    constructor
    · intro h
      rw [h, Nat.mod_self]
    · intro h
      have hdvd : ⌈D / t⌉₊ ∣ a + 1 := Nat.dvd_of_mod_eq_zero h
      have := Nat.le_of_dvd (by omega) hdvd
      omega
  refine ⟨?_, ?_, ?_⟩
  · rw [← hiff, ← hexp]
    exact ⟨fun h => h.2, fun h => ⟨rfl, h⟩⟩
  · intro h
    exact hfree (hexp.mp h.2)
  · rw [htrig]
    by_cases h : a + 1 = ⌈D / t⌉₊
    · rw [if_pos h, if_pos (hiff.mp h)]
    · rw [if_neg h, if_neg (fun hc => h (hiff.mpr hc))]

end Steady

section SteadyInstances

/-- With `scenarioParams` on every tick (tick size 1/48000, base interval
0.01, grain duration 0.02) the timer of a fresh stream expires on tick 0 and
on no tick before tick 480. -/
theorem no_drop_below_capacity_witness :
    expiresOn (fun _ => true) (fun _ => (scenarioParams : Params ℝ)) (fun _ _ => 0)
      Stream.init 0 ↔ 0 % ⌈(0.01 : ℝ) / (1 / 48000)⌉₊ = 0 :=
  (no_drop_below_capacity (1 / 48000 : ℝ) 0.01 0.02 (by norm_num) (by norm_num)
    (by norm_num)
    (by
      apply Nat.ceil_le.mpr
      have h := Nat.le_ceil ((0.01 : ℝ) / (1 / 48000))
      norm_num [GRAINS_PER_STREAM] at h ⊢)
    (fun _ => scenarioParams) (fun _ _ => 0)
    (fun _ => by
      refine ⟨rfl, ?_, ?_, ?_⟩ <;> norm_num [scenarioParams, baseDelay])
    0).1

end SteadyInstances

section Binary32Rounding

/-- The leading binary digit found by `log2Fuel`. -/
theorem log2Fuel_spec (fuel : Nat) : ∀ n : Nat, n ≤ fuel → n ≠ 0 →
    2 ^ log2Fuel fuel n ≤ n ∧ n < 2 ^ (log2Fuel fuel n + 1) := by
  induction fuel with
  | zero =>
    intro n h hn
    omega
  | succ fuel ih =>
    intro n h hn
    unfold log2Fuel
    split_ifs with h2
    · have hle : n / 2 ≤ fuel := by omega
      have hne : n / 2 ≠ 0 := by omega
      obtain ⟨h3, h4⟩ := ih (n / 2) hle hne
      constructor
      · rw [pow_succ]
        omega
      · rw [pow_succ]
        omega
    · simp
      omega

/-- The binary exponent is not above the quotient: `2 ^ e ≤ n / m`. -/
theorem binaryExponent_le (n m : Nat) (hn : 0 < n) (hm : 0 < m) :
    m * 2 ^ (binaryExponent n m).toNat ≤ n * 2 ^ (-(binaryExponent n m)).toNat := by
  obtain ⟨hn1, hn2⟩ := log2Fuel_spec n n le_rfl (by omega)
  obtain ⟨hm1, hm2⟩ := log2Fuel_spec m m le_rfl (by omega)
  unfold binaryExponent
  simp only
  split_ifs with h
  · exact h
  · generalize log2Fuel n n = a at *
    generalize log2Fuel m m = b at *
    clear h
    rcases Nat.lt_or_ge b a with hab | hab
    · -- the exponent a - b - 1 is not negative
      obtain ⟨c, rfl⟩ : ∃ c, a = b + 1 + c := ⟨a - b - 1, by omega⟩
      have e1 : ((((b + 1 + c : Nat) : Int) - (b : Int) - 1)).toNat = c := by omega
      have e2 : (-(((b + 1 + c : Nat) : Int) - (b : Int) - 1)).toNat = 0 := by omega
      rw [e1, e2, pow_zero, mul_one]
      calc m * 2 ^ c ≤ 2 ^ (b + 1) * 2 ^ c := Nat.mul_le_mul_right _ hm2.le
        _ = 2 ^ (b + 1 + c) := by rw [← pow_add]
        _ ≤ n := hn1
    · obtain ⟨c, rfl⟩ : ∃ c, b = a + c := ⟨b - a, by omega⟩
      have e1 : (((a : Nat) : Int) - ((a + c : Nat) : Int) - 1).toNat = 0 := by omega
      have e2 : (-(((a : Nat) : Int) - ((a + c : Nat) : Int) - 1)).toNat = c + 1 := by omega
      rw [e1, e2, pow_zero, mul_one]
      calc m ≤ 2 ^ (a + c + 1) := hm2.le
        _ = 2 ^ a * 2 ^ (c + 1) := by rw [← pow_add]; congr 1
        _ ≤ n * 2 ^ (c + 1) := Nat.mul_le_mul_right _ hn1

/-- The nearest integer is within one half of the quotient. -/
theorem roundHalfEven_error (n m : Nat) (hm : 0 < m) :
    |(roundHalfEven n m : ℚ) - (n : ℚ) / m| ≤ 1 / 2 := by
  have hmq : (0 : ℚ) < m := by exact_mod_cast hm
  have key : ∀ q r : Nat, n = m * q + r → (n : ℚ) / m = q + (r : ℚ) / m := by
    intro q r h
    have hc : (n : ℚ) = m * q + r := by exact_mod_cast h
    rw [hc]
    field_simp
    ring
  have hquot := key (n / m) (n % m) (Nat.div_add_mod n m).symm
  have hr0 : (0 : ℚ) ≤ ((n % m : Nat) : ℚ) / m := by positivity
  rw [hquot, abs_le]
  unfold roundHalfEven
  simp only
  split_ifs with h1 h2 h3
  · have h : ((n % m : Nat) : ℚ) / m ≤ 1 / 2 := by
      rw [div_le_iff₀ hmq]
      have : 2 * ((n % m : Nat) : ℚ) < m := by exact_mod_cast h1
      linarith
    constructor <;> linarith
  · have h : 1 / 2 ≤ ((n % m : Nat) : ℚ) / m := by
      rw [le_div_iff₀ hmq]
      have : (m : ℚ) < 2 * ((n % m : Nat) : ℚ) := by exact_mod_cast h2
      linarith
    have hlt : ((n % m : Nat) : ℚ) / m ≤ 1 := by
      rw [div_le_iff₀ hmq, one_mul]
      exact_mod_cast (Nat.mod_lt n hm).le
    push_cast
    constructor <;> linarith
  · have heq : 2 * (n % m) = m := by omega
    have h : ((n % m : Nat) : ℚ) / m = 1 / 2 := by
      rw [div_eq_iff hmq.ne']
      have : 2 * ((n % m : Nat) : ℚ) = m := by exact_mod_cast heq
      linarith
    constructor <;> linarith
  · have heq : 2 * (n % m) = m := by omega
    have h : ((n % m : Nat) : ℚ) / m = 1 / 2 := by
      rw [div_eq_iff hmq.ne']
      have : 2 * ((n % m : Nat) : ℚ) = m := by exact_mod_cast heq
      linarith
    push_cast
    constructor <;> linarith

/-- A non-negative value is rounded to a non-negative value. -/
theorem round32_nonneg (x : ℚ) (hx : 0 ≤ x) : 0 ≤ round32 x := by
  unfold round32
  split_ifs with h0 hneg
  · exact le_rfl
  · exact absurd hneg (not_lt.mpr hx)
  · simp only
    rw [Rat.mkRat_eq_div]
    positivity

/-- Below 2 the rounding error is at most `2 ^ (-24)`. -/
theorem round32_error (x : ℚ) (h0 : 0 ≤ x) (h2 : x < 2) :
    |round32 x - x| ≤ 1 / 2 ^ 24 := by
  rcases eq_or_lt_of_le h0 with hx | hx
  · rw [← hx]
    simp [round32]
  have hnum : 0 < x.num := Rat.num_pos.mpr hx
  have hden : 0 < x.den := x.den_pos
  have hn : 0 < x.num.natAbs := Int.natAbs_pos.mpr hnum.ne'
  have hxeq : x = (x.num.natAbs : ℚ) / x.den := by
    have h1 : ((x.num.natAbs : Nat) : ℚ) = (x.num : ℚ) := by
      rw [Nat.cast_natAbs, abs_of_pos hnum]
    rw [h1, Rat.num_div_den]
  have hexp := binaryExponent_le x.num.natAbs x.den hn hden
  have hnm : x.num.natAbs < 2 * x.den := by
    have hdq : (0 : ℚ) < x.den := by exact_mod_cast hden
    rw [hxeq, div_lt_iff₀ hdq] at h2
    exact_mod_cast h2
  have he : binaryExponent x.num.natAbs x.den ≤ 0 := by
    by_contra hc
    push_neg at hc
    obtain ⟨c, hc'⟩ : ∃ c : Nat, binaryExponent x.num.natAbs x.den = c + 1 :=
      ⟨(binaryExponent x.num.natAbs x.den - 1).toNat, by omega⟩
    rw [hc'] at hexp
    have e1 : (((c : Int) + 1)).toNat = c + 1 := by omega
    have e2 : (-((c : Int) + 1)).toNat = 0 := by omega
    rw [e1, e2, pow_zero, mul_one, pow_succ] at hexp
    have : x.den * 2 ≤ x.den * (2 ^ c * 2) := by
      apply Nat.mul_le_mul_left
      have := Nat.one_le_two_pow (n := c)
      omega
    omega
  obtain ⟨b, hb, hs⟩ : ∃ b : Nat, 23 ≤ b ∧
      max (binaryExponent x.num.natAbs x.den) (-126) - 23 = -(b : Int) := by
    refine ⟨(-(max (binaryExponent x.num.natAbs x.den) (-126) - 23)).toNat, ?_, ?_⟩
    · have := max_le he (by norm_num : (-126 : Int) ≤ 0)
      omega
    · have := max_le he (by norm_num : (-126 : Int) ≤ 0)
      omega
  have hround : round32 x =
      (roundHalfEven (x.num.natAbs * 2 ^ b) x.den : ℚ) / 2 ^ b := by
    unfold round32
    rw [if_neg hx.ne', if_neg (not_lt.mpr h0)]
    simp only [hs]
    have e1 : (-(b : Int)).toNat = 0 := by omega
    have e2 : (- -(b : Int)).toNat = b := by omega
    rw [e1, e2, pow_zero, mul_one, mul_one, Rat.mkRat_eq_div]
    push_cast
    rfl
  have herr := roundHalfEven_error (x.num.natAbs * 2 ^ b) x.den hden
  have hpow : (0 : ℚ) < 2 ^ b := by positivity
  have hxb : ((x.num.natAbs * 2 ^ b : Nat) : ℚ) / x.den = x * 2 ^ b := by
    rw [Nat.cast_mul, Nat.cast_pow, Nat.cast_ofNat, mul_div_right_comm, ← hxeq]
  rw [hxb] at herr
  have hb24 : (2 : ℚ) ^ 23 ≤ 2 ^ b := pow_le_pow_right₀ (by norm_num) hb
  rw [hround]
  have hrew : (roundHalfEven (x.num.natAbs * 2 ^ b) x.den : ℚ) / 2 ^ b - x =
      ((roundHalfEven (x.num.natAbs * 2 ^ b) x.den : ℚ) - x * 2 ^ b) / 2 ^ b := by
    field_simp
    ring
  rw [hrew, abs_div, abs_of_pos hpow, div_le_iff₀ hpow]
  calc |(roundHalfEven (x.num.natAbs * 2 ^ b) x.den : ℚ) - x * 2 ^ b| ≤ 1 / 2 := herr
    _ = 1 / 2 ^ 24 * 2 ^ 23 := by norm_num
    _ ≤ 1 / 2 ^ 24 * 2 ^ b := by
      apply mul_le_mul_of_nonneg_left hb24
      positivity

end Binary32Rounding

section RoundedLifecycle

variable {α : Type} [LinearOrderedField α] [FloorRing α]

theorem rounded_stepGrain_of_inactive (A : Arith α) (t : α) (g : Grain α)
    (h : g.active = false) : Rounded.stepGrain A t g = g := by
  simp [Rounded.stepGrain, h]

theorem rounded_stepGrain_of_active (A : Arith α) (t : α) (g : Grain α)
    (h : g.active = true) : Rounded.stepGrain A t g = Rounded.advanceGrain A t g := by
  simp [Rounded.stepGrain, h]

theorem rounded_advanceGrain_of_lt (A : Arith α) (t : α) (g : Grain α)
    (h : Rounded.envelopeStep A t g.duration g.envelopePhase < 1) :
    (Rounded.advanceGrain A t g).active = g.active ∧
    (Rounded.advanceGrain A t g).envelopePhase =
      Rounded.envelopeStep A t g.duration g.envelopePhase ∧
    (Rounded.advanceGrain A t g).duration = g.duration := by
  unfold Rounded.envelopeStep at h
  simp [Rounded.advanceGrain, Rounded.envelopeStep, not_le.mpr h]

theorem rounded_advanceGrain_of_ge (A : Arith α) (t : α) (g : Grain α)
    (h : 1 ≤ Rounded.envelopeStep A t g.duration g.envelopePhase) :
    (Rounded.advanceGrain A t g).active = false := by
  unfold Rounded.envelopeStep at h
  simp [Rounded.advanceGrain, h, Grain.reset]

/-- A slot that is active after the grain loop body was active before it. -/
theorem rounded_active_of_stepGrain (A : Arith α) (t : α) (g : Grain α)
    (h : (Rounded.stepGrain A t g).active = true) : g.active = true := by
  by_contra hg
  have hg' : g.active = false := by simpa using hg
  rw [rounded_stepGrain_of_inactive A t g hg', hg'] at h
  cases h

/-- An inactive slot stays inactive under the grain loop body. -/
theorem rounded_iterate_of_inactive (A : Arith α) (t : α) (g : Grain α)
    (h : g.active = false) (k : Nat) : (Rounded.stepGrain A t)^[k] g = g := by
  induction k with
  | zero => rfl
  | succ k ih => rw [Function.iterate_succ_apply', ih, rounded_stepGrain_of_inactive A t g h]

omit [LinearOrderedField α] [FloorRing α] in
/-- The search `firstHit` finds the first iterate that satisfies `stop`. -/
theorem firstHit_spec (f : α → α) (stop : α → Bool) (fuel : Nat) :
    ∀ (x : α) (n : Nat), Rounded.firstHit f stop fuel x = some n →
      0 < n ∧ (∀ k : Nat, 0 < k → k < n → stop (f^[k] x) = false) ∧
      stop (f^[n] x) = true := by
  induction fuel with
  | zero =>
    intro x n h
    simp [Rounded.firstHit] at h
  | succ fuel ih =>
    intro x n h
    unfold Rounded.firstHit at h
    split_ifs at h with hs
    · obtain rfl : 1 = n := Option.some.inj h
      refine ⟨Nat.one_pos, fun k h0 h1 => by omega, ?_⟩
      simpa using hs
    · rw [Option.map_eq_some'] at h
      obtain ⟨n', hn', rfl⟩ := h
      obtain ⟨hpos, hbefore, hat⟩ := ih (f x) n' hn'
      refine ⟨Nat.succ_pos _, ?_, ?_⟩
      · intro k h0 h1
        obtain ⟨j, rfl⟩ : ∃ j, k = j + 1 := ⟨k - 1, by omega⟩
        rw [Function.iterate_succ_apply]
        rcases Nat.eq_zero_or_pos j with hj | hj
        · subst hj
          simpa using hs
        · exact hbefore j hj (by omega)
      · rw [Function.iterate_succ_apply]
        exact hat

omit [FloorRing α] in
/-- The life of a grain as found by the search. -/
theorem livesFor_of_firstHit (A : Arith α) (t d : α) (fuel L : Nat)
    (h : Rounded.firstHit (Rounded.envelopeStep A t d) (fun p => decide (1 ≤ p)) fuel 0
      = some L) : Rounded.LivesFor A t d L := by
  obtain ⟨-, hbefore, hat⟩ := firstHit_spec _ _ fuel 0 L h
  refine ⟨fun k hk => ?_, by simpa using hat⟩
  rcases Nat.eq_zero_or_pos k with h0 | h0
  · subst h0
    simp
  · simpa using hbefore k h0 hk

omit [FloorRing α] in
/-- The period of a timer as found by the search. -/
theorem expiresAfter_of_firstHit (A : Arith α) (t D : α) (fuel G : Nat)
    (h : Rounded.firstHit (Rounded.timerStep A t) (fun x => decide (x ≤ 0)) fuel D
      = some G) : Rounded.ExpiresAfter A t D G := by
  obtain ⟨hpos, hbefore, hat⟩ := firstHit_spec _ _ fuel D G h
  exact ⟨hpos, fun j h0 hj => by simpa using hbefore j h0 hj, by simpa using hat⟩

/-- A triggered grain that lives `L` advances is active with the accumulated
envelope phase after fewer than `L` advances, and inactive after `L`. -/
theorem iterate_stepGrain_lives (A : Arith α) (t d : α) (L : Nat)
    (hL : Rounded.LivesFor A t d L) (g : Grain α) (f pan : α) :
    (∀ k : Nat, k < L →
      ((Rounded.stepGrain A t)^[k] (g.trigger f d pan)).active = true ∧
      ((Rounded.stepGrain A t)^[k] (g.trigger f d pan)).duration = d ∧
      ((Rounded.stepGrain A t)^[k] (g.trigger f d pan)).envelopePhase =
        (Rounded.envelopeStep A t d)^[k] 0) ∧
    ((Rounded.stepGrain A t)^[L] (g.trigger f d pan)).active = false := by
  have hlt : ∀ k : Nat, k < L →
      ((Rounded.stepGrain A t)^[k] (g.trigger f d pan)).active = true ∧
      ((Rounded.stepGrain A t)^[k] (g.trigger f d pan)).duration = d ∧
      ((Rounded.stepGrain A t)^[k] (g.trigger f d pan)).envelopePhase =
        (Rounded.envelopeStep A t d)^[k] 0 := by
    intro k
    induction k with
    | zero =>
      intro _
      simp [Grain.trigger]
    | succ k ih =>
      intro hk
      obtain ⟨ha, hdur, henv⟩ := ih (by omega)
      have hiter := Function.iterate_succ_apply' (Rounded.envelopeStep A t d) k 0
      have hphase : Rounded.envelopeStep A t
          ((Rounded.stepGrain A t)^[k] (g.trigger f d pan)).duration
          ((Rounded.stepGrain A t)^[k] (g.trigger f d pan)).envelopePhase < 1 := by
        rw [hdur, henv, ← hiter]
        exact hL.1 (k + 1) hk
      rw [Function.iterate_succ_apply', rounded_stepGrain_of_active _ _ _ ha]
      obtain ⟨h1, h2, h3⟩ := rounded_advanceGrain_of_lt A t _ hphase
      refine ⟨by rw [h1, ha], by rw [h3, hdur], ?_⟩
      rw [h2, hdur, henv, ← hiter]
  refine ⟨hlt, ?_⟩
  have hpos : 0 < L := by
    by_contra hc
    have h0 : L = 0 := by omega
    have := hL.2
    rw [h0] at this
    simp at this
    exact absurd this (by norm_num)
  obtain ⟨k, rfl⟩ : ∃ k, L = k + 1 := ⟨L - 1, by omega⟩
  obtain ⟨ha, hdur, henv⟩ := hlt k (by omega)
  rw [Function.iterate_succ_apply', rounded_stepGrain_of_active _ _ _ ha]
  apply rounded_advanceGrain_of_ge
  rw [hdur, henv, ← Function.iterate_succ_apply' (Rounded.envelopeStep A t d) k 0]
  exact hL.2

end RoundedLifecycle

section Binary32Lifetime

/-- For a grain of duration `d ≥ 2 t` that is still active after `k` advances
in binary32, the envelope phase is within `k * 2 ^ (-24)` of `k` times the
rounded increment. -/
theorem binary32_alive_bounds (d t : ℚ) (ht : 0 < t) (hd : 2 * t ≤ d)
    (g : Grain ℚ) (f pan : ℚ) (k : Nat)
    (h : ((Rounded.stepGrain binary32 t)^[k] (g.trigger f d pan)).active = true) :
    ((Rounded.stepGrain binary32 t)^[k] (g.trigger f d pan)).duration = d ∧
    0 ≤ ((Rounded.stepGrain binary32 t)^[k] (g.trigger f d pan)).envelopePhase ∧
    ((Rounded.stepGrain binary32 t)^[k] (g.trigger f d pan)).envelopePhase < 1 ∧
    |((Rounded.stepGrain binary32 t)^[k] (g.trigger f d pan)).envelopePhase
      - k * round32 (t / d)| ≤ k * (1 / 2 ^ 24) := by
  have hdpos : 0 < d := by linarith
  have hr0 : 0 ≤ t / d := (div_pos ht hdpos).le
  have hr1 : t / d ≤ 1 / 2 := by
    rw [div_le_iff₀ hdpos]
    linarith
  have hinc0 : 0 ≤ round32 (t / d) := round32_nonneg _ hr0
  have hincerr := round32_error (t / d) hr0 (by linarith)
  have hinc1 : round32 (t / d) < 1 := by
    have := (abs_le.mp hincerr).2
    norm_num at this ⊢
    linarith
  induction k with
  | zero => simp [Grain.trigger]
  | succ k ih =>
    rw [Function.iterate_succ_apply'] at h ⊢
    have ha := rounded_active_of_stepGrain _ _ _ h
    obtain ⟨hdur, hp0, hp1, herr⟩ := ih ha
    rw [rounded_stepGrain_of_active _ _ _ ha] at h ⊢
    by_cases hlt : Rounded.envelopeStep binary32 t
        ((Rounded.stepGrain binary32 t)^[k] (g.trigger f d pan)).duration
        ((Rounded.stepGrain binary32 t)^[k] (g.trigger f d pan)).envelopePhase < 1
    · obtain ⟨-, h2, h3⟩ := rounded_advanceGrain_of_lt binary32 t _ hlt
      have hes : ∀ p : ℚ, Rounded.envelopeStep binary32 t d p
          = round32 (p + round32 (t / d)) := fun _ => rfl
      rw [hdur, hes] at h2 hlt
      have hx0 : 0 ≤ ((Rounded.stepGrain binary32 t)^[k] (g.trigger f d pan)).envelopePhase
          + round32 (t / d) := by linarith
      have hx2 : ((Rounded.stepGrain binary32 t)^[k] (g.trigger f d pan)).envelopePhase
          + round32 (t / d) < 2 := by linarith
      have hstep := round32_error _ hx0 hx2
      rw [h2]
      refine ⟨by rw [h3, hdur], round32_nonneg _ hx0, hlt, ?_⟩
      rw [abs_le] at herr hstep ⊢
      push_cast
      constructor <;> linarith [herr.1, herr.2, hstep.1, hstep.2]
    · rw [rounded_advanceGrain_of_ge binary32 t _ (not_lt.mp hlt)] at h
      cases h

/-- C1 (grain lifetime), corrected.  In binary32, for every tick size `t > 0`
and duration `d ≥ 2 t`, a grain triggered with duration `d` and then advanced
once per tick by the grain loop body is still active after `k` advances for
every `k` with `k * (t / d + 2 ^ (-23)) < 1`, and is inactive after `k`
advances for every `k` with `k * (t / d - 2 ^ (-23)) ≥ 1`. -/
theorem binary32_grain_lifetime (d t : ℚ) (ht : 0 < t) (hd : 2 * t ≤ d)
    (g : Grain ℚ) (f pan : ℚ) :
    (∀ k : Nat, (k : ℚ) * (t / d + 1 / 2 ^ 23) < 1 →
      ((Rounded.stepGrain binary32 t)^[k] (g.trigger f d pan)).active = true) ∧
    (∀ k : Nat, 1 ≤ (k : ℚ) * (t / d - 1 / 2 ^ 23) →
      ((Rounded.stepGrain binary32 t)^[k] (g.trigger f d pan)).active = false) := by
  have hdpos : 0 < d := by linarith
  have hr0 : 0 ≤ t / d := (div_pos ht hdpos).le
  have hr1 : t / d ≤ 1 / 2 := by
    rw [div_le_iff₀ hdpos]
    linarith
  have hincerr := abs_le.mp (round32_error (t / d) hr0 (by linarith))
  have hes : ∀ p : ℚ, Rounded.envelopeStep binary32 t d p
      = round32 (p + round32 (t / d)) := fun _ => rfl
  constructor
  · intro k
    induction k with
    | zero =>
      intro _
      rfl
    | succ k ih =>
      intro hk
      push_cast at hk
      have hk' : (k : ℚ) * (t / d + 1 / 2 ^ 23) < 1 := by
        have h0 : (0 : ℚ) ≤ t / d + 1 / 2 ^ 23 := by positivity
        linarith
      have ha := ih hk'
      obtain ⟨hdur, hp0, hp1, herr⟩ := binary32_alive_bounds d t ht hd g f pan k ha
      rw [abs_le] at herr
      have hinc0 : 0 ≤ round32 (t / d) := round32_nonneg _ hr0
      have hx0 : 0 ≤ ((Rounded.stepGrain binary32 t)^[k] (g.trigger f d pan)).envelopePhase
          + round32 (t / d) := by linarith
      have hx2 : ((Rounded.stepGrain binary32 t)^[k] (g.trigger f d pan)).envelopePhase
          + round32 (t / d) < 2 := by
        norm_num at hincerr ⊢
        linarith [hincerr.2]
      have hstep := abs_le.mp (round32_error _ hx0 hx2)
      have hkinc : (k : ℚ) * round32 (t / d) ≤ k * (t / d + 1 / 2 ^ 24) :=
        mul_le_mul_of_nonneg_left (by linarith [hincerr.2]) (Nat.cast_nonneg k)
      have hlt : Rounded.envelopeStep binary32 t
          ((Rounded.stepGrain binary32 t)^[k] (g.trigger f d pan)).duration
          ((Rounded.stepGrain binary32 t)^[k] (g.trigger f d pan)).envelopePhase < 1 := by
        rw [hdur, hes]
        norm_num at hk hkinc hstep hincerr herr ⊢
        linarith [hstep.2, herr.2, hincerr.2]
      rw [Function.iterate_succ_apply', rounded_stepGrain_of_active _ _ _ ha,
        (rounded_advanceGrain_of_lt binary32 t _ hlt).1, ha]
  · intro k hk
    by_contra hc
    have ha : ((Rounded.stepGrain binary32 t)^[k] (g.trigger f d pan)).active = true := by
      simpa using hc
    obtain ⟨-, -, hp1, herr⟩ := binary32_alive_bounds d t ht hd g f pan k ha
    rw [abs_le] at herr
    have hkinc : (k : ℚ) * (t / d - 1 / 2 ^ 24) ≤ k * round32 (t / d) :=
      mul_le_mul_of_nonneg_left (by linarith [hincerr.1]) (Nat.cast_nonneg k)
    norm_num at hk hkinc herr
    linarith [herr.1]

end Binary32Lifetime

section Binary32Instances

theorem round32_tick : round32 (1 / 48000) = 5726623 / 274877906944 := by decide!

theorem round32_twenty_ms : round32 (20 / 1000) = 5368709 / 268435456 := by decide!

/-- In binary32 a grain of 20 ms lives 961 advances at 48 kHz. -/
theorem lives_twenty_ms :
    Rounded.LivesFor binary32 (round32 (1 / 48000)) (round32 (20 / 1000)) 961 :=
  livesFor_of_firstHit binary32 _ _ 1000 961 (by decide!)

/-- In binary32 a grain of 20 ms is still active after `ceil (d / t) = 960`
advances at 48 kHz.  The ceiling is 960 for the decimal values 0.02 and
1/48000 and for the binary32 values the engine holds. -/
theorem grain_alive_after_ceil :
    ⌈(0.02 : ℚ) / (1 / 48000)⌉₊ = 960 ∧
    ⌈round32 (20 / 1000) / round32 (1 / 48000)⌉₊ = 960 ∧
    ((Rounded.stepGrain binary32 (round32 (1 / 48000)))^[960]
      ((Rounded.grainInit binary32).trigger 440 (round32 (20 / 1000)) 0.5)).active
      = true := by
  refine ⟨?_, ?_, ((iterate_stepGrain_lives binary32 _ _ 961 lives_twenty_ms _ _ _).1 960
    (by norm_num)).1⟩
  · rw [Nat.ceil_eq_iff (by norm_num)]
    norm_num
  · rw [round32_tick, round32_twenty_ms, Nat.ceil_eq_iff (by norm_num)]
    norm_num

/-- In binary32 a grain of 20 ms is active after 959 advances at 48 kHz and
inactive after 961. -/
theorem binary32_grain_lifetime_witness :
    ((Rounded.stepGrain binary32 (round32 (1 / 48000)))^[959]
      ((Rounded.grainInit binary32).trigger 440 (round32 (20 / 1000)) 0.5)).active
      = true ∧
    ((Rounded.stepGrain binary32 (round32 (1 / 48000)))^[961]
      ((Rounded.grainInit binary32).trigger 440 (round32 (20 / 1000)) 0.5)).active
      = false :=
  ⟨(binary32_grain_lifetime (round32 (20 / 1000)) (round32 (1 / 48000))
      (by rw [round32_tick]; norm_num)
      (by rw [round32_tick, round32_twenty_ms]; norm_num) _ 440 0.5).1 959
      (by rw [round32_tick, round32_twenty_ms]; norm_num),
   (binary32_grain_lifetime (round32 (20 / 1000)) (round32 (1 / 48000))
      (by rw [round32_tick]; norm_num)
      (by rw [round32_tick, round32_twenty_ms]; norm_num) _ 440 0.5).2 961
      (by rw [round32_tick, round32_twenty_ms]; norm_num)⟩

end Binary32Instances

section RoundedSpawn

variable {α : Type} [LinearOrderedField α]

/-- The timer and spawn part when the timer expires. -/
theorem rounded_spawnStep_of_due (A : Arith α) (p : Params α) (s : Stream α) (r : Rng α)
    (hdue : A.rnd (s.nextGrainTime - p.sampleTime) ≤ 0) :
    (Rounded.spawnStep A p s r).1.grains = (Rounded.spawnGrain A p s.grains r).1 ∧
    (Rounded.spawnStep A p s r).1.nextGrainTime =
      (Rounded.scheduleNext A p (Rounded.spawnGrain A p s.grains r).2).1 := by
  simp [Rounded.spawnStep, hdue]

/-- The timer and spawn part when the timer does not expire. -/
theorem rounded_spawnStep_of_not_due (A : Arith α) (p : Params α) (s : Stream α)
    (r : Rng α) (hdue : 0 < A.rnd (s.nextGrainTime - p.sampleTime)) :
    (Rounded.spawnStep A p s r).1.grains = s.grains ∧
    (Rounded.spawnStep A p s r).1.nextGrainTime =
      A.rnd (s.nextGrainTime - p.sampleTime) := by
  simp [Rounded.spawnStep, not_le.mpr hdue]

theorem rounded_triggerSlot_fst (A : Arith α) (p : Params α) (g : Grain α) (r : Rng α) :
    (Rounded.triggerSlot A p g r).1 =
      g.trigger (Rounded.spawnFreq A p r).1
        (Rounded.spawnDur A p (Rounded.spawnFreq A p r).2).1
        (Rounded.spawnPan A p
          (Rounded.spawnDur A p (Rounded.spawnFreq A p r).2).2).1 := rfl

/-- A full pool is left alone by the slot search. -/
theorem rounded_spawnGrain_of_full (A : Arith α) (p : Params α) (gs : List (Grain α))
    (r : Rng α) (h : ∀ g ∈ gs, g.active = true) :
    (Rounded.spawnGrain A p gs r).1 = gs := by
  induction gs with
  | nil => rfl
  | cons g gs ih =>
    have hg : g.active = true := h g (List.mem_cons_self _ _)
    have hgs : ∀ x ∈ gs, x.active = true := fun x hx => h x (List.mem_cons_of_mem _ hx)
    simp [Rounded.spawnGrain, hg, ih hgs]

/-- When the pool has an inactive slot the slot search triggers exactly one
slot. -/
theorem rounded_triggeredSlots_spawnGrain (A : Arith α) (p : Params α) (r : Rng α)
    (gs : List (Grain α)) (h : ∃ g ∈ gs, g.active = false) :
    triggeredSlots gs (Rounded.spawnGrain A p gs r).1 = 1 := by
  induction gs with
  | nil => simp at h
  | cons g gs ih =>
    by_cases hg : g.active = true
    · have hgs : ∃ x ∈ gs, x.active = false := by
        obtain ⟨x, hx, hxa⟩ := h
        rcases List.mem_cons.mp hx with rfl | hx
        · rw [hg] at hxa
          cases hxa
        · exact ⟨x, hx, hxa⟩
      have hsp : (Rounded.spawnGrain A p (g :: gs) r).1
          = g :: (Rounded.spawnGrain A p gs r).1 := by
        simp [Rounded.spawnGrain, hg]
      rw [hsp, triggeredSlots_cons, ih hgs]
      simp [hg]
    · have hg' : g.active = false := by simpa using hg
      have hsp : (Rounded.spawnGrain A p (g :: gs) r).1
          = (Rounded.triggerSlot A p g r).1 :: gs := by
        simp [Rounded.spawnGrain, hg']
      rw [hsp, triggeredSlots_cons, triggeredSlots_self]
      have hact : (Rounded.triggerSlot A p g r).1.active = true := rfl
      simp [hg', hact]

/-- In the steady scenario the rescheduled timer is the base interval. -/
theorem rounded_steady_scheduleNext (A : Arith α) (t D d : α) (hD : A.rnd 0.001 ≤ D)
    (p : Params α) (hp : Rounded.SteadyParams A t D d p) (r : Rng α) :
    (Rounded.scheduleNext A p r).1 = D := by
  obtain ⟨-, hv, hbase, -⟩ := hp
  have hno : ¬ (p.variation > A.rnd 0.01 ∧
      Rounded.baseDelay A p.density p.delayOffset > 0) := fun h => not_lt.mpr hv h.1
  simp only [Rounded.scheduleNext]
  rw [if_neg hno, hbase]
  exact max_eq_right hD

/-- A grain that lives `L` advances lives at least one. -/
theorem livesFor_pos (A : Arith α) (t d : α) (L : Nat)
    (hL : Rounded.LivesFor A t d L) : 0 < L := by
  by_contra hc
  have h0 : L = 0 := by omega
  have h1 := hL.2
  rw [h0, Function.iterate_zero_apply] at h1
  exact absurd h1 (by norm_num)

end RoundedSpawn

section RoundedSlots

variable {α : Type} [LinearOrderedField α] [FloorRing α]

/-- The grain loop body advances the age of a slot. -/
theorem rounded_slotAge_step (A : Arith α) (t d : α) (L : Nat)
    (hL : Rounded.LivesFor A t d L) (g : Grain α) (o : Option Nat)
    (h : Rounded.SlotAge A t d L g o) :
    Rounded.SlotAge A t d L (Rounded.stepGrain A t g) (o.bind (ageStep L)) := by
  cases o with
  | none =>
    have hg : g.active = false := h
    rw [rounded_stepGrain_of_inactive A t g hg]
    exact hg
  | some n =>
    obtain ⟨hn, ha, hdur, henv⟩ := h
    have hiter := Function.iterate_succ_apply' (Rounded.envelopeStep A t d) n 0
    rw [rounded_stepGrain_of_active A t g ha]
    by_cases hlt : n + 1 < L
    · have hphase : Rounded.envelopeStep A t g.duration g.envelopePhase < 1 := by
        rw [hdur, henv, ← hiter]
        exact hL.1 (n + 1) hlt
      obtain ⟨e1, e2, e3⟩ := rounded_advanceGrain_of_lt A t g hphase
      have hage : ageStep L n = some (n + 1) := by rw [ageStep, if_pos hlt]
      show Rounded.SlotAge A t d L _ (ageStep L n)
      rw [hage]
      refine ⟨hlt, by rw [e1, ha], by rw [e3, hdur], ?_⟩
      rw [e2, hdur, henv, ← hiter]
    · have hnL : n + 1 = L := by omega
      have hphase : 1 ≤ Rounded.envelopeStep A t g.duration g.envelopePhase := by
        rw [hdur, henv, ← hiter]
        have h2 := hL.2
        rw [← hnL] at h2
        exact h2
      have hage : ageStep L n = none := by rw [ageStep, if_neg hlt]
      show Rounded.SlotAge A t d L _ (ageStep L n)
      rw [hage]
      exact rounded_advanceGrain_of_ge A t g hphase

/-- The grain loop advances the ages of all slots. -/
theorem rounded_forall₂_step (A : Arith α) (t d : α) (L : Nat)
    (hL : Rounded.LivesFor A t d L) (gs : List (Grain α)) (os : List (Option Nat))
    (h : List.Forall₂ (Rounded.SlotAge A t d L) gs os) :
    List.Forall₂ (Rounded.SlotAge A t d L) (gs.map (Rounded.stepGrain A t))
      (os.map (fun o => o.bind (ageStep L))) := by
  induction h with
  | nil => exact List.Forall₂.nil
  | cons hhead _ ih =>
    exact List.Forall₂.cons (rounded_slotAge_step A t d L hL _ _ hhead) ih

/-- In the steady scenario a triggered grain has duration `d` and age 0. -/
theorem rounded_slotAge_trigger (A : Arith α) (t D d : α) (L : Nat) (hL : 0 < L)
    (p : Params α) (hp : Rounded.SteadyParams A t D d p)
    (hd : A.rnd 0.001 ≤ d ∧ d ≤ A.rnd 0.2) (g : Grain α) (r : Rng α) :
    Rounded.SlotAge A t d L (Rounded.triggerSlot A p g r).1 (some 0) := by
  obtain ⟨-, hv, -, hdur⟩ := hp
  rw [rounded_triggerSlot_fst]
  refine ⟨hL, rfl, ?_, rfl⟩
  show (Rounded.spawnDur A p _).1 = d
  simp only [Rounded.spawnDur, if_neg (not_lt.mpr hv), hdur]
  exact clamp_of_mem _ _ _ hd.1 hd.2

/-- The slot search gives age 0 to the first inactive slot. -/
theorem rounded_forall₂_spawn (A : Arith α) (t D d : α) (L : Nat) (hL : 0 < L)
    (p : Params α) (hp : Rounded.SteadyParams A t D d p)
    (hd : A.rnd 0.001 ≤ d ∧ d ≤ A.rnd 0.2) (r : Rng α)
    (gs : List (Grain α)) (os : List (Option Nat))
    (h : List.Forall₂ (Rounded.SlotAge A t d L) gs os) :
    List.Forall₂ (Rounded.SlotAge A t d L) (Rounded.spawnGrain A p gs r).1
      (fillFirst os) := by
  induction h with
  | nil => exact List.Forall₂.nil
  | @cons g o gs os hhead htail ih =>
    cases o with
    | none =>
      have hg : g.active = false := hhead
      have hsp : (Rounded.spawnGrain A p (g :: gs) r).1
          = (Rounded.triggerSlot A p g r).1 :: gs := by
        simp [Rounded.spawnGrain, hg]
      rw [hsp]
      exact List.Forall₂.cons (rounded_slotAge_trigger A t D d L hL p hp hd g r) htail
    | some n =>
      have hg : g.active = true := hhead.2.1
      have hsp : (Rounded.spawnGrain A p (g :: gs) r).1
          = g :: (Rounded.spawnGrain A p gs r).1 := by
        simp [Rounded.spawnGrain, hg]
      rw [hsp]
      exact List.Forall₂.cons hhead ih

/-- An inactive age corresponds to an inactive slot. -/
theorem rounded_exists_inactive (A : Arith α) (t d : α) (L : Nat)
    (gs : List (Grain α)) (os : List (Option Nat))
    (h : List.Forall₂ (Rounded.SlotAge A t d L) gs os) (hn : none ∈ os) :
    ∃ g ∈ gs, g.active = false := by
  induction h with
  | nil => simp at hn
  | @cons g o gs os hhead _ ih =>
    rcases List.mem_cons.mp hn with h0 | h0
    · subst h0
      exact ⟨g, List.mem_cons_self _ _, hhead⟩
    · obtain ⟨g', hg', ha⟩ := ih h0
      exact ⟨g', List.mem_cons_of_mem _ hg', ha⟩

/-- When every age is an active one, every slot is active. -/
theorem rounded_all_active (A : Arith α) (t d : α) (L : Nat)
    (gs : List (Grain α)) (os : List (Option Nat))
    (h : List.Forall₂ (Rounded.SlotAge A t d L) gs os) (hn : none ∉ os) :
    ∀ g ∈ gs, g.active = true := by
  induction h with
  | nil => simp
  | @cons g o gs os hhead _ ih =>
    intro x hx
    rcases List.mem_cons.mp hx with rfl | hx
    · cases o with
      | none => exact absurd (List.mem_cons_self _ _) hn
      | some n => exact hhead.2.1
    · exact ih (fun hc => hn (List.mem_cons_of_mem _ hc)) x hx

/-- One tick of the stream of the steady scenario: the description of the
state by the ticks since the last expiry and the ages of the slots is kept, and
the timer expires exactly when the spawn period is complete. -/
theorem sim_step (A : Arith α) (t D d : α) (G L : Nat) (hD : A.rnd 0.001 ≤ D)
    (hd : A.rnd 0.001 ≤ d ∧ d ≤ A.rnd 0.2)
    (hG : Rounded.ExpiresAfter A t D G) (hL : Rounded.LivesFor A t d L)
    (p : Params α) (hp : Rounded.SteadyParams A t D d p) (r : Rng α)
    (x : Nat × List (Option Nat)) (s : Stream α) (h : Rounded.Sim A t D d G L x s) :
    Rounded.Sim A t D d G L (Rounded.ghostTick G L x) (Rounded.processStream A p s r).1 ∧
    (A.rnd (s.nextGrainTime - p.sampleTime) ≤ 0 ↔ x.1 + 1 = G) := by
  obtain ⟨haG, htimer, hrel⟩ := h
  obtain ⟨hGpos, hbefore, hat⟩ := hG
  have hst : p.sampleTime = t := hp.1
  have hLpos := livesFor_pos A t d L hL
  have hgrains : (Rounded.processStream A p s r).1.grains =
      (Rounded.spawnStep A p s r).1.grains.map (Rounded.stepGrain A p.sampleTime) := rfl
  have hnext : (Rounded.processStream A p s r).1.nextGrainTime =
      (Rounded.spawnStep A p s r).1.nextGrainTime := rfl
  by_cases hsp : x.1 + 1 = G
  · rw [if_pos hsp] at htimer
    have hdue : A.rnd (s.nextGrainTime - p.sampleTime) ≤ 0 := by rw [hst]; exact htimer
    obtain ⟨e1, e2⟩ := rounded_spawnStep_of_due A p s r hdue
    refine ⟨⟨?_, ?_, ?_⟩, ⟨fun _ => hsp, fun _ => hdue⟩⟩
    · rw [Rounded.ghostTick, if_pos hsp]
      exact hGpos
    · rw [hnext, e2, rounded_steady_scheduleNext A t D d hD p hp]
      rw [Rounded.ghostTick, if_pos hsp]
      show (if 0 + 1 = G then A.rnd (D - t) ≤ 0 else D = (Rounded.timerStep A t)^[0] D)
      split_ifs with h1
      · have := hat
        rw [← h1] at this
        exact this
      · rfl
    · rw [hgrains, e1, hst, Rounded.ghostTick, if_pos hsp]
      exact rounded_forall₂_step A t d L hL _ _
        (rounded_forall₂_spawn A t D d L hLpos p hp hd r _ _ hrel)
  · rw [if_neg hsp] at htimer
    have ha1 : x.1 + 1 < G := by omega
    have hiter := Function.iterate_succ_apply' (Rounded.timerStep A t) x.1 D
    have hnot : 0 < A.rnd (s.nextGrainTime - p.sampleTime) := by
      rw [hst, htimer]
      show 0 < Rounded.timerStep A t ((Rounded.timerStep A t)^[x.1] D)
      rw [← hiter]
      exact hbefore (x.1 + 1) (Nat.succ_pos _) ha1
    obtain ⟨e1, e2⟩ := rounded_spawnStep_of_not_due A p s r hnot
    have hnew : (Rounded.processStream A p s r).1.nextGrainTime
        = (Rounded.timerStep A t)^[x.1 + 1] D := by
      rw [hnext, e2, hst, htimer, hiter]
      rfl
    refine ⟨⟨?_, ?_, ?_⟩, ⟨fun hc => absurd hc (not_le.mpr hnot), fun hc => absurd hc hsp⟩⟩
    · rw [Rounded.ghostTick, if_neg hsp]
      exact ha1
    · rw [hnew, Rounded.ghostTick, if_neg hsp]
      show (if x.1 + 1 + 1 = G then A.rnd ((Rounded.timerStep A t)^[x.1 + 1] D - t) ≤ 0
        else (Rounded.timerStep A t)^[x.1 + 1] D = (Rounded.timerStep A t)^[x.1 + 1] D)
      split_ifs with h1
      · have h2 := Function.iterate_succ_apply' (Rounded.timerStep A t) (x.1 + 1) D
        have : A.rnd ((Rounded.timerStep A t)^[x.1 + 1] D - t)
            = (Rounded.timerStep A t)^[G] D := by
          rw [← h1, h2]
          rfl
        rw [this]
        exact hat
      · rfl
    · rw [hgrains, e1, hst, Rounded.ghostTick, if_neg hsp]
      exact rounded_forall₂_step A t d L hL _ _ hrel

/-- The state of the stream of the steady scenario after `k` ticks is the one
described by `ghostAfter`. -/
theorem sim_after (A : Arith α) (t D d : α) (G L : Nat) (hstart : A.rnd (0 - t) ≤ 0)
    (hD : A.rnd 0.001 ≤ D) (hd : A.rnd 0.001 ≤ d ∧ d ≤ A.rnd 0.2)
    (hG : Rounded.ExpiresAfter A t D G) (hL : Rounded.LivesFor A t d L)
    (ps : Nat → Params α) (rs : Nat → Rng α)
    (hps : ∀ k, Rounded.SteadyParams A t D d (ps k)) (k : Nat) :
    Rounded.Sim A t D d G L (Rounded.ghostAfter G L k)
      (Rounded.streamAfter A ps rs (Rounded.streamInit A) k) := by
  induction k with
  | zero =>
    have h : G - 1 + 1 = G := by have := hG.1; omega
    refine ⟨?_, ?_, ?_⟩
    · show G - 1 < G
      omega
    · show (if G - 1 + 1 = G then A.rnd ((0 : α) - t) ≤ 0 else _)
      rw [if_pos h]
      exact hstart
    · exact forall₂_replicate _ _ _ rfl _
  | succ k ih =>
    exact (sim_step A t D d G L hD hd hG hL (ps k) (hps k) (rs k) _ _ ih).1

end RoundedSlots

section GhostAges

/-- The ages stay distinct, below the grain life and in step with the timer
over a tick. -/
theorem agesOk_ghostTick (G L : Nat) (x : Nat × List (Option Nat))
    (h : AgesOk G L x.1 x.2) :
    AgesOk G L (Rounded.ghostTick G L x).1 (Rounded.ghostTick G L x).2 := by
  obtain ⟨hlen, hnd, hmem⟩ := h
  by_cases hsp : x.1 + 1 = G
  · rw [Rounded.ghostTick, if_pos hsp]
    refine ⟨?_, ?_, ?_⟩
    · show ((fillFirst x.2).map _).length = _
      rw [List.length_map, fillFirst_length, hlen]
    · show ((fillFirst x.2).map _).reduceOption.Nodup
      rw [reduceOption_map_bind]
      apply nodup_filterMap_ageStep
      apply nodup_fillFirst _ hnd
      intro n hn
      obtain ⟨-, j, hj⟩ := hmem n hn
      omega
    · intro n' hn'
      have hn'' : n' ∈ ((fillFirst x.2).map (fun o => o.bind (ageStep L))).reduceOption := hn'
      rw [reduceOption_map_bind, List.mem_filterMap] at hn''
      obtain ⟨n, hn, hstep⟩ := hn''
      obtain ⟨hn1, hn2⟩ := ageStep_eq_some _ n n' hstep
      refine ⟨by omega, ?_⟩
      rcases mem_fillFirst x.2 n hn with h0 | h1
      · exact ⟨0, by show n' = 0 + 1 + 0 * G; omega⟩
      · obtain ⟨-, j, hj⟩ := hmem n h1
        refine ⟨j + 1, ?_⟩
        show n' = 0 + 1 + (j + 1) * G
        rw [hn1, hj, hsp]
        ring
  · rw [Rounded.ghostTick, if_neg hsp]
    refine ⟨?_, ?_, ?_⟩
    · show (x.2.map _).length = _
      rw [List.length_map, hlen]
    · show (x.2.map _).reduceOption.Nodup
      rw [reduceOption_map_bind]
      exact nodup_filterMap_ageStep _ _ hnd
    · intro n' hn'
      have hn'' : n' ∈ (x.2.map (fun o => o.bind (ageStep L))).reduceOption := hn'
      rw [reduceOption_map_bind, List.mem_filterMap] at hn''
      obtain ⟨n, hn, hstep⟩ := hn''
      obtain ⟨hn1, hn2⟩ := ageStep_eq_some _ n n' hstep
      obtain ⟨-, j, hj⟩ := hmem n hn
      exact ⟨by omega, j, by show n' = x.1 + 1 + 1 + j * G; omega⟩

/-- The ticks since the last expiry and the ages of a fresh stream after `k`
ticks. -/
theorem ghostAfter_ok (G L : Nat) (hG : 0 < G) (k : Nat) :
    (Rounded.ghostAfter G L k).1 < G ∧
    ((Rounded.ghostAfter G L k).1 + 1) % G = k % G ∧
    AgesOk G L (Rounded.ghostAfter G L k).1 (Rounded.ghostAfter G L k).2 := by
  induction k with
  | zero =>
    have h : G - 1 + 1 = G := by omega
    refine ⟨?_, ?_, ?_, ?_, ?_⟩
    · show G - 1 < G
      omega
    · show (G - 1 + 1) % G = 0 % G
      rw [h, Nat.mod_self, Nat.zero_mod]
    · exact List.length_replicate _ _
    · show (List.replicate GRAINS_PER_STREAM (none : Option Nat)).reduceOption.Nodup
      simp [GRAINS_PER_STREAM, List.replicate, List.reduceOption_cons_of_none]
    · intro n hn
      have hn' : n ∈ (List.replicate GRAINS_PER_STREAM (none : Option Nat)).reduceOption := hn
      simp [GRAINS_PER_STREAM, List.replicate, List.reduceOption_cons_of_none] at hn'
  | succ k ih =>
    obtain ⟨haG, hmod, hok⟩ := ih
    refine ⟨?_, ?_, agesOk_ghostTick G L _ hok⟩
    · show (Rounded.ghostTick G L (Rounded.ghostAfter G L k)).1 < G
      rw [Rounded.ghostTick]
      split_ifs with hsp
      · exact hG
      · show (Rounded.ghostAfter G L k).1 + 1 < G
        omega
    · show ((Rounded.ghostTick G L (Rounded.ghostAfter G L k)).1 + 1) % G = (k + 1) % G
      rw [Rounded.ghostTick]
      split_ifs with hsp
      · show (0 + 1) % G = (k + 1) % G
        rw [hsp, Nat.mod_self] at hmod
        rw [Nat.add_mod k 1, ← hmod, Nat.zero_add, Nat.zero_add, Nat.mod_mod]
      · show ((Rounded.ghostAfter G L k).1 + 1 + 1) % G = (k + 1) % G
        rw [Nat.add_mod _ 1, hmod, ← Nat.add_mod]

/-- When the grain life is at most 20 spawn periods, a slot is free whenever
the spawn period is complete. -/
theorem none_mem_of_capacity (G L : Nat) (hcap : L ≤ GRAINS_PER_STREAM * G)
    (a : Nat) (ages : List (Option Nat)) (h : AgesOk G L a ages) (hsp : a + 1 = G) :
    none ∈ ages := by
  obtain ⟨hlen, hnd, hmem⟩ := h
  have hmult : ∀ n ∈ ages.reduceOption, n < 20 * G ∧ ∃ j : Nat, n = (j + 1) * G := by
    intro n hn
    obtain ⟨hnL, j, hj⟩ := hmem n hn
    refine ⟨lt_of_lt_of_le hnL hcap, j, ?_⟩
    rw [hj, hsp]
    ring
  have hcount := length_le_of_multiples _ _ hnd hmult
  rw [← List.reduceOption_length_lt_iff, hlen]
  exact lt_of_le_of_lt hcount (by decide)

end GhostAges

section RoundedSteady

variable {α : Type} [LinearOrderedField α] [FloorRing α]

/-- C26 (no drop below capacity), corrected.  For a stream of the freshly
constructed engine that is processed on every tick with tick size `t`,
variation at most 0.01, base interval `D ≥ 0.001` and grain duration `d` in
`[0.001, 0.2]`: let `L` be the number of advances a grain of duration `d`
lives and `G` the number of decrements after which a timer set to `D`
expires, both with the results rounded as the engine rounds them.  If
`L ≤ 20 * G` then the timer expires exactly on the ticks that are multiples
of `G`, the pool has an inactive slot on each of them, and the spawn step
triggers exactly one grain on them and none on the other ticks. -/
theorem no_drop_within_capacity (A : Arith α) (t D d : α) (G L : Nat)
    (hstart : A.rnd (0 - t) ≤ 0) (hD : A.rnd 0.001 ≤ D)
    (hd : A.rnd 0.001 ≤ d ∧ d ≤ A.rnd 0.2)
    (hG : Rounded.ExpiresAfter A t D G) (hL : Rounded.LivesFor A t d L)
    (hcap : L ≤ GRAINS_PER_STREAM * G)
    (ps : Nat → Params α) (rs : Nat → Rng α)
    (hps : ∀ k, Rounded.SteadyParams A t D d (ps k)) (k : Nat) :
    (Rounded.expiresOn A ps rs (Rounded.streamInit A) k ↔ k % G = 0) ∧
    (Rounded.expiresOn A ps rs (Rounded.streamInit A) k →
      ∃ g ∈ (Rounded.streamAfter A ps rs (Rounded.streamInit A) k).grains,
        g.active = false) ∧
    triggeredSlots (Rounded.streamAfter A ps rs (Rounded.streamInit A) k).grains
      (Rounded.spawnStep A (ps k)
        (Rounded.streamAfter A ps rs (Rounded.streamInit A) k) (rs k)).1.grains
      = (if k % G = 0 then 1 else 0) := by
  have hsim := sim_after A t D d G L hstart hD hd hG hL ps rs hps k
  obtain ⟨haG, hmod, hok⟩ := ghostAfter_ok G L hG.1 k
  have hexp := (sim_step A t D d G L hD hd hG hL (ps k) (hps k) (rs k) _ _ hsim).2
  have hiff : (Rounded.ghostAfter G L k).1 + 1 = G ↔ k % G = 0 := by
    rw [← hmod]
    constructor
    · intro h
      rw [h, Nat.mod_self]
    · intro h
      have hdvd : G ∣ (Rounded.ghostAfter G L k).1 + 1 := Nat.dvd_of_mod_eq_zero h
      have := Nat.le_of_dvd (by omega) hdvd
      omega
  have hfree : (Rounded.ghostAfter G L k).1 + 1 = G →
      ∃ g ∈ (Rounded.streamAfter A ps rs (Rounded.streamInit A) k).grains,
        g.active = false := fun hsp =>
    rounded_exists_inactive A t d L _ _ hsim.2.2
      (none_mem_of_capacity G L hcap _ _ hok hsp)
  refine ⟨hexp.trans hiff, fun h => hfree (hexp.mp h), ?_⟩
  by_cases hsp : (Rounded.ghostAfter G L k).1 + 1 = G
  · rw [if_pos (hiff.mp hsp), (rounded_spawnStep_of_due A _ _ _ (hexp.mpr hsp)).1]
    exact rounded_triggeredSlots_spawnGrain A _ _ _ (hfree hsp)
  · have hnot : 0 < A.rnd ((Rounded.streamAfter A ps rs (Rounded.streamInit A) k).nextGrainTime
        - (ps k).sampleTime) := by
      by_contra hc
      exact hsp (hexp.mp (not_lt.mp hc))
    rw [if_neg (fun hc => hsp (hiff.mpr hc)),
      (rounded_spawnStep_of_not_due A _ _ _ hnot).1, triggeredSlots_self]

end RoundedSteady

section Binary32Steady

theorem round32_ms : round32 (1 / 1000) = 8589935 / 8589934592 := by decide!

/-- In binary32 a timer set to 1 ms expires on the 48th decrement at 48 kHz. -/
theorem expires_one_ms :
    Rounded.ExpiresAfter binary32 (round32 (1 / 48000)) (round32 (1 / 1000)) 48 :=
  expiresAfter_of_firstHit binary32 _ _ 100 48 (by decide!)

/-- In binary32 a grain of 5 ms lives 241 advances at 48 kHz. -/
theorem lives_five_ms :
    Rounded.LivesFor binary32 (round32 (1 / 48000)) (round32 (5 / 1000)) 241 :=
  livesFor_of_firstHit binary32 _ _ 300 241 (by decide!)

theorem crowdedParams_steady :
    Rounded.SteadyParams binary32 (round32 (1 / 48000)) (round32 (1 / 1000))
      (round32 (20 / 1000)) Rounded.crowdedParams :=
  ⟨rfl, by decide!, by decide!, rfl⟩

theorem sparseParams_steady :
    Rounded.SteadyParams binary32 (round32 (1 / 48000)) (round32 (1 / 1000))
      (round32 (5 / 1000)) Rounded.sparseParams :=
  ⟨rfl, by decide!, by decide!, rfl⟩

theorem ghostAfter_crowded :
    Rounded.ghostAfter 48 961 960 =
      (47, [some 960, some 912, some 864, some 816, some 768, some 720, some 672,
        some 624, some 576, some 528, some 480, some 432, some 384, some 336,
        some 288, some 240, some 192, some 144, some 96, some 48]) := by
  decide!

/-- In binary32, with density 1000, grain duration 20 ms and no variation at
48 kHz, `ceil (d / t) = 960 ≤ 20 * ceil (D / t)` (for the decimal values and
for the binary32 values the engine holds), and yet on tick 960 the timer
expires while all 20 slots are active: no grain is triggered. -/
theorem drop_at_capacity :
    Rounded.SteadyParams binary32 (round32 (1 / 48000)) (round32 (1 / 1000))
      (round32 (20 / 1000)) Rounded.crowdedParams ∧
    ⌈(0.02 : ℚ) / (1 / 48000)⌉₊ ≤
      GRAINS_PER_STREAM * ⌈(0.001 : ℚ) / (1 / 48000)⌉₊ ∧
    ⌈round32 (20 / 1000) / round32 (1 / 48000)⌉₊ ≤
      GRAINS_PER_STREAM * ⌈round32 (1 / 1000) / round32 (1 / 48000)⌉₊ ∧
    Rounded.expiresOn binary32 (fun _ => Rounded.crowdedParams) (fun _ _ => 0)
      (Rounded.streamInit binary32) 960 ∧
    (∀ g ∈ (Rounded.streamAfter binary32 (fun _ => Rounded.crowdedParams) (fun _ _ => 0)
      (Rounded.streamInit binary32) 960).grains, g.active = true) ∧
    triggeredSlots
      (Rounded.streamAfter binary32 (fun _ => Rounded.crowdedParams) (fun _ _ => 0)
        (Rounded.streamInit binary32) 960).grains
      (Rounded.spawnStep binary32 Rounded.crowdedParams
        (Rounded.streamAfter binary32 (fun _ => Rounded.crowdedParams) (fun _ _ => 0)
          (Rounded.streamInit binary32) 960) (fun _ => 0)).1.grains = 0 := by
  have hsim := sim_after binary32 (round32 (1 / 48000)) (round32 (1 / 1000))
    (round32 (20 / 1000)) 48 961 (by decide!) (by decide!) (by decide!)
    expires_one_ms lives_twenty_ms (fun _ => Rounded.crowdedParams) (fun _ _ => 0)
    (fun _ => crowdedParams_steady) 960
  have hexp := (sim_step binary32 (round32 (1 / 48000)) (round32 (1 / 1000))
    (round32 (20 / 1000)) 48 961 (by decide!) (by decide!)
    expires_one_ms lives_twenty_ms Rounded.crowdedParams crowdedParams_steady
    (fun _ => 0) _ _ hsim).2
  rw [ghostAfter_crowded] at hsim hexp
  have hdue := hexp.mpr rfl
  have hall := rounded_all_active binary32 _ _ _ _ _ hsim.2.2 (by decide)
  refine ⟨crowdedParams_steady, ?_, ?_, hdue, hall, ?_⟩
  · have h1 : ⌈(0.02 : ℚ) / (1 / 48000)⌉₊ = 960 := by
      rw [Nat.ceil_eq_iff (by norm_num)]
      norm_num
    have h2 : ⌈(0.001 : ℚ) / (1 / 48000)⌉₊ = 48 := by
      rw [Nat.ceil_eq_iff (by norm_num)]
      norm_num
    rw [h1, h2]
    decide
  · have h1 : ⌈round32 (20 / 1000) / round32 (1 / 48000)⌉₊ = 960 := by
      rw [round32_tick, round32_twenty_ms, Nat.ceil_eq_iff (by norm_num)]
      norm_num
    have h2 : ⌈round32 (1 / 1000) / round32 (1 / 48000)⌉₊ = 49 := by
      rw [round32_tick, round32_ms, Nat.ceil_eq_iff (by norm_num)]
      norm_num
    rw [h1, h2]
    decide
  · rw [(rounded_spawnStep_of_due binary32 _ _ _ hdue).1,
      rounded_spawnGrain_of_full binary32 _ _ _ hall, triggeredSlots_self]

/-- In binary32, with density 1000, grain duration 5 ms and no variation at
48 kHz (grains live 241 ticks, the timer expires every 48 ticks), the timer
expires on tick 48, a slot is free and one grain is triggered. -/
theorem no_drop_within_capacity_witness :
    (Rounded.expiresOn binary32 (fun _ => Rounded.sparseParams) (fun _ _ => 0)
      (Rounded.streamInit binary32) 48 ↔ 48 % 48 = 0) ∧
    (Rounded.expiresOn binary32 (fun _ => Rounded.sparseParams) (fun _ _ => 0)
      (Rounded.streamInit binary32) 48 →
      ∃ g ∈ (Rounded.streamAfter binary32 (fun _ => Rounded.sparseParams) (fun _ _ => 0)
        (Rounded.streamInit binary32) 48).grains, g.active = false) ∧
    triggeredSlots
      (Rounded.streamAfter binary32 (fun _ => Rounded.sparseParams) (fun _ _ => 0)
        (Rounded.streamInit binary32) 48).grains
      (Rounded.spawnStep binary32 Rounded.sparseParams
        (Rounded.streamAfter binary32 (fun _ => Rounded.sparseParams) (fun _ _ => 0)
          (Rounded.streamInit binary32) 48) (fun _ => 0)).1.grains
      = (if 48 % 48 = 0 then 1 else 0) :=
  no_drop_within_capacity binary32 (round32 (1 / 48000)) (round32 (1 / 1000))
    (round32 (5 / 1000)) 48 241 (by decide!) (by decide!) (by decide!)
    expires_one_ms lives_five_ms (by decide)
    (fun _ => Rounded.sparseParams) (fun _ _ => 0) (fun _ => sparseParams_steady) 48

end Binary32Steady

end Gsx

namespace QuadLFO

open Gsx

section ZeroAlignment

/-- C29 (QuadLFO zero alignment).  At phase 0 the sine, triangle, sawtooth and
square of `generateWave` are all 0, so for every shape `s ≤ 0.75` (in particular `0 ≤ s ≤ 0.75`), every
output index, every module state and every tick size the sample returned by
`generateWave 0 s` is 0. -/
theorem generateWave_zero_phase (s : ℝ) (hs : s ≤ 0.75) (i : Fin 4)
    (sampleTime : ℝ) (st : State ℝ) (r : Rng ℝ) :
    (generateWave 0 s i sampleTime st r).1 = 0 := by
  have hsin : FloatMath.sin ((0 : ℝ) * 2 * FloatMath.pi) = 0 := by
    rw [realMath_sin]
    simp
  have hsq : (0 : ℝ) < 0.001 ∨ (0 : ℝ) > 0.999 := Or.inl (by norm_num)
  simp only [generateWave, hsin, if_pos hsq, if_pos hs]
  norm_num

/-- The sample of `generateWave` at phase 0 and shape 0.6 for a fresh module. -/
theorem generateWave_zero_phase_witness :
    (generateWave (0 : ℝ) 0.6 2 (1 / 48000) State.init (fun _ => 0)).1 = 0 :=
  generateWave_zero_phase 0.6 (by norm_num) 2 (1 / 48000) State.init
    (fun _ => 0)

end ZeroAlignment

section MinMax

variable {α : Type} [LinearOrderedField α] [FloorRing α]

theorem wrapUp_of_nonneg (x : α) (h : 0 ≤ x) : wrapUp x = x := by
  rw [wrapUp, if_neg (not_lt.mpr h)]

/-- Both wrap loops leave a value of `[0, 1)` alone. -/
theorem wrap_of_mem (x : α) (h0 : 0 ≤ x) (h1 : x < 1) : wrapPhase (wrapUp x) = x := by
  rw [wrapUp_of_nonneg x h0, wrapPhase_of_lt_one x h1]

/-- With stability 0, a Lorenz state with `x = 1`, `y > 0` and `z ≤ 25` and an
adjusted phase in `[0.42, 0.45]`, the modulated phase is in `[1/3, 1/2]`, the
amplitude factor is above 1 and `lorenzZ` is not positive. -/
theorem drift_modulation (p : Params α) (l : LorenzState α) (a : α)
    (hst : p.stability = 0) (hx : l.x = 1) (hy : 0 < l.y) (hz : l.z ≤ 25)
    (ha : 0.42 ≤ a ∧ a ≤ 0.45) :
    (1 / 3 ≤ freqModulatedPhase p l a ∧ freqModulatedPhase p l a ≤ 1 / 2) ∧
    1 < ampMod p l ∧ (-1 ≤ lorenzZ l ∧ lorenzZ l ≤ 0) := by
  have hinst : instabilityAmount p = 1 := by
    rw [instabilityAmount, hst, sub_zero]
  have hlx : lorenzX l = 1 / 20 := by
    rw [lorenzX, hx]
    exact clamp_of_mem _ _ _ (by norm_num) (by norm_num)
  have hlz : -1 ≤ lorenzZ l ∧ lorenzZ l ≤ 0 := by
    refine ⟨lo_le_clamp _ _ _, ?_⟩
    unfold lorenzZ clamp
    apply max_le _ (by norm_num)
    apply le_trans (min_le_left _ _)
    apply div_nonpos_of_nonpos_of_nonneg (by linarith) (by norm_num)
  have hly : 0 < lorenzY l := by
    unfold lorenzY clamp
    apply lt_of_lt_of_le _ (le_max_left _ _)
    exact lt_min (div_pos hy (by norm_num)) one_pos
  have hamp : 1 < ampMod p l := by
    unfold ampMod clamp
    rw [hinst]
    apply lt_of_lt_of_le _ (le_max_left _ _)
    apply lt_min _ (by norm_num)
    nlinarith
  have hdr : driftedPhase p l a = a + 1 / 200 := by
    have h : a + lorenzX l * instabilityAmount p * 0.1 = a + 1 / 200 := by
      rw [hlx, hinst]
      norm_num
    simp only [driftedPhase]
    rw [h]
    exact wrap_of_mem _ (by linarith [ha.1]) (by linarith [ha.2])
  have hprod1 : 1 / 3 ≤ (a + 1 / 200) * (1 + lorenzZ l * 1 * 0.05) := by
    nlinarith [ha.1, ha.2, hlz.1, hlz.2]
  have hprod2 : (a + 1 / 200) * (1 + lorenzZ l * 1 * 0.05) ≤ 1 / 2 := by
    nlinarith [ha.1, ha.2, hlz.1, hlz.2]
  have hfm : freqModulatedPhase p l a = (a + 1 / 200) * (1 + lorenzZ l * 1 * 0.05) := by
    simp only [freqModulatedPhase]
    rw [hdr, hinst]
    exact wrap_of_mem _ (by linarith) (by linarith)
  rw [hfm]
  exact ⟨⟨hprod1, hprod2⟩, hamp, hlz⟩

end MinMax

section MinMaxReal

/-- At shape 0.75 the sample of `generateWave` is the square, which is 1 on
the phases of `[1/3, 1/2]`. -/
theorem generateWave_square (phase : ℝ) (h : 1 / 3 ≤ phase ∧ phase ≤ 1 / 2) (i : Fin 4)
    (sampleTime : ℝ) (st : State ℝ) (r : Rng ℝ) :
    (generateWave phase 0.75 i sampleTime st r).1 = 1 := by
  have hsin : FloatMath.sin (phase * 2 * FloatMath.pi) ≥ 0 := by
    rw [realMath_sin, realMath_pi]
    apply Real.sin_nonneg_of_nonneg_of_le_pi
    · have := Real.pi_pos
      nlinarith [h.1]
    · have := Real.pi_pos
      nlinarith [h.2]
  have hedge : ¬ (phase < 0.001 ∨ phase > 0.999) := by
    rintro (hc | hc)
    · have := h.1
      norm_num at hc
      linarith
    · have := h.2
      norm_num at hc
      linarith
  have h1 : ¬ ((0.75 : ℝ) ≤ 0.25) := by norm_num
  have h2 : ¬ ((0.75 : ℝ) ≤ 0.5) := by norm_num
  simp only [generateWave, if_neg h1, if_neg h2, le_refl, if_true, if_pos hsin, if_neg hedge]
  norm_num

/-- The third harmonic is not positive on the phases of `[1/3, 1/2]`. -/
theorem sin_three_pi_nonpos (phase : ℝ) (h : 1 / 3 ≤ phase ∧ phase ≤ 1 / 2) :
    FloatMath.sin (phase * 3 * FloatMath.pi) ≤ 0 := by
  rw [realMath_sin, realMath_pi]
  have hpi := Real.pi_pos
  have h1 : 0 ≤ Real.sin (phase * 3 * Real.pi - Real.pi) := by
    apply Real.sin_nonneg_of_nonneg_of_le_pi
    · nlinarith [h.1]
    · nlinarith [h.2]
  rw [Real.sin_sub_pi] at h1
  linarith

/-- The state parts that the wave of an output leaves alone. -/
theorem outputWave_frame (p : Params ℝ) (st : State ℝ) (r : Rng ℝ) (i : Fin 4) :
    (outputWave p st r i).2.1.phases = st.phases ∧
    (outputWave p st r i).2.1.lorenz = st.lorenz := by
  unfold outputWave
  split_ifs <;> exact ⟨rfl, rfl⟩

/-- With stability 0, shape 0.75, centre 5 and Y spread 5, an output whose
Lorenz state has `x = 1`, `y > 0`, `z ≤ 25` and whose adjusted phase is in
`[0.42, 0.45]` is above 10. -/
theorem output_above_ten (p : Params ℝ) (st : State ℝ) (r : Rng ℝ) (i : Fin 4)
    (hst : p.stability = 0) (hsh : p.shape = 0.75) (hc : p.center = 5)
    (hys : p.ySpread = 5) (hx : (st.lorenz i).x = 1) (hy : 0 < (st.lorenz i).y)
    (hz : (st.lorenz i).z ≤ 25)
    (ha : 0.42 ≤ adjustedPhase p st i ∧ adjustedPhase p st i ≤ 0.45) :
    10 < p.center + (outputWave p st r i).1 * p.ySpread := by
  obtain ⟨hph, hamp, hlz⟩ :=
    drift_modulation p (st.lorenz i) (adjustedPhase p st i) hst hx hy hz ha
  have hlt : p.stability < 1 := by
    rw [hst]
    exact zero_lt_one
  have hinst : instabilityAmount p = 1 := by
    rw [instabilityAmount, hst, sub_zero]
  have hharm := sin_three_pi_nonpos _ hph
  have hval : (outputWave p st r i).1 =
      1 * ampMod p (st.lorenz i)
        + FloatMath.sin (freqModulatedPhase p (st.lorenz i) (adjustedPhase p st i) * 3
            * FloatMath.pi) * lorenzZ (st.lorenz i) * instabilityAmount p * 0.1 := by
    simp only [outputWave, if_pos hlt, hsh]
    rw [generateWave_square _ hph]
  rw [hval, hc, hys, hinst]
  have hprod : 0 ≤ FloatMath.sin (freqModulatedPhase p (st.lorenz i)
      (adjustedPhase p st i) * 3 * FloatMath.pi) * lorenzZ (st.lorenz i) :=
    mul_nonneg_of_nonpos_of_nonpos hharm hlz.2
  nlinarith

/-- When every output computed from a state with the phases and Lorenz
states of `st` is above 10, the passes of the output loop keep `minVal = 10`,
and every value they write is above 10. -/
theorem foldl_outputStep_above_ten (p : Params ℝ) (st : State ℝ)
    (H : ∀ (st' : State ℝ) (r' : Rng ℝ) (i : Fin 4), st'.phases = st.phases →
      st'.lorenz = st.lorenz → 10 < p.center + (outputWave p st' r' i).1 * p.ySpread)
    (is : List (Fin 4)) :
    ∀ a : Loop ℝ, a.minVal = 10 → a.st.phases = st.phases → a.st.lorenz = st.lorenz →
      (∀ o ∈ a.outputs, 10 < o) →
      (is.foldl (outputStep p) a).minVal = 10 ∧
      (∀ o ∈ (is.foldl (outputStep p) a).outputs, 10 < o) ∧
      (is.foldl (outputStep p) a).outputs.length = a.outputs.length + is.length := by
  induction is with
  | nil =>
    intro a hm _ _ ho
    exact ⟨hm, ho, rfl⟩
  | cons i is ih =>
    intro a hm hp hl ho
    have hout := H a.st a.r i hp hl
    have hf := outputWave_frame p a.st a.r i
    have hm' : (outputStep p a i).minVal = 10 := by
      show min a.minVal _ = 10
      rw [hm, min_eq_left (le_of_lt hout)]
    have hp' : (outputStep p a i).st.phases = st.phases := by
      show (outputWave p a.st a.r i).2.1.phases = _
      rw [hf.1, hp]
    have hl' : (outputStep p a i).st.lorenz = st.lorenz := by
      show (outputWave p a.st a.r i).2.1.lorenz = _
      rw [hf.2, hl]
    have ho' : ∀ o ∈ (outputStep p a i).outputs, 10 < o := by
      intro o hmem
      have hmem' : o ∈ a.outputs ++ [p.center + (outputWave p a.st a.r i).1 * p.ySpread] :=
        hmem
      rcases List.mem_append.mp hmem' with h | h
      · exact ho o h
      · rw [List.mem_singleton.mp h]
        exact hout
    obtain ⟨h1, h2, h3⟩ := ih (outputStep p a i) hm' hp' hl' ho'
    refine ⟨h1, h2, ?_⟩
    rw [List.foldl_cons, h3]
    show (a.outputs ++ [_]).length + is.length = _
    simp only [List.length_append, List.length_cons, List.length_nil]
    omega

/-- The state before the output loop for `driftParams` and `driftState`. -/
theorem advanceState_drift (i : Fin 4) :
    ((advanceState (driftParams : Params ℝ) driftState).lorenz i).x = 1 ∧
    0 < ((advanceState (driftParams : Params ℝ) driftState).lorenz i).y ∧
    ((advanceState (driftParams : Params ℝ) driftState).lorenz i).z ≤ 25 ∧
    (advanceState (driftParams : Params ℝ) driftState).phases 0 = 0.43 + 1 / 48000 := by
  refine ⟨?_, ?_, ?_, ?_⟩
  · fin_cases i <;>
      norm_num [advanceState, lorenzStep, driftParams, driftState, lorenzSigma]
  · fin_cases i <;>
      norm_num [advanceState, lorenzStep, driftParams, driftState, lorenzRho]
  · fin_cases i <;>
      norm_num [advanceState, lorenzStep, driftParams, driftState, lorenzBeta]
  · norm_num [advanceState, driftParams, driftState]

/-- Every output computed for `driftParams` from a state that has the phases
and Lorenz states of the state before the output loop is above 10. -/
theorem drift_output_above_ten (st : State ℝ) (r : Rng ℝ) (i : Fin 4)
    (hph : st.phases = (advanceState (driftParams : Params ℝ) driftState).phases)
    (hlo : st.lorenz = (advanceState (driftParams : Params ℝ) driftState).lorenz) :
    10 < (driftParams : Params ℝ).center
      + (outputWave driftParams st r i).1 * (driftParams : Params ℝ).ySpread := by
  obtain ⟨hx, hy, hz, hp0⟩ := advanceState_drift i
  have hadj : adjustedPhase (driftParams : Params ℝ) st i = 0.43 + 1 / 48000 := by
    simp only [adjustedPhase, phaseOffsets, hph, hp0]
    norm_num [driftParams]
  apply output_above_ten driftParams st r i rfl rfl rfl rfl
  · rw [hlo]; exact hx
  · rw [hlo]; exact hy
  · rw [hlo]; exact hz
  · rw [hadj]
    constructor <;> norm_num

/-- C28 (QuadLFO Min/Max outputs), the code for `driftParams` and
`driftState`: the four outputs A, B, C and D are all above 10 while the value
written to the Min output is 10, the initial value of `minVal`. -/
theorem min_output_is_sentinel :
    (process (driftParams : Params ℝ) driftState (fun _ => 0.5)).2.2.outMin = 10 ∧
    10 < (process (driftParams : Params ℝ) driftState (fun _ => 0.5)).2.2.outA ∧
    10 < (process (driftParams : Params ℝ) driftState (fun _ => 0.5)).2.2.outB ∧
    10 < (process (driftParams : Params ℝ) driftState (fun _ => 0.5)).2.2.outC ∧
    10 < (process (driftParams : Params ℝ) driftState (fun _ => 0.5)).2.2.outD := by
  obtain ⟨hmin, hall, hlen⟩ :=
    foldl_outputStep_above_ten (driftParams : Params ℝ)
      (advanceState driftParams driftState)
      (fun st' r' i hp hl => drift_output_above_ten st' r' i hp hl) [0, 1, 2, 3]
      (Loop.start (advanceState driftParams driftState) (fun _ => 0.5))
      rfl rfl rfl (fun o ho => by cases ho)
  have hlen4 : (outputLoop (driftParams : Params ℝ) (advanceState driftParams driftState)
      (fun _ => 0.5)).outputs.length = 4 := hlen
  have hget : ∀ k : Nat, k < 4 →
      10 < (outputLoop (driftParams : Params ℝ) (advanceState driftParams driftState)
        (fun _ => 0.5)).outputs.getD k 0 := by
    intro k hk
    rw [List.getD_eq_getElem _ _ (by rw [hlen4]; exact hk)]
    exact hall _ (List.getElem_mem _)
  exact ⟨hmin, hget 0 (by norm_num), hget 1 (by norm_num), hget 2 (by norm_num),
    hget 3 (by norm_num)⟩

end MinMaxReal

end QuadLFO
